import Mathlib

/-!
# pzip: ZIP writer, per-entry staging object, worker and archiver

A shallow embedding of `writer.go`, `object.go`, `path.go`, `worker.go` and `archiver.go` of
the pzip archiver.

Conventions of the embedding:
* a Go `string` or `[]byte` is a `List Nat` of byte values;
* a Go `uintN` is a `Nat`, conversions `uintN(x)` and wrapping sums are written
  `x % 2 ^ N`;
* a `*FileHeader` held by the writer is an address (`Nat`) into a `Heap` of `FileHeader`
  values, because the writer keeps the pointer of the caller and mutates through it;
* Go methods with side effects return the new state next to their result, an `error` is an
  `Option String` (`none` for `nil`);
* what the operating system and the Go library decide (failing writes, link targets, file
  contents, `strings.ToLower`, the DEFLATE codec) is a parameter: the `room` of a sink or a
  file, and the fields of `Host`.
-/

namespace Pzip

/-! ## Constants (writer.go, lines 15-59) -/

def fileHeaderSignature : Nat := 0x04034b50
def directoryHeaderSignature : Nat := 0x02014b50
def directoryEndSignature : Nat := 0x06054b50
def directory64LocSignature : Nat := 0x07064b50
def directory64EndSignature : Nat := 0x06064b50
def fileHeaderLen : Nat := 30
def directoryHeaderLen : Nat := 46
def directoryEndLen : Nat := 22
def directory64LocLen : Nat := 20
def directory64EndLen : Nat := 56
def zipVersion20 : Nat := 20
def zipVersion45 : Nat := 45
def uint16max : Nat := 2 ^ 16 - 1
def uint32max : Nat := 2 ^ 32 - 1
def zip64ExtraID : Nat := 0x0001
def extTimeExtraID : Nat := 0x5455

/-! ## Little-endian encoding (encoding/binary) -/

/-- The `n` little-endian bytes of `v`, as `binary.LittleEndian.PutUintN` stores them. -/
def leBytes : Nat → Nat → List Nat
  | 0, _ => []
  | n + 1, v => (v % 256) :: leBytes n (v / 256)

def le16 (v : Nat) : List Nat := leBytes 2 v
def le32 (v : Nat) : List Nat := leBytes 4 v
def le64 (v : Nat) : List Nat := leBytes 8 v

/-! ## writeBuf (writer.go, lines 398-418)

A `writeBuf` is a slice into a fixed backing array: `buf` is the backing array and `pos`
the index at which the slice currently starts. -/

structure writeBuf where
  buf : List Nat
  pos : Nat
deriving DecidableEq, Repr

/-- Store the bytes `bs` at index `i` onwards. -/
def putAt : List Nat → Nat → List Nat → List Nat
  | buf, _, [] => buf
  | buf, i, b :: bs => putAt (buf.set i b) (i + 1) bs

/-- A slice over a fresh zeroed array: `var a [n]byte; b := writeBuf(a[:])`. -/
def writeBuf.make (n : Nat) : writeBuf := { buf := List.replicate n 0, pos := 0 }

def writeBuf.uint8 (b : writeBuf) (v : Nat) : writeBuf :=
  { buf := putAt b.buf b.pos (leBytes 1 v), pos := b.pos + 1 }

def writeBuf.uint16 (b : writeBuf) (v : Nat) : writeBuf :=
  { buf := putAt b.buf b.pos (le16 v), pos := b.pos + 2 }

def writeBuf.uint32 (b : writeBuf) (v : Nat) : writeBuf :=
  { buf := putAt b.buf b.pos (le32 v), pos := b.pos + 4 }

def writeBuf.uint64 (b : writeBuf) (v : Nat) : writeBuf :=
  { buf := putAt b.buf b.pos (le64 v), pos := b.pos + 8 }

/-- The reslicing `b = b[k:]`. -/
def writeBuf.skip (b : writeBuf) (k : Nat) : writeBuf := { b with pos := b.pos + k }

/-- The part of the backing array before the slice: `a[:len(a)-len(b)]`. -/
def writeBuf.filled (b : writeBuf) : List Nat := b.buf.take b.pos

/-! ## FileHeader and header (archive/zip.FileHeader; writer.go, lines 61-67) -/

/-- A `time.Time`, as far as the writer looks at it: Unix seconds and nanoseconds. -/
structure Time where
  unix : Int
  nsec : Nat
deriving DecidableEq, Repr

/-- The zero `time.Time` is January 1, year 1, 00:00:00 UTC. -/
def Time.zero : Time := { unix := -62135596800, nsec := 0 }

def Time.IsZero (t : Time) : Bool := t.unix == -62135596800 && t.nsec == 0

structure FileHeader where
  Name : List Nat
  Comment : List Nat
  NonUTF8 : Bool
  CreatorVersion : Nat
  ReaderVersion : Nat
  Flags : Nat
  Method : Nat
  Modified : Time
  ModifiedTime : Nat
  ModifiedDate : Nat
  CRC32 : Nat
  CompressedSize : Nat
  UncompressedSize : Nat
  CompressedSize64 : Nat
  UncompressedSize64 : Nat
  Extra : List Nat
  ExternalAttrs : Nat
deriving DecidableEq, Repr

/-- The zero value `FileHeader{}`. -/
def FileHeader.empty : FileHeader :=
  { Name := [], Comment := [], NonUTF8 := false, CreatorVersion := 0, ReaderVersion := 0,
    Flags := 0, Method := 0, Modified := Time.zero, ModifiedTime := 0, ModifiedDate := 0,
    CRC32 := 0, CompressedSize := 0, UncompressedSize := 0, CompressedSize64 := 0,
    UncompressedSize64 := 0, Extra := [], ExternalAttrs := 0 }

/-- The record `header` with its embedded `*FileHeader` dereferenced: the functions that
work on one header read and write the file header through this view, and `CreateRaw` stores
the view back (see `headerRef`). -/
structure header where
  fh : FileHeader
  offset : Nat
  offset32 : Nat
  compressedSize32 : Nat
  uncompressedSize32 : Nat
deriving DecidableEq, Repr

def header.isZip64 (h : header) : Bool :=
  decide (h.fh.CompressedSize64 ≥ uint32max) || decide (h.fh.UncompressedSize64 ≥ uint32max)

def headerPrepareByAppend (h : header) : header :=
  let h := { h with offset32 := h.offset % 2 ^ 32,
                    compressedSize32 := h.fh.CompressedSize,
                    uncompressedSize32 := h.fh.UncompressedSize }
  if h.isZip64 || decide (h.offset ≥ uint32max) then
    let h := { h with fh := { h.fh with ReaderVersion := zipVersion45 } }
    let zip64bufData : List Nat := []
    let (h, zip64bufData) :=
      if h.isZip64 then
        ({ h with uncompressedSize32 := uint32max, compressedSize32 := uint32max },
          zip64bufData ++ le64 h.fh.UncompressedSize64 ++ le64 h.fh.CompressedSize64)
      else (h, zip64bufData)
    let (h, zip64bufData) :=
      if h.offset ≥ uint32max then
        ({ h with offset32 := uint32max }, zip64bufData ++ le64 h.offset)
      else (h, zip64bufData)
    let zip64buf : List Nat := []
    let zip64buf := zip64buf ++ le16 zip64ExtraID
    let zip64buf := zip64buf ++ le16 (zip64bufData.length % 2 ^ 16)
    let zip64buf := zip64buf ++ zip64bufData
    { h with fh := { h.fh with Extra := h.fh.Extra ++ zip64buf } }
  else h

def headerPrepareByWriteBuf (h : header) : header :=
  let h := { h with offset32 := h.offset % 2 ^ 32,
                    compressedSize32 := h.fh.CompressedSize,
                    uncompressedSize32 := h.fh.UncompressedSize }
  if h.isZip64 || decide (h.offset ≥ uint32max) then
    let h := { h with fh := { h.fh with ReaderVersion := zipVersion45 } }
    let eb := writeBuf.make 28
    let eb := eb.uint16 zip64ExtraID
    let (h, eb) :=
      if h.isZip64 && decide (h.offset ≥ uint32max) then
        let eb := eb.uint16 24
        let eb := eb.uint64 h.fh.UncompressedSize64
        let eb := eb.uint64 h.fh.CompressedSize64
        let eb := eb.uint64 h.offset
        ({ h with uncompressedSize32 := uint32max, compressedSize32 := uint32max,
                  offset32 := uint32max }, eb)
      else if h.isZip64 then
        let eb := eb.uint16 16
        let eb := eb.uint64 h.fh.UncompressedSize64
        let eb := eb.uint64 h.fh.CompressedSize64
        ({ h with uncompressedSize32 := uint32max, compressedSize32 := uint32max }, eb)
      else if h.offset ≥ uint32max then
        let eb := eb.uint16 8
        let eb := eb.uint64 h.offset
        ({ h with offset32 := uint32max }, eb)
      else (h, eb)
    { h with fh := { h.fh with Extra := h.fh.Extra ++ eb.filled } }
  else h

def header.prepare (h : header) : header := headerPrepareByWriteBuf h

/-- The ZIP64 extra block the format asks for: ID, payload length, then the promoted
fields in the order uncompressed size, compressed size, offset. -/
def zip64Block (sizes offs : Bool) (usize csize offset : Nat) : List Nat :=
  le16 0x0001
    ++ le16 (if sizes && offs then 24 else if sizes then 16 else 8)
    ++ (if sizes then le64 usize ++ le64 csize else [])
    ++ (if offs then le64 offset else [])

/-- A `header` freshly built by `CreateRaw`: only the file header and the offset are set. -/
def header.new (fh : FileHeader) (offset : Nat) : header :=
  { fh := fh, offset := offset, offset32 := 0, compressedSize32 := 0, uncompressedSize32 := 0 }

/-! ## countWriter (writer.go, lines 364-373)

The `bufio.Writer` under the `countWriter` is abstracted to the bytes it has accepted (`out`)
and to when it fails: it accepts `room` more bytes (`none`: any number) and, once a write
did not fit, reports an error on every later call. -/

structure countWriter where
  out : List Nat
  room : Option Nat
  failed : Bool
  count : Nat
deriving DecidableEq, Repr

/-- The call `w.w.Write(p)` on the underlying `bufio.Writer`: new sink state and `n`. -/
def countWriter.sinkWrite (w : countWriter) (p : List Nat) : countWriter × Nat :=
  if w.failed then (w, 0)
  else
    let n := match w.room with
      | none => p.length
      | some r => min r p.length
    ({ w with out := w.out ++ p.take n, room := w.room.map (fun r => r - n),
              failed := decide (n < p.length) }, n)

/-- The method `countWriter.Write`; the error is `some _` when the sink failed. -/
def countWriter.Write (w : countWriter) (p : List Nat) : countWriter × Nat × Option String :=
  let (w1, n) := w.sinkWrite p
  let w2 := { w1 with count := (w1.count + n) % 2 ^ 64 }
  (w2, n, if w2.failed then some "write error" else none)

/-- The method `bufio.Writer.Flush`, which reports the sticky error. -/
def countWriter.Flush (w : countWriter) : Option String :=
  if w.failed then some "write error" else none

/-! ## Writer (writer.go, lines 146-353) -/

/-- The heap of `FileHeader` values the caller and the writer share. -/
abbrev Heap := Nat → FileHeader

/-- An element of `Writer.dir`, a `*header`: the address of its `FileHeader` and the
fields of `header` proper. -/
structure headerRef where
  ptr : Nat
  offset : Nat
  offset32 : Nat
  compressedSize32 : Nat
  uncompressedSize32 : Nat
deriving DecidableEq, Repr

def headerRef.load (hp : Heap) (r : headerRef) : header :=
  { fh := hp r.ptr, offset := r.offset, offset32 := r.offset32,
    compressedSize32 := r.compressedSize32, uncompressedSize32 := r.uncompressedSize32 }

def header.ref (h : header) (ptr : Nat) : headerRef :=
  { ptr := ptr, offset := h.offset, offset32 := h.offset32,
    compressedSize32 := h.compressedSize32, uncompressedSize32 := h.uncompressedSize32 }

structure Writer where
  cw : countWriter
  dir : List headerRef
  closed : Bool
  comment : List Nat
deriving DecidableEq, Repr

/-- The constructor `NewWriter(w)` over a sink that accepts `room` bytes. -/
def NewWriter (room : Option Nat) : Writer :=
  { cw := { out := [], room := room, failed := false, count := 0 },
    dir := [], closed := false, comment := [] }

def Writer.Flush (w : Writer) : Option String := w.cw.Flush

def Writer.SetComment (w : Writer) (comment : List Nat) : Writer × Option String :=
  if comment.length > uint16max then (w, some "zip: Writer.Comment too long")
  else ({ w with comment := comment }, none)

/-- The method `Writer.prepare(fh)`: the duplicate check compares pointers. -/
def Writer.prepare (w : Writer) (fh : Nat) : Option String :=
  match w.dir.getLast? with
  | some last => if last.ptr = fh then some "archive/zip: invalid duplicate FileHeader" else none
  | none => none

/-- The 30 fixed bytes of a local file header, as `writeHeader` fills `buf`. -/
def localHeaderBuf (h : header) : List Nat :=
  let b := writeBuf.make fileHeaderLen
  let b := b.uint32 (fileHeaderSignature % 2 ^ 32)
  let b := b.uint16 h.fh.ReaderVersion
  let b := b.uint16 h.fh.Flags
  let b := b.uint16 h.fh.Method
  let b := b.uint16 h.fh.ModifiedTime
  let b := b.uint16 h.fh.ModifiedDate
  let b := b.uint32 h.fh.CRC32
  let b := b.uint32 h.compressedSize32
  let b := b.uint32 h.uncompressedSize32
  let b := b.uint16 (h.fh.Name.length % 2 ^ 16)
  let b := b.uint16 (h.fh.Extra.length % 2 ^ 16)
  b.buf

/-- The function `writeHeader(w, h)`: the sink and the header afterwards, and the error. -/
def writeHeader (w : countWriter) (h : header) : countWriter × header × Option String :=
  if h.fh.Name.length > uint16max then (w, h, some "zip: header name too long")
  else if h.fh.Extra.length > uint16max then (w, h, some "zip: header extra too long")
  else
    let h := h.prepare
    let (w, _, err) := w.Write (localHeaderBuf h)
    if err.isSome then (w, h, err)
    else
      let (w, _, err) := w.Write h.fh.Name
      if err.isSome then (w, h, err)
      else
        let (w, _, err) := w.Write h.fh.Extra
        (w, h, err)

/-- What `CreateRaw` hands back for the payload: the `dirWriter` or the `countWriter`. -/
inductive RawWriter where
  | dirWriter
  | countWriter
deriving DecidableEq, Repr

/-- Lines 231-237 of `CreateRaw`: the 32-bit sizes are set in the file header at address
`fh` and the `header` is built at the current count. -/
def Writer.newHeader (hp : Heap) (w : Writer) (fh : Nat) : header :=
  let f := hp fh
  let f := { f with CompressedSize := min f.CompressedSize64 uint32max % 2 ^ 32 }
  let f := { f with UncompressedSize := min f.UncompressedSize64 uint32max % 2 ^ 32 }
  header.new f w.cw.count

/-- The method `Writer.CreateRaw(fh)`, with `fh` an address in the heap. The header is
appended to `dir` before `writeHeader` runs, and what `writeHeader` does to it shows in
`dir` and in the heap whether it fails or not. -/
def Writer.CreateRaw (hp : Heap) (w : Writer) (fh : Nat) :
    Heap × Writer × Except String RawWriter :=
  match w.prepare fh with
  | some err => (hp, w, .error err)
  | none =>
    let res := writeHeader w.cw (w.newHeader hp fh)
    let h := res.2.1
    let hp := Function.update hp fh h.fh
    let w := { w with cw := res.1, dir := w.dir ++ [h.ref fh] }
    match res.2.2 with
    | some err => (hp, w, .error err)
    | none =>
      if [47].isSuffixOf h.fh.Name then (hp, w, .ok .dirWriter)
      else (hp, w, .ok .countWriter)

/-- The method `dirWriter.Write`. -/
def dirWriterWrite (b : List Nat) : Nat × Option String :=
  if b.length = 0 then (0, none) else (0, some "zip: write to directory")

/-- A write of payload bytes through the writer `CreateRaw` returned. -/
def Writer.payloadWrite (w : Writer) (r : RawWriter) (p : List Nat) :
    Writer × Nat × Option String :=
  match r with
  | .dirWriter => let (n, err) := dirWriterWrite p; (w, n, err)
  | .countWriter => let (cw, n, err) := w.cw.Write p; ({ w with cw := cw }, n, err)

/-- The 46 fixed bytes of a central directory record, as `Close` fills `buf`. -/
def directoryHeaderBuf (h : header) : List Nat :=
  let b := writeBuf.make directoryHeaderLen
  let b := b.uint32 (directoryHeaderSignature % 2 ^ 32)
  let b := b.uint16 h.fh.CreatorVersion
  let b := b.uint16 h.fh.ReaderVersion
  let b := b.uint16 h.fh.Flags
  let b := b.uint16 h.fh.Method
  let b := b.uint16 h.fh.ModifiedTime
  let b := b.uint16 h.fh.ModifiedDate
  let b := b.uint32 h.fh.CRC32
  let b := b.uint32 h.compressedSize32
  let b := b.uint32 h.uncompressedSize32
  let b := b.uint16 (h.fh.Name.length % 2 ^ 16)
  let b := b.uint16 (h.fh.Extra.length % 2 ^ 16)
  let b := b.uint16 (h.fh.Comment.length % 2 ^ 16)
  let b := b.skip 4
  let b := b.uint32 h.fh.ExternalAttrs
  let b := b.uint32 h.offset32
  b.buf

/-- The body of the loop `for _, h := range w.dir` of `Close`, for one header. -/
def writeDirectoryHeader (w : countWriter) (h : header) : countWriter × Option String :=
  let (w, _, err) := w.Write (directoryHeaderBuf h)
  if err.isSome then (w, err)
  else
    let (w, _, err) := w.Write h.fh.Name
    if err.isSome then (w, err)
    else
      let (w, _, err) := w.Write h.fh.Extra
      if err.isSome then (w, err)
      else
        let (w, _, err) := w.Write h.fh.Comment
        (w, err)

/-- The loop `for _, h := range w.dir` of `Close`, which returns at the first error. -/
def writeDirectory (hp : Heap) : countWriter → List headerRef → countWriter × Option String
  | w, [] => (w, none)
  | w, r :: rs =>
    let (w, err) := writeDirectoryHeader w (r.load hp)
    if err.isSome then (w, err) else writeDirectory hp w rs

/-- The 76 bytes of the ZIP64 end record and its locator, as `Close` fills `buf`. -/
def directory64EndBuf (records size offset end_ : Nat) : List Nat :=
  let b := writeBuf.make (directory64EndLen + directory64LocLen)
  let b := b.uint32 directory64EndSignature
  let b := b.uint64 (directory64EndLen - 12)
  let b := b.uint16 zipVersion45
  let b := b.uint16 zipVersion45
  let b := b.uint32 0
  let b := b.uint32 0
  let b := b.uint64 records
  let b := b.uint64 records
  let b := b.uint64 size
  let b := b.uint64 offset
  let b := b.uint32 directory64LocSignature
  let b := b.uint32 0
  let b := b.uint64 end_
  let b := b.uint32 1
  b.buf

/-- The 22 bytes of the end of central directory record, as `Close` fills `buf`. -/
def directoryEndBuf (records size offset commentLen : Nat) : List Nat :=
  let b := writeBuf.make directoryEndLen
  let b := b.uint32 (directoryEndSignature % 2 ^ 32)
  let b := b.skip 4
  let b := b.uint16 (records % 2 ^ 16)
  let b := b.uint16 (records % 2 ^ 16)
  let b := b.uint32 (size % 2 ^ 32)
  let b := b.uint32 (offset % 2 ^ 32)
  let b := b.uint16 (commentLen % 2 ^ 16)
  b.buf

/-- The method `Writer.Close()`. -/
def Writer.Close (hp : Heap) (w : Writer) : Writer × Option String :=
  if w.closed then (w, some "zip: writer closed twice")
  else
    let w := { w with closed := true }
    let start := w.cw.count
    let (cw, err) := writeDirectory hp w.cw w.dir
    let w := { w with cw := cw }
    if err.isSome then (w, err)
    else
      let end_ := w.cw.count
      let records := w.dir.length % 2 ^ 64
      let size := (end_ + 2 ^ 64 - start) % 2 ^ 64
      let offset := start
      let z64 := decide (records ≥ uint16max) || decide (size ≥ uint32max)
        || decide (offset ≥ uint32max)
      let (cw, err) :=
        if z64 then
          let (cw, _, err) := w.cw.Write (directory64EndBuf records size offset end_)
          (cw, err)
        else (w.cw, none)
      let w := { w with cw := cw }
      if err.isSome then (w, err)
      else
        let (records, size, offset) :=
          if z64 then (uint16max, uint32max, uint32max) else (records, size, offset)
        let (cw, _, err) := w.cw.Write (directoryEndBuf records size offset w.comment.length)
        let w := { w with cw := cw }
        if err.isSome then (w, err)
        else
          let (cw, _, err) := w.cw.Write w.comment
          let w := { w with cw := cw }
          if err.isSome then (w, err)
          else (w, w.Flush)

example : (header.prepare (header.new
    { FileHeader.empty with UncompressedSize64 := 2 ^ 32 - 1 } 0)).fh.Extra
    = [1, 0, 16, 0, 255, 255, 255, 255, 0, 0, 0, 0, 0, 0, 0, 0, 0, 0, 0, 0] := by decide

/-- The ZIP64 block `header.prepare` appends to `Extra`, or nothing. -/
def promotion (usize csize offset : Nat) : List Nat :=
  if usize ≥ 2 ^ 32 - 1 ∨ csize ≥ 2 ^ 32 - 1 ∨ offset ≥ 2 ^ 32 - 1 then
    zip64Block (decide (usize ≥ 2 ^ 32 - 1 ∨ csize ≥ 2 ^ 32 - 1))
      (decide (offset ≥ 2 ^ 32 - 1)) usize csize offset
  else []

/-- One central directory record as `Close` emits it: the fixed part, then name, extra
and comment. -/
def directoryRecord (h : header) : List Nat :=
  directoryHeaderBuf h ++ h.fh.Name ++ h.fh.Extra ++ h.fh.Comment

/-- The central directory `Close` emits for the directory list `dir`. -/
def centralDirectory (hp : Heap) (dir : List headerRef) : List Nat :=
  (dir.map fun r => directoryRecord (r.load hp)).flatten

/-- The ZIP64 end of central directory record of the format (56 bytes). -/
def zip64End (records size offset : Nat) : List Nat :=
  le32 0x06064b50 ++ le64 44 ++ le16 45 ++ le16 45 ++ le32 0 ++ le32 0
    ++ le64 records ++ le64 records ++ le64 size ++ le64 offset

/-- The ZIP64 end of central directory locator of the format (20 bytes), which carries
the position `pos` of the ZIP64 end record. -/
def zip64Locator (pos : Nat) : List Nat :=
  le32 0x07064b50 ++ le32 0 ++ le64 pos ++ le32 1

/-- The regular end of central directory record of the format (22 bytes). -/
def endRecord (records size offset commentLen : Nat) : List Nat :=
  le32 0x06054b50 ++ [0, 0, 0, 0] ++ le16 records ++ le16 records ++ le32 size
    ++ le32 offset ++ le16 commentLen

/-! ## detectUTF8 (writer.go, lines 375-396) -/

/-- The constant `utf8.RuneError`. -/
def RuneError : Nat := 0xFFFD

/-- The function `utf8.ValidRune`, on a rune that is not negative. -/
def ValidRune (r : Nat) : Bool :=
  decide (r < 0xD800) || (decide (0xDFFF < r) && decide (r ≤ 0x10FFFF))

/-- A continuation byte in the range `lo..hi`. -/
def inRange (lo hi b : Nat) : Bool := decide (lo ≤ b) && decide (b ≤ hi)

/-- The function `utf8.DecodeRuneInString` of the Go library: the first rune of `s` and its
width in bytes, `(RuneError, 0)` for the empty string and `(RuneError, 1)` for an encoding
that is not well formed (overlong forms, surrogates and values above U+10FFFF included). -/
def DecodeRuneInString (s : List Nat) : Nat × Nat :=
  match s with
  | [] => (RuneError, 0)
  | s0 :: rest =>
    if s0 < 0x80 then (s0, 1)
    else if inRange 0xC2 0xDF s0 then
      match rest with
      | s1 :: _ =>
        if inRange 0x80 0xBF s1 then (s0 % 32 * 64 + s1 % 64, 2) else (RuneError, 1)
      | _ => (RuneError, 1)
    else if inRange 0xE0 0xEF s0 then
      match rest with
      | s1 :: s2 :: _ =>
        if inRange (if s0 = 0xE0 then 0xA0 else 0x80) (if s0 = 0xED then 0x9F else 0xBF) s1
            && inRange 0x80 0xBF s2 then
          (s0 % 16 * 4096 + s1 % 64 * 64 + s2 % 64, 3)
        else (RuneError, 1)
      | _ => (RuneError, 1)
    else if inRange 0xF0 0xF4 s0 then
      match rest with
      | s1 :: s2 :: s3 :: _ =>
        if inRange (if s0 = 0xF0 then 0x90 else 0x80) (if s0 = 0xF4 then 0x8F else 0xBF) s1
            && inRange 0x80 0xBF s2 && inRange 0x80 0xBF s3 then
          (s0 % 8 * 262144 + s1 % 64 * 4096 + s2 % 64 * 64 + s3 % 64, 4)
        else (RuneError, 1)
      | _ => (RuneError, 1)
    else (RuneError, 1)

/-- The loop of `detectUTF8` from index `i` on, the list being `s[i-skip:]`: the `skip`
bytes that belong to the rune decoded last are passed over, then the next rune is decoded. -/
def detectUTF8From : Nat → List Nat → Bool → Bool × Bool
  | _, [], require => (true, require)
  | skip + 1, _ :: rest, require => detectUTF8From skip rest require
  | 0, s0 :: rest, require =>
    let r := (DecodeRuneInString (s0 :: rest)).1
    let size := (DecodeRuneInString (s0 :: rest)).2
    if r < 0x20 ∨ r > 0x7d ∨ r = 0x5c then
      if !ValidRune r || (r == RuneError && size == 1) then (false, false)
      else detectUTF8From (size - 1) rest true
    else detectUTF8From (size - 1) rest require

/-- The function `detectUTF8(s)`: `(valid, require)`. -/
def detectUTF8 (s : List Nat) : Bool × Bool := detectUTF8From 0 s false

/-! ## Library functions object.go calls -/

/-- One byte of the bitwise CRC-32 with the reflected IEEE polynomial. -/
def crc32Byte (crc b : Nat) : Nat :=
  (List.range 8).foldl
    (fun c _ => if c % 2 = 1 then (c / 2) ^^^ 0xEDB88320 else c / 2) (crc ^^^ b)

/-- The checksum `crc32.NewIEEE()` gives for the bytes `p`. -/
def crc32IEEE (p : List Nat) : Nat := (p.foldl crc32Byte 0xFFFFFFFF) ^^^ 0xFFFFFFFF

/-- The loop of `filepath.Ext` from the end of the path: `before` is the part still to
scan, reversed, and `after` the part already scanned. -/
def extScan : List Nat → List Nat → List Nat
  | [], _ => []
  | c :: before, after =>
    if c = 47 then [] else if c = 46 then c :: after else extScan before (c :: after)

/-- The function `filepath.Ext` on a system whose path separator is the slash. -/
def Ext (path : List Nat) : List Nat := extScan path.reverse []

/-- The bytes of a string literal of the source, which are all ASCII. -/
def bytesOf (s : String) : List Nat := s.toList.map Char.toNat

/-- The set `compressedFormats`. -/
def compressedFormats : List (List Nat) :=
  [".7z", ".avi", ".br", ".bz2", ".cab", ".docx", ".gif", ".gz", ".jar", ".jpeg", ".jpg",
   ".lz", ".lz4", ".lzma", ".m4v", ".mov", ".mp3", ".mp4", ".mpeg", ".mpg", ".png", ".pptx",
   ".rar", ".sz", ".tbz2", ".tgz", ".tsz", ".txz", ".xlsx", ".xz", ".zip", ".zipx"].map bytesOf

/-- The file system and the library functions the object works with. -/
structure Host where
  /-- The function `strings.ToLower`. -/
  toLower : List Nat → List Nat
  /-- The function `filepath.Clean`. -/
  clean : List Nat → List Nat
  /-- The call `os.Readlink(path)`. -/
  readlink : List Nat → Except String (List Nat)
  /-- The content `os.Open(path)` and reading to the end give. -/
  readFile : List Nat → Except String (List Nat)
  /-- The MS-DOS time and date and the attributes `zip.FileInfoHeader` computes. -/
  dosTime : Time → Nat
  dosDate : Time → Nat
  externalAttrs : Nat → Nat
  /-- Whether `os.CreateTemp` fails, and how many bytes a temporary file takes. -/
  createTempFails : Bool
  tempRoom : Option Nat
  /-- The complete DEFLATE stream of an input at a level. -/
  deflate : Int → List Nat → List Nat

/-- The function `IsCompressedFile(path)`. -/
def IsCompressedFile (host : Host) (path : List Nat) : Bool :=
  compressedFormats.contains (host.toLower (Ext path))

/-- The function `HeaderName(path)` on a system that is not Windows. -/
def HeaderName (host : Host) (path : List Nat) : List Nat :=
  match host.clean path with
  | 47 :: rest => rest
  | p => p

/-- The function `validLevel(level)`. -/
def validLevel (level : Int) : Option String :=
  if level < -2 ∨ level > 9 then some "invalid compression level" else none

/-! ## Object (object.go) -/

/-- A `bytes.Buffer`, as far as the object uses it: the unread bytes and the capacity of
the slice under it. `Object.Write` writes at most `Available()` bytes, so the slice is
never reallocated. -/
structure Buffer where
  data : List Nat
  cap : Nat
deriving DecidableEq, Repr

/-- The call `bytes.NewBuffer(make([]byte, bufSize))` of `NewObjectPoolSize`. -/
def Buffer.make (bufSize : Nat) : Buffer := { data := List.replicate bufSize 0, cap := bufSize }

def Buffer.Available (b : Buffer) : Nat := b.cap - b.data.length

def Buffer.Reset (b : Buffer) : Buffer := { b with data := [] }

def Buffer.Write (b : Buffer) (p : List Nat) : Buffer :=
  { data := b.data ++ p, cap := max b.cap (b.data.length + p.length) }

/-- An `os.File` open for writing: its content and the bytes the disk still takes
(`none`: any number). -/
structure File where
  content : List Nat
  room : Option Nat
deriving DecidableEq, Repr

/-- The method `os.File.Write`: the file afterwards, `n`, and whether it failed. A write
that does not fit stores the bytes that do and fails. -/
def File.Write (f : File) (p : List Nat) : File × Nat × Option String :=
  let n := match f.room with
    | none => p.length
    | some r => min r p.length
  ({ content := f.content ++ p.take n, room := f.room.map (fun r => r - n) }, n,
    if n < p.length then some "write error" else none)

/-- An `os.FileInfo`, as far as the object looks at it. -/
structure FileInfo where
  name : List Nat
  size : Nat
  isDir : Bool
  isSymlink : Bool
  modTime : Time
  mode : Nat
deriving DecidableEq, Repr

/-- A `flate.Writer` whose sink is the object: the level it was made with, the input it
holds and has not emitted yet, and whether it is closed. The codec is external; it is
taken to emit the whole stream when it is closed. -/
structure flateWriter where
  level : Int
  pending : List Nat
  closed : Bool
deriving DecidableEq, Repr

structure Object where
  Root : List Nat
  Path : List Nat
  Info : Option FileInfo
  compressedData : Buffer
  compressor : Option flateWriter
  /-- The address of the `FileHeader` in the heap, and its value. Until `Archive` hands the
  address to the writer, the object is the only one to touch the header. -/
  headerAddr : Nat
  header : FileHeader
  overflow : Option File
  written : Nat
  compressMinSize : Nat
  link : List Nat
deriving DecidableEq, Repr

/-- The object `ObjectPool.pool.New` makes for buffers of `bufSize` bytes. -/
def Object.new (bufSize : Nat) : Object :=
  { Root := [], Path := [], Info := none, compressedData := Buffer.make bufSize,
    compressor := none, headerAddr := 0, header := FileHeader.empty, overflow := none,
    written := 0, compressMinSize := 0, link := [] }

/-- The function `zip.FileInfoHeader` of the Go library, which sets the name, the size,
the modification time and the mode, and returns no error. -/
def FileInfoHeader (host : Host) (fi : FileInfo) : FileHeader :=
  { FileHeader.empty with
    Name := fi.name
    UncompressedSize64 := fi.size % 2 ^ 64
    UncompressedSize := min (fi.size % 2 ^ 64) uint32max
    Modified := fi.modTime
    ModifiedTime := host.dosTime fi.modTime
    ModifiedDate := host.dosDate fi.modTime
    CreatorVersion := 3 * 256
    ExternalAttrs := host.externalAttrs fi.mode }

/-- The method `Object.Reset(path, info, level)`; `addr` is the address at which
`zip.FileInfoHeader` allocates the header. -/
def Object.Reset (host : Host) (o : Object) (addr : Nat) (path : List Nat)
    (info : Option FileInfo) (level : Int) : Object × Option String :=
  match info with
  | none => (o, some "invalid path or info")
  | some fi =>
    if path = [] then (o, some "invalid path or info")
    else
      match validLevel level with
      | some err => (o, some err)
      | none =>
        match (if fi.isSymlink then host.readlink path else .ok []) with
        | .error err => (o, some err)
        | .ok link =>
          let hdr := FileInfoHeader host fi
          let hdr := { hdr with Name := HeaderName host path }
          let compressor := match o.compressor with
            | none => { level := level, pending := [], closed := false }
            | some c => { c with pending := [], closed := false }
          ({ o with
              compressor := some compressor
              Path := path
              Info := some fi
              headerAddr := addr
              header := hdr
              compressedData := o.compressedData.Reset
              overflow := none
              written := 0
              link := link
              compressMinSize := if level > 6 then 44 else 128 }, none)

/-- Lines 123-128 of `Object.Write`: the buffer takes what it has room for; the object
afterwards and the bytes that are left. -/
def Object.fill (o : Object) (p : List Nat) : Object × List Nat :=
  if o.compressedData.Available ≠ 0 then
    let maxWriteable := min o.compressedData.Available p.length
    ({ o with written := (o.written + maxWriteable) % 2 ^ 64,
              compressedData := o.compressedData.Write (p.take maxWriteable) },
      p.drop maxWriteable)
  else (o, p)

/-- The file `o.overflow` after line 131 of `Object.Write`, `none` when `os.CreateTemp`
failed. -/
def Object.openOverflow (host : Host) (o : Object) : Option File :=
  match o.overflow with
  | some f => some f
  | none => if host.createTempFails then none else some { content := [], room := host.tempRoom }

/-- Lines 129-141 of `Object.Write`: the bytes `p` that are left go to the overflow file;
`totalLen` is the length of the whole input. -/
def Object.spill (host : Host) (o : Object) (p : List Nat) (totalLen : Nat) :
    Object × Nat × Option String :=
  if p.length > 0 then
    match o.openOverflow host with
    | none => (o, p.length, some "create temporary file")
    | some f =>
      if (f.Write p).2.2.isSome then
        ({ o with overflow := some (f.Write p).1 }, p.length, some "write temporary file")
      else
        ({ o with overflow := some (f.Write p).1,
                  written := (o.written + (f.Write p).2.1) % 2 ^ 64 }, totalLen, none)
  else (o, totalLen, none)

/-- The method `Object.Write(p)`: the object afterwards, `n` and the error. -/
def Object.Write (host : Host) (o : Object) (p : List Nat) : Object × Nat × Option String :=
  Object.spill host (o.fill p).1 (o.fill p).2 p.length

/-- Whether `o.Info.IsDir()`. The call panics in Go when `Info` is nil, which it is only
before the first successful `Reset`; the value `false` given here for that case stands for no
run of the program. -/
def Object.isDir (o : Object) : Bool :=
  match o.Info with
  | some fi => fi.isDir
  | none => false

/-- The operation `x &^= m` of Go. -/
def bitClear (x m : Nat) : Nat := x ^^^ (x &&& m)

/-- The conversion `uint32(x)` of an `int64`. -/
def toUint32 (x : Int) : Nat := (x % 2 ^ 32).toNat

/-- The method `Object.prepareHeader()`, which returns no error. -/
def Object.prepareHeader (host : Host) (o : Object) : Object :=
  let utf8Name := detectUTF8 o.header.Name
  let utf8Comment := detectUTF8 o.header.Comment
  let hdr := o.header
  let hdr :=
    if hdr.NonUTF8 then { hdr with Flags := bitClear hdr.Flags 0x800 }
    else if (utf8Name.2 || utf8Comment.2) && (utf8Name.1 && utf8Comment.1) then
      { hdr with Flags := hdr.Flags ||| 0x800 }
    else hdr
  let hdr :=
    if !hdr.Modified.IsZero then
      let eb := writeBuf.make 9
      let eb := eb.uint16 extTimeExtraID
      let eb := eb.uint16 5
      let eb := eb.uint8 1
      let eb := eb.uint32 (toUint32 hdr.Modified.unix)
      { hdr with Extra := hdr.Extra ++ eb.buf }
    else hdr
  let hdr := { hdr with CreatorVersion := (hdr.CreatorVersion &&& 0xff00) ||| zipVersion20 }
  let hdr := { hdr with ReaderVersion := zipVersion20 }
  let hdr := { hdr with Flags := bitClear hdr.Flags 0x8 }
  if o.isDir then
    let hdr := if !([47].isSuffixOf hdr.Name) then { hdr with Name := hdr.Name ++ [47] } else hdr
    let hdr := { hdr with Method := 0 }
    let hdr := { hdr with CompressedSize64 := 0 }
    let hdr := { hdr with UncompressedSize64 := 0 }
    { o with header := hdr }
  else
    let size := hdr.UncompressedSize64
    let (size, hdr) :=
      if o.link ≠ [] then
        (o.link.length % 2 ^ 64, { hdr with UncompressedSize64 := o.link.length % 2 ^ 64 })
      else (size, hdr)
    if size ≤ o.compressMinSize ∨ IsCompressedFile host o.Path = true then
      { o with header := { hdr with Method := 0 } }
    else
      { o with header := { hdr with Method := 8 } }

/-- The method `Object.store()`. -/
def Object.store (host : Host) (o : Object) : Object × Option String :=
  if o.link ≠ [] then
    ({ o with header := { o.header with CompressedSize64 := o.header.UncompressedSize64,
                                        CRC32 := crc32IEEE o.link } }, none)
  else
    match host.readFile o.Path with
    | .error err => (o, some err)
    | .ok content =>
      ({ o with header := { o.header with CompressedSize64 := o.header.UncompressedSize64,
                                          CRC32 := crc32IEEE content } }, none)

/-- The method `flate.Writer.Write` with the object as sink: the input is taken in. -/
def Object.compressorWrite (o : Object) (p : List Nat) : Object :=
  { o with compressor := o.compressor.map fun c => { c with pending := c.pending ++ p } }

/-- The method `flate.Writer.Close` with the object as sink: the stream of the input taken
in so far goes to `Object.Write`. -/
def Object.compressorClose (host : Host) (o : Object) : Object × Option String :=
  match o.compressor with
  | none => (o, none)
  | some c =>
    let res := o.Write host (host.deflate c.level c.pending)
    ({ res.1 with compressor := some { c with pending := [], closed := true } }, res.2.2)

/-- The method `Object.deflate()`. -/
def Object.deflate (host : Host) (o : Object) : Object × Option String :=
  if o.link ≠ [] then
    let o := o.compressorWrite o.link
    ({ o with header := { o.header with CompressedSize64 := o.written,
                                        CRC32 := crc32IEEE o.link } }, none)
  else
    match host.readFile o.Path with
    | .error err => (o, some err)
    | .ok content =>
      let o := o.compressorWrite content
      let res := o.compressorClose host
      if res.2.isSome then (res.1, res.2)
      else
        let o := res.1
        ({ o with header := { o.header with CompressedSize64 := o.written,
                                            CRC32 := crc32IEEE content } }, none)

/-- The method `Object.Compress()`. -/
def Object.Compress (host : Host) (o : Object) : Object × Option String :=
  let o := o.prepareHeader host
  if o.isDir then (o, none)
  else if o.header.Method = 0 then o.store host
  else if o.header.Method = 8 then o.deflate host
  else (o, some "unknown compress method")

/-- The loop of `io.Copy(cw, src)` over a source that holds `p`: nothing is written for an
empty source. -/
def Writer.copy (w : Writer) (r : RawWriter) (p : List Nat) : Writer × Option String :=
  if p = [] then (w, none)
  else ((w.payloadWrite r p).1, (w.payloadWrite r p).2.2)

/-- The method `Object.Archive(w)`: the header of the object is stored at its address, the
writer works on it there, and the object sees what the writer did to it. -/
def Object.Archive (host : Host) (hp : Heap) (w : Writer) (o : Object) :
    Heap × Writer × Object × Option String :=
  let hp := Function.update hp o.headerAddr o.header
  let res := w.CreateRaw hp o.headerAddr
  let hp := res.1
  let w := res.2.1
  let o := { o with header := hp o.headerAddr }
  match res.2.2 with
  | .error err => (hp, w, o, some err)
  | .ok cw =>
    if o.isDir then (hp, w, o, none)
    else if o.header.Method = 0 then
      if o.link ≠ [] then
        ((hp, (w.copy cw o.link).1, o, (w.copy cw o.link).2))
      else
        match host.readFile o.Path with
        | .error err => (hp, w, o, some err)
        | .ok content => (hp, (w.copy cw content).1, o, (w.copy cw content).2)
    else
      let res := w.copy cw o.compressedData.data
      let o := { o with compressedData := { o.compressedData with data := [] } }
      if res.2.isSome then (hp, res.1, o, res.2)
      else
        match o.overflow with
        | some f => (hp, (res.1.copy cw f.content).1, o, (res.1.copy cw f.content).2)
        | none => (hp, res.1, o, none)

/-- The content of the overflow file, empty when there is none. -/
def Object.overflowContent (o : Object) : List Nat :=
  match o.overflow with
  | some f => f.content
  | none => []

/-- A sequence of `Write` calls: the object afterwards and what each call returned. -/
def Object.writeAll (host : Host) :
    Object → List (List Nat) → Object × List (Nat × Option String)
  | o, [] => (o, [])
  | o, p :: ps =>
    ((Object.writeAll host (o.Write host p).1 ps).1,
      (o.Write host p).2 :: (Object.writeAll host (o.Write host p).1 ps).2)

/-- The object holds the bytes `acc` fill-first in a buffer of capacity `C`. -/
structure Object.Holds (C : Nat) (o : Object) (acc : List Nat) : Prop where
  cap : o.compressedData.cap = C
  data : o.compressedData.data = acc.take C
  ovf : o.overflowContent = acc.drop C
  spilled : o.overflow.isSome = true ↔ C < acc.length
  written : o.written = acc.length % 2 ^ 64

/-! ## A caller of the writer

The writer is driven by `CreateRaw` calls, each followed by writes of payload through the
writer it returned, and ended by `Close`. A `Session` records, next to the heap and the
writer, the writer the last `CreateRaw` returned and the stream position at which each local
file header began. -/

inductive Op where
  | create (fh : Nat)
  | write (p : List Nat)
deriving DecidableEq, Repr

/-- The address an operation passes to `CreateRaw`, if it is one. -/
def Op.created : Op → Option Nat
  | .create fh => some fh
  | .write _ => none

structure Session where
  hp : Heap
  w : Writer
  cur : Option RawWriter
  starts : List Nat

def Session.init (hp : Heap) (room : Option Nat) : Session :=
  { hp := hp, w := NewWriter room, cur := none, starts := [] }

/-- One operation of the caller; `none` when `CreateRaw` returns an error. The result of a
payload write is not looked at. -/
def Session.step (s : Session) : Op → Option Session
  | .create fh =>
    match (s.w.CreateRaw s.hp fh).2.2 with
    | .ok r => some { hp := (s.w.CreateRaw s.hp fh).1, w := (s.w.CreateRaw s.hp fh).2.1,
                      cur := some r, starts := s.starts ++ [s.w.cw.out.length] }
    | .error _ => none
  | .write p =>
    match s.cur with
    | some r => some { s with w := (s.w.payloadWrite r p).1 }
    | none => some s

def Session.run (s : Session) : List Op → Option Session
  | [] => some s
  | op :: ops =>
    match s.step op with
    | some s1 => s1.run ops
    | none => none

/-- The value of the field `offset32` for a local header that begins at `pos`. -/
def offset32At (pos : Nat) : Nat := if pos ≥ 2 ^ 32 - 1 then 0xFFFFFFFF else pos

/-- The entries of `dir` carry the positions `starts`, none beyond the end of the stream. -/
def Session.Inv (s : Session) : Prop :=
  s.w.cw.count = s.w.cw.out.length % 2 ^ 64
    ∧ List.Forall₂ (fun r st => r.offset = st % 2 ^ 64 ∧ r.offset32 = offset32At r.offset
        ∧ st ≤ s.w.cw.out.length) s.w.dir s.starts

/-- The stream `out` holds the local file header signature at position `pos`. -/
def signatureAt (out : List Nat) (pos : Nat) : Prop :=
  pos + 4 ≤ out.length ∧ (out.drop pos).take 4 = le32 0x04034b50

/-! ## SkipPath (path.go) -/

structure SkipPath where
  Includes : List (List Nat)
  Excludes : List (List Nat)
deriving DecidableEq, Repr

/-- The loop `for _, pattern := range patterns` of `Skip`, which stops at the first
pattern that matches. The matcher `doublestar.PathMatch` is given as `pathMatch`: what it
returns as `ok`, its error being dropped by the code. -/
def matchAny (pathMatch : List Nat → List Nat → Bool) (path : List Nat) :
    List (List Nat) → Bool
  | [] => false
  | pattern :: rest => if pathMatch pattern path then true else matchAny pathMatch path rest

/-- The method `SkipPath.Skip(path)`. -/
def SkipPath.Skip (pathMatch : List Nat → List Nat → Bool) (p : SkipPath) (path : List Nat) :
    Bool :=
  if p.Includes.length > 0 ∧ matchAny pathMatch path p.Includes = false then true
  else if matchAny pathMatch path p.Excludes then true
  else false

/-! ## ArchiveOptions (archiver.go, lines 21-58) -/

structure ArchiveOptions where
  skip : SkipPath
  tempRoot : List Nat
  Files : List (List Nat)
  Level : Int
  Concurrency : Int
  Comment : List Nat
  Dereference : Bool
  Recurse : Bool
deriving DecidableEq, Repr

/-- The loop of `filterFile`, which keeps the files other than `.` in order. -/
def filterDot : List (List Nat) → List (List Nat)
  | [] => []
  | file :: rest => if file ≠ [46] then file :: filterDot rest else filterDot rest

/-- The method `ArchiveOptions.filterFile()`. -/
def ArchiveOptions.filterFile (o : ArchiveOptions) : ArchiveOptions :=
  if !o.Recurse ∧ o.Files.length > 0 then { o with Files := filterDot o.Files } else o

/-- The method `ArchiveOptions.Validate()`: the options afterwards and the error. -/
def ArchiveOptions.Validate (o : ArchiveOptions) : ArchiveOptions × Option String :=
  let o := o.filterFile
  if o.Files.length = 0 then (o, some "no files to archive")
  else if o.Concurrency < 1 then (o, some "concurrency must be at least 1")
  else (o, validLevel o.Level)

/-- The files `Validate` looks at, in the words of the specification: when `Recurse` is
false every entry equal to `.` is removed, the order of the others kept. -/
def filteredFiles (o : ArchiveOptions) : List (List Nat) :=
  if o.Recurse then o.Files else o.Files.filter (fun file => file ≠ [46])

/-! ## FailFastWorker (worker.go)

What one goroutine does to a worker at a time: the goroutines that `Start` spawns and the
order in which they and the caller run are not part of the structure. -/

def OPENED : Nat := 1
def CLOSED : Nat := 2
def ErrWorkerClosed : String := "this worker has been closed"
def ErrWorkerNotOpened : String := "this worker has not been opened"

/-- The fields of a `FailFastWorker`: `tasks` is the content of the channel, `tasksClosed`
whether it is closed, `errOnce` whether `errOnce` has run, and `ctxErr` what `fw.ctx.Err()`
returns (`none` as long as the context is not done, and before `Start`). -/
structure FailFastWorker (T : Type) where
  state : Nat
  parallelism : Int
  capacity : Int
  tasks : List T
  tasksClosed : Bool
  err : Option String
  errOnce : Bool
  ctxErr : Option String
deriving DecidableEq, Repr

def NewFailFastWorker {T : Type} (parallelism Capacity : Int) : FailFastWorker T :=
  { state := 0, parallelism := parallelism, capacity := Capacity, tasks := [],
    tasksClosed := false, err := none, errOnce := false, ctxErr := none }

/-- The method `reset(ctx)`; `parentErr` is what `ctx.Err()` returns for the parent. -/
def FailFastWorker.reset {T : Type} (fw : FailFastWorker T) (parentErr : Option String) :
    FailFastWorker T :=
  { fw with state := OPENED, tasks := [], tasksClosed := false, ctxErr := parentErr,
            err := none, errOnce := false }

/-- The method `Start(ctx)`, as far as the caller's goroutine goes. -/
def FailFastWorker.Start {T : Type} (fw : FailFastWorker T) (parentErr : Option String) :
    FailFastWorker T :=
  fw.reset parentErr

def FailFastWorker.IsClosed {T : Type} (fw : FailFastWorker T) : Bool := fw.state == CLOSED

def FailFastWorker.IsOpened {T : Type} (fw : FailFastWorker T) : Bool := fw.state == OPENED

/-- The body of `fw.errOnce.Do` in a worker goroutine whose `exec` returned `err`. -/
def FailFastWorker.fail {T : Type} (fw : FailFastWorker T) (err : String) : FailFastWorker T :=
  if fw.errOnce then fw
  else { fw with err := some err, errOnce := true,
                 ctxErr := some (fw.ctxErr.getD "context canceled") }

/-- The method `Wait()`, as far as the caller's goroutine goes: `wg.Wait()` returns when
the worker goroutines have returned. -/
def FailFastWorker.Wait {T : Type} (fw : FailFastWorker T) :
    FailFastWorker T × Option String :=
  if fw.IsClosed then (fw, some ErrWorkerClosed)
  else if !fw.IsOpened then (fw, some ErrWorkerNotOpened)
  else ({ fw with tasksClosed := true, state := CLOSED }, fw.err)

/-- The case of the `select` in `Submit` that is taken. -/
inductive Select where
  | send
  | done
deriving DecidableEq, Repr

/-- The method `Submit(task)` when the `select` takes the case `pick`; `none` when that case
is not ready (the channel is full or closed, the context is not done). -/
def FailFastWorker.Submit {T : Type} (fw : FailFastWorker T) (task : T) (pick : Select) :
    Option (FailFastWorker T × Option String) :=
  if fw.err.isSome then some (fw, fw.err)
  else if !fw.IsOpened then some (fw, some ErrWorkerNotOpened)
  else if fw.IsClosed then some (fw, some ErrWorkerClosed)
  else
    match pick with
    | .send =>
      if !fw.tasksClosed ∧ (fw.tasks.length : Int) < fw.capacity then
        some ({ fw with tasks := fw.tasks ++ [task] }, none)
      else none
    | .done =>
      match fw.ctxErr with
      | some e => if fw.err.isSome then some (fw, fw.err) else some (fw, some e)
      | none => none

/-! ## The walk (archiver.go, lines 60-142) -/

/-- One call of the function `filepath.WalkDir` is given: the path, the error argument,
and what `d.Info()` returns. -/
structure WalkEntry where
  path : List Nat
  err : Option String
  info : Except String FileInfo

/-- The file system and the library functions the walk works with. -/
structure WalkHost where
  /-- The call `os.Lstat(file)`. -/
  lstat : List Nat → Except String FileInfo
  /-- The functions `filepath.Abs`, `filepath.Dir`, `filepath.Join` and `filepath.IsAbs`. -/
  abs : List Nat → Except String (List Nat)
  dir : List Nat → List Nat
  join : List Nat → List Nat → List Nat
  isAbs : List Nat → Bool
  /-- The calls `filepath.WalkDir(root, fn)` makes to `fn`, in order, for as long as `fn`
  returns nil. -/
  walkDir : List Nat → List WalkEntry
  /-- The matcher `doublestar.PathMatch`. -/
  pathMatch : List Nat → List Nat → Bool
  /-- The object `DefaultObjectPool.pool.Get()` returns. -/
  pooled : Object

/-- The function `strings.TrimPrefix`. -/
def TrimPrefix (s pre : List Nat) : List Nat :=
  if pre.isPrefixOf s then s.drop pre.length else s

/-- What a walk has done so far: the variable `submitErr` of the running call of
`recurseArchiveFile`, and the calls made to the callback `fn`, oldest first. -/
structure WalkState where
  submitErr : Option String
  calls : List (List Nat × Object)

/-- The method `ObjectPool.New(path, info, level)` followed by `obj.Root = o.tempRoot`; the
header of the n-th object made is allocated at address n. -/
def ArchiveOptions.newObject (o : ArchiveOptions) (host : Host) (wh : WalkHost)
    (st : WalkState) (path : List Nat) (info : FileInfo) : Except String Object :=
  match (wh.pooled.Reset host st.calls.length path (some info) o.Level).2 with
  | some err => .error err
  | none =>
    .ok { (wh.pooled.Reset host st.calls.length path (some info) o.Level).1 with
          Root := o.tempRoot }

/-- The function that `recurseArchiveFile` passes to `filepath.WalkDir`, called on one entry:
the error it returns and the state afterwards, `none` when the nested call `recurse` does
not return. -/
def ArchiveOptions.walkFn (o : ArchiveOptions) (host : Host) (wh : WalkHost)
    (fn : List Nat → Object → Option String)
    (recurse : List Nat → List Nat → WalkState → Option (Option String × WalkState))
    (file link : List Nat) (e : WalkEntry) (st : WalkState) :
    Option (Option String × WalkState) :=
  if e.err.isSome ∨ st.submitErr.isSome then some (e.err, st)
  else if e.path = [46] ∨ e.path = [46, 46] ∨ e.path = [46, 47] then some (none, st)
  else
    match wh.abs e.path with
    | .error err => some (some err, st)
    | .ok absPath =>
      if absPath = o.tempRoot ∨ wh.dir absPath = o.tempRoot then some (none, st)
      else
        let pathOverride := if link ≠ [] then wh.join link (TrimPrefix e.path file) else e.path
        if o.skip.Skip wh.pathMatch pathOverride then some (none, st)
        else
          match e.info with
          | .error err => some (some err, st)
          | .ok info =>
            if o.Dereference ∧ info.isSymlink then
              match host.readlink e.path with
              | .error linkErr => some (some linkErr, st)
              | .ok target =>
                let target := if !wh.isAbs target then wh.join (wh.dir e.path) target else target
                match recurse target e.path { st with submitErr := none } with
                | none => none
                | some (some err, st1) => some (some err, st1)
                | some (none, st1) => some (none, st1)
            else
              match o.newObject host wh st pathOverride info with
              | .error err => some (some err, st)
              | .ok obj =>
                some (none, { submitErr := fn absPath obj, calls := st.calls ++ [(absPath, obj)] })

/-- The calls of `filepath.WalkDir` to the function, which stop at the first error. -/
def ArchiveOptions.walkLoop (o : ArchiveOptions) (host : Host) (wh : WalkHost)
    (fn : List Nat → Object → Option String)
    (recurse : List Nat → List Nat → WalkState → Option (Option String × WalkState))
    (file link : List Nat) : List WalkEntry → WalkState → Option (Option String × WalkState)
  | [], st => some (none, st)
  | e :: rest, st =>
    match o.walkFn host wh fn recurse file link e st with
    | none => none
    | some (some err, st1) => some (some err, st1)
    | some (none, st1) => ArchiveOptions.walkLoop o host wh fn recurse file link rest st1

/-- The method `recurseArchiveFile(file, link, fn)`: `(walkErr, submitErr)` in the state
returned; the calls nest at most `fuel` deep, `none` when they would nest deeper. -/
def ArchiveOptions.recurseArchiveFile (o : ArchiveOptions) (host : Host) (wh : WalkHost)
    (fn : List Nat → Object → Option String) :
    Nat → List Nat → List Nat → WalkState → Option (Option String × WalkState)
  | 0, file, link, st =>
    o.walkLoop host wh fn (fun _ _ _ => none) file link (wh.walkDir file)
      { st with submitErr := none }
  | fuel + 1, file, link, st =>
    o.walkLoop host wh fn (ArchiveOptions.recurseArchiveFile o host wh fn fuel) file link
      (wh.walkDir file) { st with submitErr := none }

/-- The method `archiveFile(fileAbsPath, file, fn)`. -/
def ArchiveOptions.archiveFile (o : ArchiveOptions) (host : Host) (wh : WalkHost)
    (fn : List Nat → Object → Option String) (fuel : Nat) (fileAbsPath file : List Nat)
    (st : WalkState) : Option (Option String × WalkState) :=
  if o.Recurse then o.recurseArchiveFile host wh fn fuel file [] st
  else
    match wh.lstat file with
    | .error err => some (some err, { st with submitErr := none })
    | .ok info =>
      match o.newObject host wh st file info with
      | .error err => some (some err, { st with submitErr := none })
      | .ok obj =>
        some (none, { submitErr := fn fileAbsPath obj, calls := st.calls ++ [(fileAbsPath, obj)] })

/-! ## Archive (archiver.go, lines 144-271)

The two workers run concurrently with the walk. What they do by the time `Archive` looks
at them is given: the objects the write worker has passed to `Object.Archive`, in order,
what `compressWorker.Submit` returns for each object, and what the two `Wait` calls
return. -/

/-- The function `errors.Join` of two errors. -/
def joinErr : Option String → Option String → Option String
  | none, none => none
  | some a, none => some a
  | none, some b => some b
  | some a, some b => some (a ++ "\n" ++ b)

/-- What the operating system and the workers do in one call of `Archive`. -/
structure ArchiveEnv where
  host : Host
  wh : WalkHost
  /-- The depth to which calls of `recurseArchiveFile` may nest. -/
  fuel : Nat
  hp : Heap
  /-- The call `filepath.Abs(path)` for the path of the archive. -/
  absZip : Except String (List Nat)
  /-- The call `os.MkdirTemp`. -/
  mkdirTemp : Except String (List Nat)
  /-- The call `os.CreateTemp`: the bytes the temporary file takes. -/
  createTemp : Except String (Option Nat)
  /-- What `compressWorker.Submit(obj)` returns. -/
  submit : List Nat → Object → Option String
  /-- The objects the write worker passes to `Object.Archive`, in order. -/
  archived : List Object
  compressWait : Option String
  writeWait : Option String
  /-- The calls `tmpFile.Close()` and `os.Rename`. -/
  tmpClose : Option String
  rename : Option String

/-- The executor of the write worker on each object in turn; the worker returns at the
first error. -/
def archiveAll (host : Host) : Heap → Writer → List Object → Heap × Writer
  | hp, w, [] => (hp, w)
  | hp, w, o :: rest =>
    if (o.Archive host hp w).2.2.2.isSome then
      ((o.Archive host hp w).1, (o.Archive host hp w).2.1)
    else archiveAll host (o.Archive host hp w).1 (o.Archive host hp w).2.1 rest

/-- The loop `for _, file := range opts.Files` of `Archive`: the error it returns with, if
it does, and the state of the walk. -/
def ArchiveOptions.archiveFiles (o : ArchiveOptions) (host : Host) (wh : WalkHost)
    (fn : List Nat → Object → Option String) (fuel : Nat) :
    List (List Nat) → WalkState → Option (Option String × WalkState)
  | [], st => some (none, st)
  | file :: rest, st =>
    match wh.abs file with
    | .error err => some (some err, st)
    | .ok fileAbsPath =>
      match o.archiveFile host wh fn fuel fileAbsPath file st with
      | none => none
      | some (some err, st1) => some (some err, st1)
      | some (none, st1) =>
        if st1.submitErr.isSome then some (none, st1)
        else ArchiveOptions.archiveFiles o host wh fn fuel rest st1

/-- What a call of `Archive` has done when it returns. -/
structure ArchiveResult where
  /-- The error returned. -/
  err : Option String
  /-- Whether the temporary file was created, whether `os.Rename` to the final path was
  called, and whether `os.Remove` was called on the temporary file. -/
  tmpCreated : Bool
  renameAttempted : Bool
  tmpRemoved : Bool
  /-- The bytes written to the temporary file. -/
  tmp : List Nat
  /-- The calls made to the callback that submits objects. -/
  calls : List (List Nat × Object)
  /-- What the parts of `Archive` returned: the walk, and `Writer.Close`. -/
  walkErr : Option String
  closeErr : Option String
deriving DecidableEq, Repr

/-- The deferred functions of `Archive`, which run when it returns with `err`: first
`w.Close()` is called and its error joined, then the temporary file is closed and renamed,
or closed and removed. -/
def Archive.deferred (env : ArchiveEnv) (hp : Heap) (w : Writer)
    (calls : List (List Nat × Object)) (walkErr err : Option String) : ArchiveResult :=
  let closeErr := (w.Close hp).2
  let err := if closeErr.isSome then joinErr err closeErr else err
  let tmp := (w.Close hp).1.cw.out
  if err.isNone then
    if env.tmpClose.isSome then
      { err := env.tmpClose, tmpCreated := true, renameAttempted := false, tmpRemoved := false,
        tmp := tmp, calls := calls, walkErr := walkErr, closeErr := closeErr }
    else
      { err := env.rename, tmpCreated := true, renameAttempted := true, tmpRemoved := false,
        tmp := tmp, calls := calls, walkErr := walkErr, closeErr := closeErr }
  else
    { err := err, tmpCreated := true, renameAttempted := false, tmpRemoved := true,
      tmp := tmp, calls := calls, walkErr := walkErr, closeErr := closeErr }

/-- A return of `Archive` before the temporary file exists. -/
def Archive.early (err : Option String) : ArchiveResult :=
  { err := err, tmpCreated := false, renameAttempted := false, tmpRemoved := false,
    tmp := [], calls := [], walkErr := none, closeErr := none }

/-- The function `Archive(ctx, path, opts)`; `none` when the walk does not return. -/
def Archive (env : ArchiveEnv) (opts : ArchiveOptions) : Option ArchiveResult :=
  if opts.Validate.2.isSome then some (Archive.early opts.Validate.2)
  else
    let opts := opts.Validate.1
    match env.absZip with
    | .error err => some (Archive.early (some err))
    | .ok absZipPath =>
      match env.mkdirTemp with
      | .error err => some (Archive.early (some err))
      | .ok tempRoot =>
        let opts := { opts with tempRoot := tempRoot }
        match env.createTemp with
        | .error err => some (Archive.early (some err))
        | .ok room =>
          let w := NewWriter room
          let fn := fun (absPath : List Nat) (obj : Object) =>
            if absPath = absZipPath then none else env.submit absPath obj
          match opts.archiveFiles env.host env.wh fn env.fuel opts.Files
              { submitErr := none, calls := [] } with
          | none => none
          | some (walkErr, st) =>
            let hw := archiveAll env.host env.hp w env.archived
            if walkErr.isSome then
              some (Archive.deferred env hw.1 hw.2 st.calls walkErr walkErr)
            else
              let err : Option String := none
              let err := if env.compressWait.isSome then joinErr err env.compressWait else err
              let err := if env.writeWait.isSome then joinErr err env.writeWait else err
              some (Archive.deferred env hw.1 hw.2 st.calls walkErr err)

/-! ## FormatName (object.go, lines 414-420) -/

/-- The function `FormatName(name)`. -/
def FormatName (name : List Nat) : List Nat :=
  let ext := Ext name
  if ext = bytesOf ".zip" then name else name ++ bytesOf ".zip"

/-! ## The target of an extracted entry (archiver.go, lines 305-311)

The functions `filepath.Clean` and `filepath.Join` of the Go library work on the text of a
path only. -/

/-- The elements of a path between its separators; two separators in a row and a separator
at either end give an empty element. -/
def splitSlash : List Nat → List (List Nat)
  | [] => [[]]
  | c :: cs =>
    if c = 47 then [] :: splitSlash cs
    else
      match splitSlash cs with
      | [] => [[c]]
      | e :: es => (c :: e) :: es

/-- The loop of `filepath.Clean` over the elements of the path: `out` holds the elements
kept so far, the last one first. An empty element and `.` are dropped; `..` removes the
element before it, is dropped at the root, and is kept at the start of a path that is not
rooted. -/
def cleanLoop (rooted : Bool) : List (List Nat) → List (List Nat) → List (List Nat)
  | [], out => out.reverse
  | e :: es, out =>
    if e = [] ∨ e = [46] then cleanLoop rooted es out
    else if e = [46, 46] then
      match out with
      | top :: rest =>
        if top = [46, 46] then cleanLoop rooted es (e :: out) else cleanLoop rooted es rest
      | [] => if rooted then cleanLoop rooted es [] else cleanLoop rooted es [e]
    else cleanLoop rooted es (e :: out)

/-- The function `filepath.Clean` on a system whose path separator is the slash. -/
def Clean (path : List Nat) : List Nat :=
  if path = [] then [46]
  else
    let rooted := path.head? == some 47
    let out := (if rooted then [47] else [])
      ++ [47].intercalate (cleanLoop rooted (splitSlash path) [])
    if out = [] then [46] else out

/-- The function `filepath.Join` on a system whose path separator is the slash: the
elements from the first one that is not empty on are joined by slashes and cleaned. -/
def Join (elem : List (List Nat)) : List Nat :=
  match elem.dropWhile (fun e => e.isEmpty) with
  | [] => []
  | es => Clean ([47].intercalate es)

/-- The options of `Extract`, as far as the target of an entry goes. -/
structure ExtractOptions where
  OutDir : List Nat
  Concurrency : Int

/-- Lines 306-311 of `ExtractOptions.extractFile`: the field `Path` of the target for the
entry named `name`. -/
def ExtractOptions.targetPath (o : ExtractOptions) (name : List Nat) : List Nat :=
  if o.OutDir ≠ [] then Join [o.OutDir, name] else name

/-- The path `p` is the directory `dir` or lies below it, both being clean paths. -/
def below (dir p : List Nat) : Bool :=
  p == dir || (dir ++ [47]).isPrefixOf p

example : Clean (bytesOf "a//b/./c/..") = bytesOf "a/b" := by decide
example : Clean (bytesOf "/../a") = bytesOf "/a" := by decide
example : Clean (bytesOf "../../a/..") = bytesOf "../.." := by decide
example : Clean (bytesOf "a/..") = bytesOf "." := by decide
example : Clean (bytesOf "/") = bytesOf "/" := by decide
example : Clean (bytesOf "abc/def/../../..") = bytesOf ".." := by decide
example : Join [bytesOf "a", []] = bytesOf "a" := by decide
example : Join [[], bytesOf "a"] = bytesOf "a" := by decide

/-! ## Well-formed UTF-8

What the Unicode standard calls a well-formed UTF-8 string, to compare `detectUTF8` with. -/

/-- A Unicode scalar value: a code point up to U+10FFFF that is not a surrogate. -/
def isScalarValue (r : Nat) : Prop := r < 0xD800 ∨ (0xDFFF < r ∧ r ≤ 0x10FFFF)

/-- The UTF-8 encoding of a scalar value, in one to four bytes. -/
def utf8Encode (r : Nat) : List Nat :=
  if r < 0x80 then [r]
  else if r < 0x800 then [0xC0 + r / 64, 0x80 + r % 64]
  else if r < 0x10000 then [0xE0 + r / 4096, 0x80 + r / 64 % 64, 0x80 + r % 64]
  else [0xF0 + r / 262144, 0x80 + r / 4096 % 64, 0x80 + r / 64 % 64, 0x80 + r % 64]

/-- The string made of the encodings of the code points `rs`. -/
def utf8String (rs : List Nat) : List Nat := (rs.map utf8Encode).flatten

/-- A string is well-formed UTF-8 when it is the encoding of a sequence of scalar values. -/
def WellFormedUTF8 (s : List Nat) : Prop :=
  ∃ rs : List Nat, (∀ r ∈ rs, isScalarValue r) ∧ s = utf8String rs

/-- A code point outside the range 0x20..0x7D, or the backslash. -/
def needsUTF8 (r : Nat) : Bool := decide (r < 0x20 ∨ r > 0x7d ∨ r = 0x5c)

/-! ## Sample states -/

/-- A heap whose every file header is the zero value named `a`. -/
def sampleHeap : Heap := fun _ => { FileHeader.empty with Name := [97] }

/-- A heap whose every file header is named `ab` and has a different value in each field the
local file header carries. -/
def markedHeap : Heap :=
  fun _ => { FileHeader.empty with
    Name := [97, 98], Extra := [1, 2, 3], ReaderVersion := 20, Flags := 0x0800, Method := 8,
    ModifiedTime := 0x1234, ModifiedDate := 0x5678, CRC32 := 0xDEADBEEF,
    CompressedSize64 := 5, UncompressedSize64 := 7 }

/-- Two entries with three bytes of payload after the first. -/
def sampleOps : List Op := [.create 0, .write [1, 2, 3], .create 1]

/-- The session after `sampleOps` on a new writer over an unlimited sink. -/
def sampleSession : Session := ((Session.init sampleHeap none).run sampleOps).get rfl


/-- The function `strings.ToLower` on ASCII bytes. -/
def asciiLower (p : List Nat) : List Nat :=
  p.map fun c => if 65 ≤ c ∧ c ≤ 90 then c + 32 else c

/-- A host whose links all point to a target of 200 bytes, whose files all hold ten bytes,
and whose temporary files take any number of bytes. -/
def sampleHost : Host :=
  { toLower := asciiLower, clean := id,
    readlink := fun _ => .ok (List.replicate 200 97),
    readFile := fun _ => .ok (List.replicate 10 98),
    dosTime := fun _ => 0, dosDate := fun _ => 0, externalAttrs := fun _ => 0,
    createTempFails := false, tempRoom := none,
    deflate := fun _ p => p }

/-- The host `sampleHost` with a disk that takes one byte for each temporary file. -/
def tightHost : Host := { sampleHost with tempRoom := some 1 }

/-- A regular file of ten bytes named `a`. -/
def sampleInfo : FileInfo :=
  { name := [97], size := 10, isDir := false, isSymlink := false, modTime := Time.zero,
    mode := 0 }

/-- A symbolic link named `a`. -/
def linkInfo : FileInfo := { sampleInfo with isSymlink := true, size := 200 }

/-- What `doublestar.PathMatch` answers for the patterns and paths of `TestSkipPath_Skip`:
`*.zip` matches `test.zip` only, `**/*.zip` matches `test.zip` and `1/2/test.zip`. -/
def testMatch (pattern path : List Nat) : Bool :=
  (pattern == bytesOf "*.zip" && path == bytesOf "test.zip")
    || (pattern == bytesOf "**/*.zip"
        && (path == bytesOf "test.zip" || path == bytesOf "1/2/test.zip"))

/-- A heap whose every file header is named `a` and has a comment of 65536 bytes. -/
def longCommentHeap : Heap :=
  fun _ => { FileHeader.empty with Name := [97], Comment := List.replicate 65536 120 }

/-- A file system in which every path is a regular file of ten bytes, under the root `/`;
a pattern matches the path equal to it. -/
def sampleWalkHost : WalkHost :=
  { lstat := fun _ => .ok sampleInfo,
    abs := fun p => .ok (47 :: p),
    dir := fun _ => [47],
    join := fun a b => a ++ [47] ++ b,
    isAbs := fun p => p.head? == some 47,
    walkDir := fun p => [{ path := p, err := none, info := .ok sampleInfo }],
    pathMatch := fun pattern path => pattern == path,
    pooled := Object.new 16 }

/-- The file `a` after `Reset` at level 6 and `Compress`: ten bytes, stored. -/
def sampleStored : Object :=
  (((Object.new 16).Reset sampleHost 0 [97] (some sampleInfo) 6).1.Compress sampleHost).1

/-- A call of `Archive` in which nothing fails and the write worker archives the file
`a`. -/
def sampleEnv : ArchiveEnv :=
  { host := sampleHost, wh := sampleWalkHost, fuel := 0, hp := sampleHeap,
    absZip := .ok (bytesOf "/out.zip"), mkdirTemp := .ok (bytesOf "/.pzip-1"),
    createTemp := .ok none, submit := fun _ _ => none, archived := [sampleStored],
    compressWait := none, writeWait := none, tmpClose := none, rename := none }

/-- The options to archive the file `a` with the comment `hi`. -/
def commentOptions : ArchiveOptions :=
  { skip := { Includes := [], Excludes := [] }, tempRoot := [], Files := [[97]], Level := 6,
    Concurrency := 1, Comment := [104, 105], Dereference := false, Recurse := false }

/-- The options to archive the file `a` without recursion while excluding `a`. -/
def excludeOptions : ArchiveOptions :=
  { commentOptions with skip := { Includes := [], Excludes := [[97]] } }

set_option maxRecDepth 100000 in
/-- What `Archive` returns in `sampleEnv` with `commentOptions`. -/
def sampleResult : ArchiveResult := (Archive sampleEnv commentOptions).get (by decide)

/-- An object of the pool after a first use at level 1 for the file `a`. -/
def usedObject : Object := ((Object.new 16).Reset sampleHost 0 [97] (some sampleInfo) 1).1

/-- A heap whose every file header has a name of 65536 bytes. -/
def longNameHeap : Heap :=
  fun _ => { FileHeader.empty with Name := List.replicate 65536 97 }

/-- A header named `a` at offset 0 with an extra field of 65530 bytes and an uncompressed
size of 2^32 - 1 bytes. -/
def longExtraHeader : header :=
  header.new { FileHeader.empty with Name := [97], Extra := List.replicate 65530 0,
                                     UncompressedSize64 := 2 ^ 32 - 1 } 0

/-- The link `a`, whose target has 200 bytes, after `Reset` at level 6. -/
def linkObject : Object := ((Object.new 16).Reset sampleHost 0 [97] (some linkInfo) 6).1

/-- The regular file `a`, of 200 bytes by its `FileInfo`, after `Reset` at level 6; the host
gives ten bytes of content when the file is read. -/
def fileObject : Object :=
  ((Object.new 16).Reset sampleHost 0 [97] (some { sampleInfo with size := 200 }) 6).1

/-! ## Theorems -/

theorem zip64buf_all (a b c : Nat) :
    ((((((writeBuf.make 28).uint16 zip64ExtraID).uint16 24).uint64 a).uint64 b).uint64
      c).filled = zip64Block true true a b c := by
  simp [writeBuf.make, writeBuf.uint16, writeBuf.uint64, writeBuf.filled, putAt, le16, le64,
    leBytes, List.replicate, zip64Block, zip64ExtraID]

theorem zip64buf_sizes (a b c : Nat) :
    (((((writeBuf.make 28).uint16 zip64ExtraID).uint16 16).uint64 a).uint64
      b).filled = zip64Block true false a b c := by
  simp [writeBuf.make, writeBuf.uint16, writeBuf.uint64, writeBuf.filled, putAt, le16, le64,
    leBytes, List.replicate, zip64Block, zip64ExtraID]

theorem zip64buf_offset (a b c : Nat) :
    ((((writeBuf.make 28).uint16 zip64ExtraID).uint16 8).uint64
      c).filled = zip64Block false true a b c := by
  simp [writeBuf.make, writeBuf.uint16, writeBuf.uint64, writeBuf.filled, putAt, le16, le64,
    leBytes, List.replicate, zip64Block, zip64ExtraID]

/-! ### Writes to the counting sink -/

theorem countWriter.Write_ok (w : countWriter) (p : List Nat) (h : (w.Write p).2.2 = none) :
    (w.Write p).1.out = w.out ++ p ∧ (w.Write p).1.count = (w.count + p.length) % 2 ^ 64
      ∧ (w.Write p).1.failed = false := by
  unfold countWriter.Write countWriter.sinkWrite at *
  by_cases hf : w.failed = true
  · simp [hf] at h
  · cases hr : w.room with
    | none => simp [hf, hr] at h ⊢
    | some r =>
      simp only [hf, hr] at h ⊢
      by_cases hlt : min r p.length < p.length
      · simp [hlt] at h
      · have hmin : min r p.length = p.length := by omega
        simp [hmin]

theorem localHeaderBuf_eq (h : header) :
    localHeaderBuf h = le32 0x04034b50 ++ le16 h.fh.ReaderVersion ++ le16 h.fh.Flags
      ++ le16 h.fh.Method ++ le16 h.fh.ModifiedTime ++ le16 h.fh.ModifiedDate
      ++ le32 h.fh.CRC32 ++ le32 h.compressedSize32 ++ le32 h.uncompressedSize32
      ++ le16 h.fh.Name.length ++ le16 h.fh.Extra.length := by
  simp [localHeaderBuf, writeBuf.make, writeBuf.uint16, writeBuf.uint32, putAt, le16, le32,
    leBytes, List.replicate, fileHeaderLen, fileHeaderSignature]
  omega

theorem localHeaderBuf_length (h : header) : (localHeaderBuf h).length = 30 := by
  simp [localHeaderBuf_eq, le16, le32, leBytes]

theorem writeHeader_ok (w : countWriter) (h : header) (hok : (writeHeader w h).2.2 = none) :
    (writeHeader w h).2.1 = h.prepare
      ∧ (writeHeader w h).1.out
          = w.out ++ localHeaderBuf h.prepare ++ h.prepare.fh.Name ++ h.prepare.fh.Extra
      ∧ (writeHeader w h).1.count
          = (w.count + 30 + h.prepare.fh.Name.length + h.prepare.fh.Extra.length) % 2 ^ 64
      ∧ (writeHeader w h).1.failed = false
      ∧ h.fh.Name.length ≤ 65535 ∧ h.fh.Extra.length ≤ 65535 := by
  unfold writeHeader at *
  by_cases hn : h.fh.Name.length > uint16max
  · simp [hn] at hok
  by_cases he : h.fh.Extra.length > uint16max
  · simp [hn, he] at hok
  simp only [hn, he, if_false] at hok ⊢
  cases h1 : (w.Write (localHeaderBuf h.prepare)).2.2 with
  | some e => simp [h1] at hok
  | none =>
    simp only [h1, Option.isSome_none, Bool.false_eq_true, if_false] at hok ⊢
    obtain ⟨o1, c1, f1⟩ := countWriter.Write_ok _ _ h1
    cases h2 : ((w.Write (localHeaderBuf h.prepare)).1.Write h.prepare.fh.Name).2.2 with
    | some e => simp [h2] at hok
    | none =>
      simp only [h2, Option.isSome_none, Bool.false_eq_true, if_false] at hok ⊢
      obtain ⟨o2, c2, f2⟩ := countWriter.Write_ok _ _ h2
      obtain ⟨o3, c3, f3⟩ := countWriter.Write_ok _ _ hok
      refine ⟨trivial, ?_, ?_, f3, ?_, ?_⟩
      · rw [o3, o2, o1]
      · rw [c3, c2, c1, localHeaderBuf_length]; omega
      · simp [uint16max] at hn; omega
      · simp [uint16max] at he; omega


theorem prepare_extra (h : header) :
    h.prepare.fh.Extra
      = h.fh.Extra ++ promotion h.fh.UncompressedSize64 h.fh.CompressedSize64 h.offset := by
  by_cases hu : h.fh.UncompressedSize64 ≥ 4294967295 <;>
  by_cases hc : h.fh.CompressedSize64 ≥ 4294967295 <;>
  by_cases ho : h.offset ≥ 4294967295 <;>
  simp [header.prepare, headerPrepareByWriteBuf, header.isZip64, uint32max, promotion,
    zip64buf_all, hu, hc, ho]
  all_goals first
    | rw [zip64buf_sizes _ _ h.offset]
    | rw [zip64buf_offset h.fh.UncompressedSize64 h.fh.CompressedSize64]

/-- The method `header.prepare` changes no field of the file header but `ReaderVersion`
and `Extra`, and leaves the offset alone. -/
theorem prepare_frame (h : header) :
    h.prepare.fh = { h.fh with ReaderVersion := h.prepare.fh.ReaderVersion,
                               Extra := h.prepare.fh.Extra }
      ∧ h.prepare.offset = h.offset := by
  by_cases hu : h.fh.UncompressedSize64 ≥ 4294967295 <;>
  by_cases hc : h.fh.CompressedSize64 ≥ 4294967295 <;>
  by_cases ho : h.offset ≥ 4294967295 <;>
  simp [header.prepare, headerPrepareByWriteBuf, header.isZip64, uint32max, hu, hc, ho]

theorem prepare_name (h : header) : h.prepare.fh.Name = h.fh.Name := by
  rw [(prepare_frame h).1]

theorem CreateRaw_ok (hp : Heap) (w : Writer) (fh : Nat) (r : RawWriter)
    (hok : (w.CreateRaw hp fh).2.2 = .ok r) :
    (w.CreateRaw hp fh).1 = Function.update hp fh (w.newHeader hp fh).prepare.fh
      ∧ (w.CreateRaw hp fh).2.1.dir = w.dir ++ [(w.newHeader hp fh).prepare.ref fh]
      ∧ (w.CreateRaw hp fh).2.1.cw.out = w.cw.out ++ localHeaderBuf (w.newHeader hp fh).prepare
          ++ (w.newHeader hp fh).prepare.fh.Name ++ (w.newHeader hp fh).prepare.fh.Extra
      ∧ (w.CreateRaw hp fh).2.1.cw.count = (w.cw.count + 30
          + (w.newHeader hp fh).prepare.fh.Name.length
          + (w.newHeader hp fh).prepare.fh.Extra.length) % 2 ^ 64
      ∧ (w.CreateRaw hp fh).2.1.cw.failed = false
      ∧ (w.CreateRaw hp fh).2.1.closed = w.closed
      ∧ (w.CreateRaw hp fh).2.1.comment = w.comment := by
  unfold Writer.CreateRaw at *
  cases hp1 : w.prepare fh with
  | some e => simp [hp1] at hok
  | none =>
    simp only [hp1] at hok ⊢
    cases hw : (writeHeader w.cw (w.newHeader hp fh)).2.2 with
    | some e => simp [hw] at hok
    | none =>
      obtain ⟨e1, e2, e3, e4, _, _⟩ := writeHeader_ok _ _ hw
      simp only [hw, e1] at hok ⊢
      split_ifs <;> simp [e2, e3, e4]

/-! ### The central directory -/

theorem directoryHeaderBuf_eq (h : header) :
    directoryHeaderBuf h = le32 0x02014b50 ++ le16 h.fh.CreatorVersion
      ++ le16 h.fh.ReaderVersion ++ le16 h.fh.Flags ++ le16 h.fh.Method
      ++ le16 h.fh.ModifiedTime ++ le16 h.fh.ModifiedDate ++ le32 h.fh.CRC32
      ++ le32 h.compressedSize32 ++ le32 h.uncompressedSize32
      ++ le16 h.fh.Name.length ++ le16 h.fh.Extra.length ++ le16 h.fh.Comment.length
      ++ [0, 0, 0, 0] ++ le32 h.fh.ExternalAttrs ++ le32 h.offset32 := by
  simp [directoryHeaderBuf, writeBuf.make, writeBuf.uint16, writeBuf.uint32, writeBuf.skip,
    putAt, le16, le32, leBytes, List.replicate, directoryHeaderLen, directoryHeaderSignature]
  omega

theorem directoryHeaderBuf_length (h : header) : (directoryHeaderBuf h).length = 46 := by
  simp [directoryHeaderBuf_eq, le16, le32, leBytes]

theorem writeDirectoryHeader_ok (w : countWriter) (h : header)
    (hok : (writeDirectoryHeader w h).2 = none) :
    (writeDirectoryHeader w h).1.out = w.out ++ directoryRecord h
      ∧ (writeDirectoryHeader w h).1.count = (w.count + (directoryRecord h).length) % 2 ^ 64
      ∧ (writeDirectoryHeader w h).1.failed = false := by
  unfold writeDirectoryHeader at *
  cases h1 : (w.Write (directoryHeaderBuf h)).2.2 with
  | some e => simp [h1] at hok
  | none =>
    simp only [h1, Option.isSome_none, Bool.false_eq_true, if_false] at hok ⊢
    obtain ⟨o1, c1, _⟩ := countWriter.Write_ok _ _ h1
    cases h2 : ((w.Write (directoryHeaderBuf h)).1.Write h.fh.Name).2.2 with
    | some e => simp [h2] at hok
    | none =>
      simp only [h2, Option.isSome_none, Bool.false_eq_true, if_false] at hok ⊢
      obtain ⟨o2, c2, _⟩ := countWriter.Write_ok _ _ h2
      cases h3 : (((w.Write (directoryHeaderBuf h)).1.Write h.fh.Name).1.Write
          h.fh.Extra).2.2 with
      | some e => simp [h3] at hok
      | none =>
        simp only [h3, Option.isSome_none, Bool.false_eq_true, if_false] at hok ⊢
        obtain ⟨o3, c3, _⟩ := countWriter.Write_ok _ _ h3
        obtain ⟨o4, c4, f4⟩ := countWriter.Write_ok _ _ hok
        refine ⟨?_, ?_, f4⟩
        · rw [o4, o3, o2, o1]; simp [directoryRecord]
        · rw [c4, c3, c2, c1]; simp [directoryRecord]; omega

theorem writeDirectory_ok (hp : Heap) (dir : List headerRef) (w : countWriter)
    (hc : w.count < 2 ^ 64) (hok : (writeDirectory hp w dir).2 = none) :
    (writeDirectory hp w dir).1.out = w.out ++ centralDirectory hp dir
      ∧ (writeDirectory hp w dir).1.count
          = (w.count + (centralDirectory hp dir).length) % 2 ^ 64 := by
  induction dir generalizing w with
  | nil =>
    simp only [writeDirectory, centralDirectory, List.map_nil, List.flatten_nil,
      List.append_nil, List.length_nil, Nat.add_zero, true_and]
    exact (Nat.mod_eq_of_lt hc).symm
  | cons r rs ih =>
    rw [writeDirectory] at hok ⊢
    cases h1 : (writeDirectoryHeader w (r.load hp)).2 with
    | some e => simp [h1] at hok
    | none =>
      simp only [h1, Option.isSome_none, Bool.false_eq_true, if_false] at hok ⊢
      obtain ⟨o1, c1, _⟩ := writeDirectoryHeader_ok _ _ h1
      have hc1 : (writeDirectoryHeader w (r.load hp)).1.count < 2 ^ 64 := by
        rw [c1]; exact Nat.mod_lt _ (by norm_num)
      obtain ⟨o2, c2⟩ := ih _ hc1 hok
      refine ⟨?_, ?_⟩
      · rw [o2, o1]; simp [centralDirectory]
      · rw [c2, c1]; simp [centralDirectory]; omega

set_option maxRecDepth 8000 in
theorem directory64EndBuf_eq (records size offset end_ : Nat) :
    directory64EndBuf records size offset end_
      = zip64End records size offset ++ zip64Locator end_ := by
  simp [directory64EndBuf, writeBuf.make, writeBuf.uint16, writeBuf.uint32, writeBuf.uint64,
    putAt, le16, le32, le64, leBytes, List.replicate, directory64EndLen, directory64LocLen,
    directory64EndSignature, directory64LocSignature, zipVersion45, zip64End, zip64Locator]

theorem directoryEndBuf_eq (records size offset commentLen : Nat) :
    directoryEndBuf records size offset commentLen
      = endRecord records size offset commentLen := by
  simp [directoryEndBuf, writeBuf.make, writeBuf.uint16, writeBuf.uint32, writeBuf.skip,
    putAt, le16, le32, leBytes, List.replicate, directoryEndLen, directoryEndSignature,
    endRecord]
  omega

theorem length_le_centralDirectory (hp : Heap) (dir : List headerRef) :
    dir.length ≤ (centralDirectory hp dir).length := by
  induction dir with
  | nil => simp
  | cons r rs ih =>
    simp only [centralDirectory, List.map_cons, List.flatten_cons, List.length_append,
      List.length_cons] at ih ⊢
    have : (directoryRecord (r.load hp)).length ≥ 46 := by
      simp [directoryRecord, directoryHeaderBuf_length]
    omega

/-- What a successful `Close` appends to the stream, when the count is the stream
position and does not wrap. -/
theorem Close_ok (hp : Heap) (w : Writer) (hinv : w.cw.count = w.cw.out.length)
    (hlen : w.cw.out.length + (centralDirectory hp w.dir).length < 2 ^ 64)
    (hok : (w.Close hp).2 = none) :
    (w.Close hp).1.cw.out = w.cw.out ++ centralDirectory hp w.dir
      ++ (if w.dir.length ≥ 65535 ∨ (centralDirectory hp w.dir).length ≥ 2 ^ 32 - 1
            ∨ w.cw.out.length ≥ 2 ^ 32 - 1 then
          zip64End w.dir.length (centralDirectory hp w.dir).length w.cw.out.length
            ++ zip64Locator (w.cw.out.length + (centralDirectory hp w.dir).length)
            ++ endRecord 0xFFFF 0xFFFFFFFF 0xFFFFFFFF w.comment.length
        else
          endRecord w.dir.length (centralDirectory hp w.dir).length w.cw.out.length
            w.comment.length)
      ++ w.comment := by
  have hc : w.cw.count < 2 ^ 64 := by omega
  unfold Writer.Close at *
  by_cases hcl : w.closed = true
  · simp [hcl] at hok
  simp only [hcl, if_false] at hok ⊢
  cases hd : (writeDirectory hp w.cw w.dir).2 with
  | some e => simp [hd] at hok
  | none =>
    obtain ⟨o1, c1⟩ := writeDirectory_ok hp w.dir w.cw hc hd
    simp only [hd, Option.isSome_none, Bool.false_eq_true, if_false] at hok ⊢
    have hdl := length_le_centralDirectory hp w.dir
    have hrec : w.dir.length % 2 ^ 64 = w.dir.length := Nat.mod_eq_of_lt (by omega)
    have hend : (writeDirectory hp w.cw w.dir).1.count
        = w.cw.out.length + (centralDirectory hp w.dir).length := by
      rw [c1, hinv]; exact Nat.mod_eq_of_lt hlen
    have hsize : (w.cw.out.length + (centralDirectory hp w.dir).length + 2 ^ 64
        - w.cw.out.length) % 2 ^ 64 = (centralDirectory hp w.dir).length := by
      omega
    simp only [hrec, hend, hinv, hsize] at hok ⊢
    generalize (writeDirectory hp w.cw w.dir).1 = wd at *
    by_cases hz : (decide (w.dir.length ≥ uint16max)
        || decide ((centralDirectory hp w.dir).length ≥ uint32max)
        || decide (w.cw.out.length ≥ uint32max)) = true
    · have hz2 : w.dir.length ≥ 65535 ∨ (centralDirectory hp w.dir).length ≥ 2 ^ 32 - 1
          ∨ w.cw.out.length ≥ 2 ^ 32 - 1 := by
        simpa [uint16max, uint32max, or_assoc] using hz
      simp only [hz, if_true, hz2] at hok ⊢
      cases h1 : (wd.Write (directory64EndBuf w.dir.length (centralDirectory hp w.dir).length
          w.cw.out.length (w.cw.out.length + (centralDirectory hp w.dir).length))).2.2 with
      | some e => simp [h1] at hok
      | none =>
        simp only [h1, Option.isSome_none, Bool.false_eq_true, if_false] at hok ⊢
        obtain ⟨p1, _, _⟩ := countWriter.Write_ok _ _ h1
        generalize (wd.Write (directory64EndBuf w.dir.length
          (centralDirectory hp w.dir).length w.cw.out.length
          (w.cw.out.length + (centralDirectory hp w.dir).length))).1 = w1 at *
        cases h2 : (w1.Write (directoryEndBuf uint16max uint32max uint32max
            w.comment.length)).2.2 with
        | some e => simp [h2] at hok
        | none =>
          simp only [h2, Option.isSome_none, Bool.false_eq_true, if_false] at hok ⊢
          obtain ⟨p2, _, _⟩ := countWriter.Write_ok _ _ h2
          generalize (w1.Write (directoryEndBuf uint16max uint32max uint32max
            w.comment.length)).1 = w2 at *
          cases h3 : (w2.Write w.comment).2.2 with
          | some e => simp [h3] at hok
          | none =>
            simp only [h3, Option.isSome_none, Bool.false_eq_true, if_false] at hok ⊢
            obtain ⟨p3, _, _⟩ := countWriter.Write_ok _ _ h3
            rw [p3, p2, p1, o1, directory64EndBuf_eq, directoryEndBuf_eq]
            simp [uint16max, uint32max]
    · have hz2 : ¬ (w.dir.length ≥ 65535 ∨ (centralDirectory hp w.dir).length ≥ 2 ^ 32 - 1
          ∨ w.cw.out.length ≥ 2 ^ 32 - 1) := by
        simpa [uint16max, uint32max, or_assoc] using hz
      simp only [hz, if_false, hz2] at hok ⊢
      cases h2 : (wd.Write (directoryEndBuf w.dir.length (centralDirectory hp w.dir).length
          w.cw.out.length w.comment.length)).2.2 with
      | some e => simp [h2] at hok
      | none =>
        simp only [h2, Option.isSome_none, Bool.false_eq_true, if_false] at hok ⊢
        obtain ⟨p2, _, _⟩ := countWriter.Write_ok _ _ h2
        generalize (wd.Write (directoryEndBuf w.dir.length
          (centralDirectory hp w.dir).length w.cw.out.length w.comment.length)).1 = w2 at *
        cases h3 : (w2.Write w.comment).2.2 with
        | some e => simp [h3] at hok
        | none =>
          simp only [h3, Option.isSome_none, Bool.false_eq_true, if_false] at hok ⊢
          obtain ⟨p3, _, _⟩ := countWriter.Write_ok _ _ h3
          rw [p3, p2, o1, directoryEndBuf_eq]

/-! ### Sessions -/

/-- Any write moves the count with the stream, and never shortens the stream. -/
theorem countWriter.Write_count (w : countWriter) (p : List Nat)
    (h : w.count = w.out.length % 2 ^ 64) :
    (w.Write p).1.count = (w.Write p).1.out.length % 2 ^ 64
      ∧ w.out.length ≤ (w.Write p).1.out.length := by
  unfold countWriter.Write countWriter.sinkWrite
  by_cases hf : w.failed = true
  · simp [hf, h]
  · cases hr : w.room with
    | none => simp [hf, hr, h]
    | some r =>
      simp only [hf, hr, h]
      simp only [Bool.false_eq_true, if_false, List.length_append, List.length_take]
      constructor
      · have : min (min r p.length) p.length = min r p.length := by omega
        rw [this]; omega
      · omega

theorem Session.init_inv (hp : Heap) (room : Option Nat) : (Session.init hp room).Inv := by
  simp [Session.Inv, Session.init, NewWriter]

theorem prepare_offset32 (h : header) : h.prepare.offset32 = offset32At h.offset := by
  by_cases hu : h.fh.UncompressedSize64 ≥ 4294967295 <;>
  by_cases hc : h.fh.CompressedSize64 ≥ 4294967295 <;>
  by_cases ho : h.offset ≥ 4294967295 <;>
  simp [header.prepare, headerPrepareByWriteBuf, header.isZip64, uint32max, offset32At,
    hu, hc, ho]
  all_goals omega

theorem Session.step_inv (s s1 : Session) (op : Op) (hinv : s.Inv)
    (hs : s.step op = some s1) : s1.Inv := by
  obtain ⟨hc, hd⟩ := hinv
  cases op with
  | create fh =>
    simp only [Session.step] at hs
    cases hr : (s.w.CreateRaw s.hp fh).2.2 with
    | error e => simp [hr] at hs
    | ok r =>
      simp only [hr, Option.some.injEq] at hs
      obtain ⟨_, e2, e3, e4, _, _, _⟩ := CreateRaw_ok s.hp s.w fh r hr
      subst hs
      simp only [Session.Inv]
      refine ⟨?_, ?_⟩
      · rw [e4, e3, hc]
        simp only [List.length_append, localHeaderBuf_length]
        omega
      · rw [e2]
        refine List.rel_append (hd.imp ?_) ?_
        · intro r st h
          refine ⟨h.1, h.2.1, ?_⟩
          rw [e3]; simp only [List.length_append]; omega
        · refine List.Forall₂.cons ⟨?_, ?_, ?_⟩ List.Forall₂.nil
          · simp [header.ref, (prepare_frame _).2, Writer.newHeader, header.new, hc]
          · simp [header.ref, prepare_offset32, (prepare_frame _).2]
          · rw [e3]; simp only [List.length_append]; omega
  | write p =>
    simp only [Session.step] at hs
    cases hcur : s.cur with
    | none =>
      simp only [hcur, Option.some.injEq] at hs
      subst hs; exact ⟨hc, hd⟩
    | some r =>
      simp only [hcur, Option.some.injEq] at hs
      subst hs
      cases r with
      | dirWriter => exact ⟨hc, hd⟩
      | countWriter =>
        obtain ⟨h1, h2⟩ := countWriter.Write_count s.w.cw p hc
        refine ⟨h1, hd.imp ?_⟩
        intro r st h
        exact ⟨h.1, h.2.1, le_trans h.2.2 h2⟩

theorem Session.run_inv (ops : List Op) (s s1 : Session) (hinv : s.Inv)
    (hs : s.run ops = some s1) : s1.Inv := by
  induction ops generalizing s with
  | nil => simp only [Session.run, Option.some.injEq] at hs; subst hs; exact hinv
  | cons op ops ih =>
    simp only [Session.run] at hs
    cases h1 : s.step op with
    | none => simp [h1] at hs
    | some s2 =>
      simp only [h1] at hs
      exact ih s2 (Session.step_inv s s2 op hinv h1) hs

theorem Session.run_created (ops : List Op) (s s1 : Session) (hs : s.run ops = some s1) :
    s1.w.dir.map (·.ptr) = s.w.dir.map (·.ptr) ++ ops.filterMap Op.created := by
  induction ops generalizing s with
  | nil => simp only [Session.run, Option.some.injEq] at hs; subst hs; simp
  | cons op ops ih =>
    simp only [Session.run] at hs
    cases h1 : s.step op with
    | none => simp [h1] at hs
    | some s2 =>
      simp only [h1] at hs
      rw [ih s2 hs]
      cases op with
      | create fh =>
        simp only [Session.step] at h1
        cases hr : (s.w.CreateRaw s.hp fh).2.2 with
        | error e => simp [hr] at h1
        | ok r =>
          simp only [hr, Option.some.injEq] at h1
          obtain ⟨_, e2, _⟩ := CreateRaw_ok s.hp s.w fh r hr
          subst h1
          simp [e2, Op.created, header.ref]
      | write p =>
        simp only [Session.step] at h1
        cases hcur : s.cur with
        | none => simp only [hcur, Option.some.injEq] at h1; subst h1; simp [Op.created]
        | some r =>
          simp only [hcur, Option.some.injEq] at h1
          subst h1
          cases r <;> simp [Op.created, Writer.payloadWrite, dirWriterWrite]

theorem signatureAt_append (out t : List Nat) (pos : Nat) (h : signatureAt out pos) :
    signatureAt (out ++ t) pos := by
  obtain ⟨h1, h2⟩ := h
  refine ⟨by simp only [List.length_append]; omega, ?_⟩
  rw [List.drop_append_of_le_length (by omega), List.take_append_of_le_length
    (by simp only [List.length_drop]; omega), h2]

theorem countWriter.Write_out (w : countWriter) (p : List Nat) :
    ∃ t, (w.Write p).1.out = w.out ++ t := by
  unfold countWriter.Write countWriter.sinkWrite
  by_cases hf : w.failed = true
  · exact ⟨[], by simp [hf]⟩
  · exact ⟨_, by simp only [hf]; rfl⟩

theorem Session.step_signature (s s1 : Session) (op : Op)
    (hinv : ∀ pos ∈ s.starts, signatureAt s.w.cw.out pos) (hs : s.step op = some s1) :
    ∀ pos ∈ s1.starts, signatureAt s1.w.cw.out pos := by
  cases op with
  | create fh =>
    simp only [Session.step] at hs
    cases hr : (s.w.CreateRaw s.hp fh).2.2 with
    | error e => simp [hr] at hs
    | ok r =>
      simp only [hr, Option.some.injEq] at hs
      obtain ⟨_, _, e3, _⟩ := CreateRaw_ok s.hp s.w fh r hr
      subst hs
      intro pos hpos
      simp only [List.mem_append, List.mem_singleton] at hpos
      simp only [e3, List.append_assoc]
      rcases hpos with hpos | hpos
      · exact signatureAt_append _ _ _ (hinv pos hpos)
      · subst hpos
        refine ⟨?_, ?_⟩
        · simp only [List.length_append, localHeaderBuf_length]; omega
        · rw [List.drop_left, localHeaderBuf_eq]
          simp [le32, le16, leBytes]
  | write p =>
    simp only [Session.step] at hs
    cases hcur : s.cur with
    | none => simp only [hcur, Option.some.injEq] at hs; subst hs; exact hinv
    | some r =>
      simp only [hcur, Option.some.injEq] at hs
      subst hs
      cases r with
      | dirWriter => exact hinv
      | countWriter =>
        obtain ⟨t, ht⟩ := countWriter.Write_out s.w.cw p
        intro pos hpos
        simp only [Writer.payloadWrite, ht]
        exact signatureAt_append _ _ _ (hinv pos hpos)

theorem Session.run_signature (ops : List Op) (s s1 : Session)
    (hinv : ∀ pos ∈ s.starts, signatureAt s.w.cw.out pos) (hs : s.run ops = some s1) :
    ∀ pos ∈ s1.starts, signatureAt s1.w.cw.out pos := by
  induction ops generalizing s with
  | nil => simp only [Session.run, Option.some.injEq] at hs; subst hs; exact hinv
  | cons op ops ih =>
    simp only [Session.run] at hs
    cases h1 : s.step op with
    | none => simp [h1] at hs
    | some s2 =>
      simp only [h1] at hs
      exact ih s2 (Session.step_signature s s2 op hinv h1) hs

theorem directoryRecord_offset32 (h : header) :
    ((directoryRecord h).drop 42).take 4 = le32 h.offset32 := by
  simp [directoryRecord, directoryHeaderBuf_eq, le16, le32, leBytes]

/-- C1: `header.prepare` promotes a header to ZIP64 exactly when a size or the offset is
at least 2^32-1. When it does, the reader version becomes 45 and the bytes appended to
`Extra` are the ID 0x0001, the payload length (24, 16 or 8) and the promoted fields in the
order uncompressed size, compressed size, offset; otherwise `Extra` and the reader version
are unchanged. The 32-bit projection of every promoted field is 0xFFFFFFFF. -/
theorem header_prepare_zip64 (h : header) :
    (if h.fh.UncompressedSize64 ≥ 2 ^ 32 - 1 ∨ h.fh.CompressedSize64 ≥ 2 ^ 32 - 1
        ∨ h.offset ≥ 2 ^ 32 - 1 then
      h.prepare.fh.Extra = h.fh.Extra ++ zip64Block
        (decide (h.fh.UncompressedSize64 ≥ 2 ^ 32 - 1 ∨ h.fh.CompressedSize64 ≥ 2 ^ 32 - 1))
        (decide (h.offset ≥ 2 ^ 32 - 1))
        h.fh.UncompressedSize64 h.fh.CompressedSize64 h.offset
      ∧ h.prepare.fh.ReaderVersion = 45
    else
      h.prepare.fh.Extra = h.fh.Extra ∧ h.prepare.fh.ReaderVersion = h.fh.ReaderVersion)
    ∧ h.prepare.uncompressedSize32 =
      (if h.fh.UncompressedSize64 ≥ 2 ^ 32 - 1 ∨ h.fh.CompressedSize64 ≥ 2 ^ 32 - 1
        then 0xFFFFFFFF else h.fh.UncompressedSize)
    ∧ h.prepare.compressedSize32 =
      (if h.fh.UncompressedSize64 ≥ 2 ^ 32 - 1 ∨ h.fh.CompressedSize64 ≥ 2 ^ 32 - 1
        then 0xFFFFFFFF else h.fh.CompressedSize)
    ∧ h.prepare.offset32 = (if h.offset ≥ 2 ^ 32 - 1 then 0xFFFFFFFF else h.offset) := by
  by_cases hu : h.fh.UncompressedSize64 ≥ 4294967295 <;>
  by_cases hc : h.fh.CompressedSize64 ≥ 4294967295 <;>
  by_cases ho : h.offset ≥ 4294967295 <;>
  simp [header.prepare, headerPrepareByWriteBuf, header.isZip64, uint32max, zipVersion45,
    zip64buf_all, hu, hc, ho]
  all_goals first
    | exact ⟨zip64buf_sizes _ _ _, by omega⟩
    | exact zip64buf_offset _ _ _
    | omega

/-- The reader version and the 32-bit sizes `header.prepare` leaves. -/
theorem prepare_fields (h : header) :
    h.prepare.fh.ReaderVersion
        = (if h.fh.UncompressedSize64 ≥ 2 ^ 32 - 1 ∨ h.fh.CompressedSize64 ≥ 2 ^ 32 - 1
            ∨ h.offset ≥ 2 ^ 32 - 1 then 45 else h.fh.ReaderVersion)
    ∧ h.prepare.compressedSize32
        = (if h.fh.UncompressedSize64 ≥ 2 ^ 32 - 1 ∨ h.fh.CompressedSize64 ≥ 2 ^ 32 - 1
            then 0xFFFFFFFF else h.fh.CompressedSize)
    ∧ h.prepare.uncompressedSize32
        = (if h.fh.UncompressedSize64 ≥ 2 ^ 32 - 1 ∨ h.fh.CompressedSize64 ≥ 2 ^ 32 - 1
            then 0xFFFFFFFF else h.fh.UncompressedSize) := by
  by_cases hu : h.fh.UncompressedSize64 ≥ 4294967295 <;>
  by_cases hc : h.fh.CompressedSize64 ≥ 4294967295 <;>
  by_cases ho : h.offset ≥ 4294967295 <;>
  simp [header.prepare, headerPrepareByWriteBuf, header.isZip64, uint32max, zipVersion45,
    hu, hc, ho]

/-- The header `CreateRaw` writes, in terms of the file header it was given: the fields of
the file header are the given ones except the reader version and the extra field, and the
32-bit sizes are the 64-bit ones, or 0xFFFFFFFF when one of them does not fit. -/
theorem newHeader_prepare (hp : Heap) (w : Writer) (fh : Nat) :
    (w.newHeader hp fh).prepare.fh.ReaderVersion
        = (if (hp fh).UncompressedSize64 ≥ 2 ^ 32 - 1 ∨ (hp fh).CompressedSize64 ≥ 2 ^ 32 - 1
            ∨ w.cw.count ≥ 2 ^ 32 - 1 then 45 else (hp fh).ReaderVersion)
    ∧ (w.newHeader hp fh).prepare.fh.Flags = (hp fh).Flags
    ∧ (w.newHeader hp fh).prepare.fh.Method = (hp fh).Method
    ∧ (w.newHeader hp fh).prepare.fh.ModifiedTime = (hp fh).ModifiedTime
    ∧ (w.newHeader hp fh).prepare.fh.ModifiedDate = (hp fh).ModifiedDate
    ∧ (w.newHeader hp fh).prepare.fh.CRC32 = (hp fh).CRC32
    ∧ (w.newHeader hp fh).prepare.compressedSize32
        = (if (hp fh).UncompressedSize64 ≥ 2 ^ 32 - 1 ∨ (hp fh).CompressedSize64 ≥ 2 ^ 32 - 1
            then 0xFFFFFFFF else (hp fh).CompressedSize64)
    ∧ (w.newHeader hp fh).prepare.uncompressedSize32
        = (if (hp fh).UncompressedSize64 ≥ 2 ^ 32 - 1 ∨ (hp fh).CompressedSize64 ≥ 2 ^ 32 - 1
            then 0xFFFFFFFF else (hp fh).UncompressedSize64)
    ∧ (w.newHeader hp fh).prepare.fh.Name = (hp fh).Name
    ∧ (w.newHeader hp fh).prepare.fh.Extra = (hp fh).Extra
        ++ promotion (hp fh).UncompressedSize64 (hp fh).CompressedSize64 w.cw.count
    ∧ (w.newHeader hp fh).prepare.offset = w.cw.count := by
  obtain ⟨f1, f2, f3⟩ := prepare_fields (w.newHeader hp fh)
  have hfr := (prepare_frame (w.newHeader hp fh)).1
  refine ⟨?_, by rw [hfr]; rfl, by rw [hfr]; rfl, by rw [hfr]; rfl, by rw [hfr]; rfl,
    by rw [hfr]; rfl, ?_, ?_, by rw [prepare_name]; rfl, by rw [prepare_extra]; rfl,
    by rw [(prepare_frame _).2]; rfl⟩
  · rw [f1]; rfl
  · rw [f2]
    show (if (hp fh).UncompressedSize64 ≥ 2 ^ 32 - 1 ∨ (hp fh).CompressedSize64 ≥ 2 ^ 32 - 1
      then 0xFFFFFFFF else min (hp fh).CompressedSize64 uint32max % 2 ^ 32) = _
    split_ifs with hb
    · rfl
    · simp only [uint32max]; omega
  · rw [f3]
    show (if (hp fh).UncompressedSize64 ≥ 2 ^ 32 - 1 ∨ (hp fh).CompressedSize64 ≥ 2 ^ 32 - 1
      then 0xFFFFFFFF else min (hp fh).UncompressedSize64 uint32max % 2 ^ 32) = _
    split_ifs with hb
    · rfl
    · simp only [uint32max]; omega

/-- C2: a successful `CreateRaw` of the file header `f` on a writer whose count is `c` has
accepted a name and an extra field of at most 65535 bytes each, records as the last
directory entry the header with `offset = c`, and appends to the stream the local file
header: the signature 0x04034b50, the reader version of `f` (45 after a ZIP64 promotion),
the flags, method, time, date and CRC-32 of `f`, the compressed and the uncompressed size of
`f` (0xFFFFFFFF for both when one of them is at least 2^32-1), the length of the name of `f`
and the length of `Extra'`, all little-endian, then the name of `f` and `Extra'`, which is
the extra field of `f` followed by the ZIP64 block of the promotion, if any. These are
`30 + len(Name) + len(Extra')` bytes, and the count afterwards is
`c + 30 + len(Name) + len(Extra')`, the count being a `uint64`. -/
theorem createRaw_local_header (hp : Heap) (w : Writer) (fh : Nat) (r : RawWriter)
    (hok : (w.CreateRaw hp fh).2.2 = .ok r)
    (hcount : w.cw.count + 30 + (hp fh).Name.length + ((hp fh).Extra
      ++ promotion (hp fh).UncompressedSize64 (hp fh).CompressedSize64 w.cw.count).length
        < 2 ^ 64) :
    (hp fh).Name.length ≤ 65535 ∧ (hp fh).Extra.length ≤ 65535
    ∧ (w.CreateRaw hp fh).2.1.dir = w.dir ++ [
        { ptr := fh, offset := w.cw.count,
          offset32 := if w.cw.count ≥ 2 ^ 32 - 1 then 0xFFFFFFFF else w.cw.count,
          compressedSize32 :=
            if (hp fh).UncompressedSize64 ≥ 2 ^ 32 - 1 ∨ (hp fh).CompressedSize64 ≥ 2 ^ 32 - 1
            then 0xFFFFFFFF else (hp fh).CompressedSize64,
          uncompressedSize32 :=
            if (hp fh).UncompressedSize64 ≥ 2 ^ 32 - 1 ∨ (hp fh).CompressedSize64 ≥ 2 ^ 32 - 1
            then 0xFFFFFFFF else (hp fh).UncompressedSize64 }]
    ∧ ((w.CreateRaw hp fh).1 fh).Name = (hp fh).Name
    ∧ ((w.CreateRaw hp fh).1 fh).Extra = (hp fh).Extra
        ++ promotion (hp fh).UncompressedSize64 (hp fh).CompressedSize64 w.cw.count
    ∧ (w.CreateRaw hp fh).2.1.cw.out = w.cw.out
        ++ (le32 0x04034b50
          ++ le16 (if (hp fh).UncompressedSize64 ≥ 2 ^ 32 - 1
              ∨ (hp fh).CompressedSize64 ≥ 2 ^ 32 - 1 ∨ w.cw.count ≥ 2 ^ 32 - 1
              then 45 else (hp fh).ReaderVersion)
          ++ le16 (hp fh).Flags
          ++ le16 (hp fh).Method
          ++ le16 (hp fh).ModifiedTime
          ++ le16 (hp fh).ModifiedDate
          ++ le32 (hp fh).CRC32
          ++ le32 (if (hp fh).UncompressedSize64 ≥ 2 ^ 32 - 1
              ∨ (hp fh).CompressedSize64 ≥ 2 ^ 32 - 1
              then 0xFFFFFFFF else (hp fh).CompressedSize64)
          ++ le32 (if (hp fh).UncompressedSize64 ≥ 2 ^ 32 - 1
              ∨ (hp fh).CompressedSize64 ≥ 2 ^ 32 - 1
              then 0xFFFFFFFF else (hp fh).UncompressedSize64)
          ++ le16 (hp fh).Name.length
          ++ le16 ((hp fh).Extra
              ++ promotion (hp fh).UncompressedSize64 (hp fh).CompressedSize64
                w.cw.count).length)
        ++ (hp fh).Name
        ++ ((hp fh).Extra
          ++ promotion (hp fh).UncompressedSize64 (hp fh).CompressedSize64 w.cw.count)
    ∧ (w.CreateRaw hp fh).2.1.cw.out.length = w.cw.out.length + 30
        + (hp fh).Name.length + ((hp fh).Extra
          ++ promotion (hp fh).UncompressedSize64 (hp fh).CompressedSize64 w.cw.count).length
    ∧ (w.CreateRaw hp fh).2.1.cw.count = w.cw.count + 30
        + (hp fh).Name.length + ((hp fh).Extra
          ++ promotion (hp fh).UncompressedSize64 (hp fh).CompressedSize64
            w.cw.count).length := by
  obtain ⟨e1, e2, e3, e4, _, _, _⟩ := CreateRaw_ok hp w fh r hok
  obtain ⟨g1, g2, g3, g4, g5, g6, g7, g8, g9, g10, g11⟩ := newHeader_prepare hp w fh
  have hf : (w.CreateRaw hp fh).1 fh = (w.newHeader hp fh).prepare.fh := by
    rw [e1]; simp
  have hlen : (hp fh).Name.length ≤ 65535 ∧ (hp fh).Extra.length ≤ 65535 := by
    unfold Writer.CreateRaw at hok
    cases hp1 : w.prepare fh with
    | some e => simp [hp1] at hok
    | none =>
      simp only [hp1] at hok
      cases hw : (writeHeader w.cw (w.newHeader hp fh)).2.2 with
      | some e => simp [hw] at hok
      | none =>
        obtain ⟨_, _, _, _, h5, h6⟩ := writeHeader_ok _ _ hw
        exact ⟨h5, h6⟩
  have hout : (w.CreateRaw hp fh).2.1.cw.out = w.cw.out
      ++ (le32 0x04034b50
        ++ le16 (if (hp fh).UncompressedSize64 ≥ 2 ^ 32 - 1
            ∨ (hp fh).CompressedSize64 ≥ 2 ^ 32 - 1 ∨ w.cw.count ≥ 2 ^ 32 - 1
            then 45 else (hp fh).ReaderVersion)
        ++ le16 (hp fh).Flags
        ++ le16 (hp fh).Method
        ++ le16 (hp fh).ModifiedTime
        ++ le16 (hp fh).ModifiedDate
        ++ le32 (hp fh).CRC32
        ++ le32 (if (hp fh).UncompressedSize64 ≥ 2 ^ 32 - 1
            ∨ (hp fh).CompressedSize64 ≥ 2 ^ 32 - 1
            then 0xFFFFFFFF else (hp fh).CompressedSize64)
        ++ le32 (if (hp fh).UncompressedSize64 ≥ 2 ^ 32 - 1
            ∨ (hp fh).CompressedSize64 ≥ 2 ^ 32 - 1
            then 0xFFFFFFFF else (hp fh).UncompressedSize64)
        ++ le16 (hp fh).Name.length
        ++ le16 ((hp fh).Extra
            ++ promotion (hp fh).UncompressedSize64 (hp fh).CompressedSize64
              w.cw.count).length)
      ++ (hp fh).Name
      ++ ((hp fh).Extra
        ++ promotion (hp fh).UncompressedSize64 (hp fh).CompressedSize64 w.cw.count) := by
    rw [e3, localHeaderBuf_eq, g1, g2, g3, g4, g5, g6, g7, g8, g9, g10]
  refine ⟨hlen.1, hlen.2, ?_, by rw [hf, g9], by rw [hf, g10], hout, ?_, ?_⟩
  · rw [e2]
    simp only [header.ref, g7, g8, g11, prepare_offset32, offset32At]
    rfl
  · rw [hout]
    simp only [List.length_append, le16, le32, leBytes, List.length_cons, List.length_nil]
  · rw [e4, g9, g10]
    exact Nat.mod_eq_of_lt hcount

theorem createRaw_local_header_witness :
    ((NewWriter none).CreateRaw markedHeap 0).2.2 = .ok .countWriter
      ∧ ((NewWriter none).CreateRaw markedHeap 0).2.1.cw.out
        = [0x50, 0x4b, 0x03, 0x04, 20, 0, 0x00, 0x08, 8, 0, 0x34, 0x12, 0x78, 0x56,
            0xEF, 0xBE, 0xAD, 0xDE, 5, 0, 0, 0, 7, 0, 0, 0, 2, 0, 3, 0, 97, 98, 1, 2, 3]
      ∧ ((NewWriter none).CreateRaw markedHeap 0).2.1.cw.count = 35 :=
  ⟨rfl,
    (createRaw_local_header markedHeap (NewWriter none) 0 .countWriter rfl
      (by decide)).2.2.2.2.2.1.trans (by decide),
    (createRaw_local_header markedHeap (NewWriter none) 0 .countWriter rfl
      (by decide)).2.2.2.2.2.2.2.trans (by decide)⟩

/-- C4: a successful `Close` on a writer whose count is the stream position appends the
central directory and then, with `records` the number of directory entries, `size` the
number of bytes of the central directory and `offset` the position where it starts: if
`records >= 65535` or `size >= 2^32-1` or `offset >= 2^32-1`, the 56-byte ZIP64 end record
carrying the three values, the 20-byte locator carrying the position of that record, and
the 22-byte end record with 0xFFFF and 0xFFFFFFFF in its fields; otherwise only the 22-byte
end record with the exact values. The comment follows. -/
theorem close_end_of_directory (hp : Heap) (w : Writer)
    (hinv : w.cw.count = w.cw.out.length)
    (hlen : w.cw.out.length + (centralDirectory hp w.dir).length < 2 ^ 64)
    (hok : (w.Close hp).2 = none) :
    (w.Close hp).1.cw.out = w.cw.out ++ centralDirectory hp w.dir
      ++ (if w.dir.length ≥ 65535 ∨ (centralDirectory hp w.dir).length ≥ 2 ^ 32 - 1
            ∨ w.cw.out.length ≥ 2 ^ 32 - 1 then
          zip64End w.dir.length (centralDirectory hp w.dir).length w.cw.out.length
            ++ zip64Locator (w.cw.out.length + (centralDirectory hp w.dir).length)
            ++ endRecord 0xFFFF 0xFFFFFFFF 0xFFFFFFFF w.comment.length
        else
          endRecord w.dir.length (centralDirectory hp w.dir).length w.cw.out.length
            w.comment.length)
      ++ w.comment
    ∧ (zip64End w.dir.length (centralDirectory hp w.dir).length w.cw.out.length).length = 56
    ∧ (zip64Locator (w.cw.out.length + (centralDirectory hp w.dir).length)).length = 20
    ∧ (endRecord 0xFFFF 0xFFFFFFFF 0xFFFFFFFF w.comment.length).length = 22
    ∧ (endRecord w.dir.length (centralDirectory hp w.dir).length w.cw.out.length
        w.comment.length).length = 22 := by
  refine ⟨Close_ok hp w hinv hlen hok, ?_, ?_, ?_, ?_⟩ <;>
    simp [zip64End, zip64Locator, endRecord, le16, le32, le64, leBytes]

theorem close_end_of_directory_witness :
    (NewWriter none).cw.count = (NewWriter none).cw.out.length
      ∧ ((NewWriter none).Close sampleHeap).2 = none
      ∧ ((NewWriter none).Close sampleHeap).1.cw.out
          = [80, 75, 5, 6, 0, 0, 0, 0, 0, 0, 0, 0, 0, 0, 0, 0, 0, 0, 0, 0, 0, 0] :=
  ⟨rfl, rfl, (close_end_of_directory sampleHeap (NewWriter none) rfl (by decide) rfl).1.trans
    (by decide)⟩

/-- C3: after any sequence of successful `CreateRaw` calls and payload writes on a new
writer, a successful `Close` emits the central directory, and bytes 42..45 of the record of
each entry hold the stream position at which the local file header of that entry begins
(where the stream holds the local header signature), or 0xFFFFFFFF when that position is at
least 2^32-1; the stream is shorter than 2^64 bytes. -/
theorem directory_offset32 (hp : Heap) (room : Option Nat) (ops : List Op) (s : Session)
    (hrun : (Session.init hp room).run ops = some s)
    (hlen : s.w.cw.out.length + (centralDirectory s.hp s.w.dir).length < 2 ^ 64)
    (hok : (s.w.Close s.hp).2 = none) :
    (∃ tail, (s.w.Close s.hp).1.cw.out
        = s.w.cw.out ++ centralDirectory s.hp s.w.dir ++ tail)
    ∧ (∀ pos ∈ s.starts, signatureAt (s.w.Close s.hp).1.cw.out pos)
    ∧ List.Forall₂ (fun r pos =>
        ((directoryRecord (r.load s.hp)).drop 42).take 4
          = le32 (if pos ≥ 2 ^ 32 - 1 then 0xFFFFFFFF else pos)) s.w.dir s.starts := by
  obtain ⟨hc, hd⟩ := Session.run_inv ops _ s (Session.init_inv hp room) hrun
  have hsig := Session.run_signature ops _ s (by simp [Session.init]) hrun
  have hcount : s.w.cw.count = s.w.cw.out.length := by
    rw [hc]; exact Nat.mod_eq_of_lt (by omega)
  have hout := Close_ok s.hp s.w hcount hlen hok
  refine ⟨⟨_, by rw [hout, List.append_assoc]⟩, ?_, hd.imp ?_⟩
  · intro pos hpos
    rw [hout, List.append_assoc, List.append_assoc]
    exact signatureAt_append _ _ _ (hsig pos hpos)
  · intro r pos h
    have hpos : pos % 2 ^ 64 = pos := Nat.mod_eq_of_lt (by omega)
    rw [directoryRecord_offset32]
    simp only [headerRef.load, h.2.1, h.1, hpos, offset32At]

theorem directory_offset32_witness :
    (Session.init sampleHeap none).run sampleOps = some sampleSession
      ∧ (sampleSession.w.Close sampleSession.hp).2 = none
      ∧ sampleSession.starts = [0, 34]
      ∧ List.Forall₂ (fun r pos =>
          ((directoryRecord (r.load sampleSession.hp)).drop 42).take 4
            = le32 (if pos ≥ 2 ^ 32 - 1 then 0xFFFFFFFF else pos))
          sampleSession.w.dir sampleSession.starts :=
  ⟨(Option.some_get _).symm, by decide, by decide,
    (directory_offset32 sampleHeap none sampleOps sampleSession (Option.some_get _).symm
      (by decide) (by decide)).2.2⟩

/-- C5: after any sequence of successful `CreateRaw` calls on a new writer, the directory
list holds the headers in the order of the calls, and a successful `Close` emits, in that
order, for each header its 46-byte central directory record followed by its name, extra and
comment; the stream is shorter than 2^64 bytes. -/
theorem directory_order (hp : Heap) (room : Option Nat) (ops : List Op) (s : Session)
    (hrun : (Session.init hp room).run ops = some s)
    (hlen : s.w.cw.out.length + (centralDirectory s.hp s.w.dir).length < 2 ^ 64)
    (hok : (s.w.Close s.hp).2 = none) :
    s.w.dir.map (·.ptr) = ops.filterMap Op.created
    ∧ (∃ tail, (s.w.Close s.hp).1.cw.out = s.w.cw.out
        ++ (s.w.dir.map fun r => directoryHeaderBuf (r.load s.hp) ++ (s.hp r.ptr).Name
              ++ (s.hp r.ptr).Extra ++ (s.hp r.ptr).Comment).flatten
        ++ tail)
    ∧ ∀ r ∈ s.w.dir, (directoryHeaderBuf (r.load s.hp)).length = 46 := by
  obtain ⟨hc, _⟩ := Session.run_inv ops _ s (Session.init_inv hp room) hrun
  have hcount : s.w.cw.count = s.w.cw.out.length := by
    rw [hc]; exact Nat.mod_eq_of_lt (by omega)
  have hout := Close_ok s.hp s.w hcount hlen hok
  refine ⟨?_, ?_, fun r _ => directoryHeaderBuf_length _⟩
  · have := Session.run_created ops _ s hrun
    simpa [Session.init, NewWriter] using this
  · rw [hout, List.append_assoc]; exact ⟨_, rfl⟩

theorem directory_order_witness :
    (Session.init sampleHeap none).run sampleOps = some sampleSession
      ∧ (sampleSession.w.Close sampleSession.hp).2 = none
      ∧ sampleSession.w.dir.map (·.ptr) = [0, 1] :=
  ⟨(Option.some_get _).symm, by decide,
    (directory_order sampleHeap none sampleOps sampleSession (Option.some_get _).symm
      (by decide) (by decide)).1.trans (by decide)⟩

/-! ### Object.prepareHeader -/

theorem testBit_bitClear (x m i : Nat) :
    (bitClear x m).testBit i = (x.testBit i && !m.testBit i) := by
  simp only [bitClear, Nat.testBit_xor, Nat.testBit_and]
  cases x.testBit i <;> cases m.testBit i <;> rfl

/-- The flags `prepareHeader` leaves in the header. -/
theorem prepareHeader_flags (host : Host) (o : Object) :
    (o.prepareHeader host).header.Flags
      = bitClear (if o.header.NonUTF8 then bitClear o.header.Flags 0x800
          else if ((detectUTF8 o.header.Name).2 || (detectUTF8 o.header.Comment).2)
              && ((detectUTF8 o.header.Name).1 && (detectUTF8 o.header.Comment).1) then
            o.header.Flags ||| 0x800
          else o.header.Flags) 0x8 := by
  unfold Object.prepareHeader
  simp only []
  split_ifs <;> rfl

/-- The flag bit 0x800 after `prepareHeader`, in terms of the header before it. -/
theorem prepareHeader_flag_bit (host : Host) (o : Object) :
    (o.prepareHeader host).header.Flags.testBit 11 = true
      ↔ (o.header.NonUTF8 = false
        ∧ ((((detectUTF8 o.header.Name).1 = true ∧ (detectUTF8 o.header.Comment).1 = true)
            ∧ ((detectUTF8 o.header.Name).2 = true ∨ (detectUTF8 o.header.Comment).2 = true))
          ∨ o.header.Flags.testBit 11 = true)) := by
  rw [prepareHeader_flags, testBit_bitClear]
  have h8 : Nat.testBit 0x8 11 = false := by decide
  have h800 : Nat.testBit 0x800 11 = true := by decide
  by_cases hn : o.header.NonUTF8 = true
  · simp [hn, testBit_bitClear, h8, h800]
  · have hn1 : o.header.NonUTF8 = false := by simpa using hn
    rw [hn1]
    simp only [Bool.false_eq_true, if_false, h8, Bool.not_false, Bool.and_true, true_and]
    by_cases hc : (((detectUTF8 o.header.Name).2 || (detectUTF8 o.header.Comment).2)
        && ((detectUTF8 o.header.Name).1 && (detectUTF8 o.header.Comment).1)) = true
    · rw [if_pos hc, Nat.testBit_or, h800, Bool.or_true]
      simp only [Bool.and_eq_true, Bool.or_eq_true] at hc
      exact ⟨fun _ => Or.inl ⟨hc.2, hc.1⟩, fun _ => rfl⟩
    · rw [if_neg hc]
      simp only [Bool.and_eq_true, Bool.or_eq_true] at hc
      exact ⟨Or.inr, fun h => h.elim (fun h => absurd ⟨h.2, h.1⟩ hc) id⟩

/-- The header a successful `Reset` makes: the one of `zip.FileInfoHeader`, whose flags are
0, under the name `HeaderName(path)`; the object has an `Info`. -/
theorem Object.Reset_header (host : Host) (o : Object) (addr : Nat) (path : List Nat)
    (info : Option FileInfo) (level : Int) (hok : (o.Reset host addr path info level).2 = none) :
    ∃ fi, info = some fi
      ∧ (o.Reset host addr path info level).1.Info = some fi
      ∧ (o.Reset host addr path info level).1.header
          = { FileInfoHeader host fi with Name := HeaderName host path } := by
  unfold Object.Reset at *
  cases info with
  | none => simp at hok
  | some fi =>
    by_cases hp : path = []
    · simp [hp] at hok
    · cases hv : validLevel level with
      | some e => simp [hp, hv] at hok
      | none =>
        cases hl : (if fi.isSymlink then host.readlink path else .ok []) with
        | error e => simp [hp, hv, hl] at hok
        | ok link =>
          simp only [hp, hv, hl, if_false]
          exact ⟨fi, rfl, rfl, rfl⟩

/-- C6: the header of an object is the one `Reset` makes, whose flags are 0 and which is
not forced non-UTF-8; after `prepareHeader` on it, the flag bit 0x800 is set if and only if
`NonUTF8` is false, name and comment are both valid UTF-8 and one of them requires UTF-8.
More generally, for every object that has an `Info`: when `NonUTF8` is true the bit is
clear after `prepareHeader`, and when the bit is clear before the call the same equivalence
holds, whatever `NonUTF8`, the name and the comment are. -/
theorem prepareHeader_utf8_flag (host : Host) (o : Object) (addr : Nat) (path : List Nat)
    (info : Option FileInfo) (level : Int)
    (hreset : (o.Reset host addr path info level).2 = none) :
    (o.Reset host addr path info level).1.header.Flags = 0
    ∧ (o.Reset host addr path info level).1.header.NonUTF8 = false
    ∧ (((o.Reset host addr path info level).1.prepareHeader host).header.Flags.testBit 11 = true
        ↔ ((o.Reset host addr path info level).1.header.NonUTF8 = false
          ∧ ((detectUTF8 (o.Reset host addr path info level).1.header.Name).1 = true
            ∧ (detectUTF8 (o.Reset host addr path info level).1.header.Comment).1 = true)
          ∧ ((detectUTF8 (o.Reset host addr path info level).1.header.Name).2 = true
            ∨ (detectUTF8 (o.Reset host addr path info level).1.header.Comment).2 = true)))
    ∧ ∀ o2 : Object, o2.Info.isSome = true →
        (o2.header.NonUTF8 = true → (o2.prepareHeader host).header.Flags.testBit 11 = false)
        ∧ (o2.header.Flags.testBit 11 = false →
            ((o2.prepareHeader host).header.Flags.testBit 11 = true
              ↔ (o2.header.NonUTF8 = false
                ∧ ((detectUTF8 o2.header.Name).1 = true
                  ∧ (detectUTF8 o2.header.Comment).1 = true)
                ∧ ((detectUTF8 o2.header.Name).2 = true
                  ∨ (detectUTF8 o2.header.Comment).2 = true)))) := by
  have hgen : ∀ o2 : Object, o2.header.Flags.testBit 11 = false →
      ((o2.prepareHeader host).header.Flags.testBit 11 = true
        ↔ (o2.header.NonUTF8 = false
          ∧ ((detectUTF8 o2.header.Name).1 = true
            ∧ (detectUTF8 o2.header.Comment).1 = true)
          ∧ ((detectUTF8 o2.header.Name).2 = true
            ∨ (detectUTF8 o2.header.Comment).2 = true))) := by
    intro o2 hbit
    rw [prepareHeader_flag_bit, hbit]
    simp only [Bool.false_eq_true, or_false]
  obtain ⟨fi, _, _, hh⟩ := Object.Reset_header host o addr path info level hreset
  have hflags : (o.Reset host addr path info level).1.header.Flags = 0 := by rw [hh]; rfl
  refine ⟨hflags, by rw [hh]; rfl, hgen _ (by rw [hflags]; rfl), ?_⟩
  intro o2 _
  refine ⟨fun hn => ?_, hgen o2⟩
  cases hb : (o2.prepareHeader host).header.Flags.testBit 11 with
  | false => rfl
  | true =>
    have := ((prepareHeader_flag_bit host o2).mp hb).1
    rw [hn] at this
    exact absurd this (by decide)

theorem prepareHeader_utf8_flag_witness :
    ((Object.new 16).Reset sampleHost 0 [0xC3, 0xA9] (some sampleInfo) 6).2 = none
      ∧ (((Object.new 16).Reset sampleHost 0 [0xC3, 0xA9] (some sampleInfo) 6).1.prepareHeader
          sampleHost).header.Flags.testBit 11 = true
      ∧ (((Object.new 16).Reset sampleHost 0 [97] (some sampleInfo) 6).1.prepareHeader
          sampleHost).header.Flags.testBit 11 = false :=
  ⟨by decide,
    (prepareHeader_utf8_flag sampleHost (Object.new 16) 0 [0xC3, 0xA9] (some sampleInfo) 6
      (by decide)).2.2.1.mpr (by decide),
    by decide⟩

/-! ### Object.Write -/

theorem File.Write_stored (f : File) (p : List Nat) (h : (f.Write p).2.2 = none) :
    (f.Write p).1.content = f.content ++ p ∧ (f.Write p).2.1 = p.length := by
  unfold File.Write at *
  cases hr : f.room with
  | none => simp
  | some r =>
    simp only [hr] at h ⊢
    by_cases hlt : min r p.length < p.length
    · simp [hlt] at h
    · have hmin : min r p.length = p.length := by omega
      simp [hmin]

/-- Filling the buffer: the object holds `acc ++ taken` with nothing spilled by it, and what
is left is empty unless the buffer is full. -/
theorem Object.fill_holds (C : Nat) (o : Object) (acc p : List Nat) (hh : o.Holds C acc) :
    ∃ m, m ≤ p.length ∧ (o.fill p).2 = p.drop m
      ∧ (o.fill p).1.Holds C (acc ++ p.take m)
      ∧ (0 < (p.drop m).length → C ≤ (acc ++ p.take m).length)
      ∧ (o.fill p).1.overflow = o.overflow := by
  obtain ⟨hcap, hdata, hovf, hsp, hwr⟩ := hh
  have hav : o.compressedData.Available = C - min C acc.length := by
    simp [Buffer.Available, hcap, hdata]
  unfold Object.fill
  by_cases hlt : acc.length < C
  · have hav1 : o.compressedData.Available = C - acc.length := by rw [hav]; omega
    have hne : o.compressedData.Available ≠ 0 := by omega
    have hnone : o.overflow = none := by
      cases ho : o.overflow with
      | none => rfl
      | some f => exact absurd (hsp.1 (by simp [ho])) (by omega)
    rw [if_pos hne]
    simp only [hav1]
    have htk : acc.take C = acc := List.take_of_length_le (by omega)
    have hm : (p.take (min (C - acc.length) p.length)).length = min (C - acc.length) p.length := by
      simp
    have hle : (acc ++ p.take (min (C - acc.length) p.length)).length ≤ C := by
      simp only [List.length_append, hm]; omega
    refine ⟨min (C - acc.length) p.length, by omega, rfl, ⟨?_, ?_, ?_, ?_, ?_⟩, ?_, trivial⟩
    · simp only [Buffer.Write, hcap, hdata, htk, hm]; omega
    · simp only [Buffer.Write, hdata, htk]
      exact (List.take_of_length_le hle).symm
    · rw [List.drop_of_length_le hle]
      simp [Object.overflowContent, hnone]
    · simp only [hnone, Option.isSome_none, Bool.false_eq_true, false_iff]; omega
    · simp only [hwr, List.length_append, hm]; omega
    · simp only [List.length_drop, List.length_append, hm]; omega
  · have hav0 : o.compressedData.Available = 0 := by rw [hav]; omega
    simp only [hav0, ne_eq, not_true_eq_false, if_false]
    exact ⟨0, by omega, rfl, by simpa using ⟨hcap, hdata, hovf, hsp, hwr⟩,
      fun _ => by simp only [List.take_zero, List.append_nil]; omega, trivial⟩

/-- Spilling what is left after the buffer is full. -/
theorem Object.spill_holds (host : Host) (C : Nat) (o : Object) (acc p : List Nat) (n : Nat)
    (hh : o.Holds C acc) (hfull : 0 < p.length → C ≤ acc.length)
    (hok : (o.spill host p n).2.2 = none) :
    (o.spill host p n).1.Holds C (acc ++ p) ∧ (o.spill host p n).2.1 = n := by
  obtain ⟨hcap, hdata, hovf, hsp, hwr⟩ := hh
  unfold Object.spill at *
  by_cases hp : p.length > 0
  · have hC := hfull hp
    simp only [hp, if_true] at hok ⊢
    cases hf : o.openOverflow host with
    | none => simp [hf] at hok
    | some f =>
      simp only [hf] at hok ⊢
      by_cases he : (f.Write p).2.2.isSome = true
      · simp [he] at hok
      · simp only [he, Bool.false_eq_true, if_false] at hok ⊢
        have he1 : (f.Write p).2.2 = none := by simpa using he
        obtain ⟨hc1, hn1⟩ := File.Write_stored f p he1
        have hfc : f.content = o.overflowContent := by
          unfold Object.openOverflow at hf
          unfold Object.overflowContent
          cases ho : o.overflow with
          | some g => simp only [ho, Option.some.injEq] at hf; rw [hf]
          | none =>
            simp only [ho] at hf
            split_ifs at hf
            simp only [Option.some.injEq] at hf
            rw [← hf]
        refine ⟨⟨hcap, ?_, ?_, ?_, ?_⟩, trivial⟩
        · simp only [hdata]
          exact (List.take_append_of_le_length hC).symm
        · show (f.Write p).1.content = _
          rw [hc1, hfc, hovf]
          exact (List.drop_append_of_le_length hC).symm
        · simp only [Option.isSome_some, List.length_append, true_iff]; omega
        · simp only [hwr, hn1, List.length_append]; omega
  · have hnil : p = [] := List.length_eq_zero.mp (by omega)
    subst hnil
    simp only [List.length_nil, gt_iff_lt, Nat.lt_irrefl, if_false, List.append_nil]
    exact ⟨⟨hcap, hdata, hovf, hsp, hwr⟩, trivial⟩

theorem Object.Write_holds (host : Host) (C : Nat) (o : Object) (acc p : List Nat)
    (hh : o.Holds C acc) (hok : (o.Write host p).2.2 = none) :
    (o.Write host p).1.Holds C (acc ++ p) ∧ (o.Write host p).2.1 = p.length := by
  obtain ⟨m, hm, hrest, hholds, hfull, _⟩ := Object.fill_holds C o acc p hh
  unfold Object.Write at *
  rw [hrest] at hok ⊢
  have := Object.spill_holds host C _ _ _ p.length hholds hfull hok
  rwa [List.append_assoc, List.take_append_drop] at this

theorem Object.Reset_holds (host : Host) (o : Object) (addr : Nat) (path : List Nat)
    (info : Option FileInfo) (level : Int) (hok : (o.Reset host addr path info level).2 = none) :
    (o.Reset host addr path info level).1.Holds o.compressedData.cap [] := by
  unfold Object.Reset at *
  cases info with
  | none => simp at hok
  | some fi =>
    by_cases hp : path = []
    · simp [hp] at hok
    · cases hv : validLevel level with
      | some e => simp [hp, hv] at hok
      | none =>
        cases hl : (if fi.isSymlink then host.readlink path else .ok []) with
        | error e => simp [hp, hv, hl] at hok
        | ok link =>
          simp only [hp, hv, hl, if_false]
          exact ⟨rfl, by simp [Buffer.Reset], by simp [Object.overflowContent], by simp, rfl⟩

theorem Object.writeAll_holds (host : Host) (C : Nat) (ps : List (List Nat)) (o : Object)
    (acc : List Nat) (hh : o.Holds C acc)
    (hok : ∀ res ∈ (o.writeAll host ps).2, res.2 = none) :
    (o.writeAll host ps).1.Holds C (acc ++ ps.flatten)
      ∧ (o.writeAll host ps).2 = ps.map fun p => (p.length, none) := by
  induction ps generalizing o acc with
  | nil => simpa [Object.writeAll] using hh
  | cons p ps ih =>
    simp only [Object.writeAll, List.mem_cons, forall_eq_or_imp] at hok ⊢
    obtain ⟨h1, h2⟩ := Object.Write_holds host C o acc p hh hok.1
    obtain ⟨h3, h4⟩ := ih _ _ h1 hok.2
    refine ⟨by simpa using h3, ?_⟩
    rw [h4]
    simp only [List.map_cons, List.cons.injEq, and_true]
    exact Prod.ext h2 hok.1

/-- C7, the claim as stated fails: a `Write` of five bytes into a buffer of capacity two,
over a disk that takes one byte, stores two bytes in the buffer and one in the overflow file
and returns an error with `written = 2`. -/
theorem written_invariant_counterexample :
    ((Object.new 2).Reset tightHost 0 [97] (some sampleInfo) 6).2 = none
      ∧ ¬ ((((Object.new 2).Reset tightHost 0 [97] (some sampleInfo) 6).1.Write tightHost
            [1, 2, 3, 4, 5]).1.written
          = (((Object.new 2).Reset tightHost 0 [97] (some sampleInfo) 6).1.Write tightHost
              [1, 2, 3, 4, 5]).1.compressedData.data.length
            + (((Object.new 2).Reset tightHost 0 [97] (some sampleInfo) 6).1.Write tightHost
              [1, 2, 3, 4, 5]).1.overflowContent.length) := by
  decide

/-- C7, amended: after a successful `Reset` and any sequence of `Write` calls that all
return without error, `written` equals the length of `compressedData` plus the size of the
overflow file (0 when there is none); fewer than 2^64 bytes are written. -/
theorem written_invariant (host : Host) (o : Object) (addr : Nat) (path : List Nat)
    (info : Option FileInfo) (level : Int) (ps : List (List Nat))
    (hreset : (o.Reset host addr path info level).2 = none)
    (hok : ∀ res ∈ ((o.Reset host addr path info level).1.writeAll host ps).2, res.2 = none)
    (hlen : ps.flatten.length < 2 ^ 64) :
    ((o.Reset host addr path info level).1.writeAll host ps).1.written
      = ((o.Reset host addr path info level).1.writeAll host ps).1.compressedData.data.length
        + ((o.Reset host addr path info level).1.writeAll host ps).1.overflowContent.length := by
  obtain ⟨⟨_, hdata, hovf, _, hwr⟩, _⟩ := Object.writeAll_holds host _ ps _ []
    (Object.Reset_holds host o addr path info level hreset) hok
  rw [hwr, hdata, hovf, List.nil_append, Nat.mod_eq_of_lt hlen, ← List.length_append,
    List.take_append_drop]

theorem written_invariant_witness :
    ((Object.new 4).Reset sampleHost 0 [97] (some sampleInfo) 6).2 = none
      ∧ (((Object.new 4).Reset sampleHost 0 [97] (some sampleInfo) 6).1.writeAll sampleHost
          [[1, 2, 3], [4, 5, 6]]).1.written = 4 + 2 :=
  ⟨by decide, (written_invariant sampleHost (Object.new 4) 0 [97] (some sampleInfo) 6
    [[1, 2, 3], [4, 5, 6]] (by decide) (by decide) (by decide)).trans (by decide)⟩

/-- C8: after a successful `Reset` of an object whose buffer has capacity `C`, every
sequence of `Write` calls that all return without error returns `(len(p), nil)` for each
input `p`; the content of `compressedData` followed by the content of the overflow file is
the concatenation of the inputs, `compressedData` holds its first `min(C, total)` bytes, and
there is an overflow file if and only if the total exceeds `C`. -/
theorem write_fill_first (host : Host) (o : Object) (addr : Nat) (path : List Nat)
    (info : Option FileInfo) (level : Int) (ps : List (List Nat))
    (hreset : (o.Reset host addr path info level).2 = none)
    (hok : ∀ res ∈ ((o.Reset host addr path info level).1.writeAll host ps).2, res.2 = none) :
    ((o.Reset host addr path info level).1.writeAll host ps).2
        = ps.map (fun p => (p.length, none))
    ∧ ((o.Reset host addr path info level).1.writeAll host ps).1.compressedData.data
        ++ ((o.Reset host addr path info level).1.writeAll host ps).1.overflowContent
        = ps.flatten
    ∧ ((o.Reset host addr path info level).1.writeAll host ps).1.compressedData.data
        = ps.flatten.take (min o.compressedData.cap ps.flatten.length)
    ∧ (((o.Reset host addr path info level).1.writeAll host ps).1.overflow.isSome = true
        ↔ ps.flatten.length > o.compressedData.cap) := by
  obtain ⟨⟨_, hdata, hovf, hsp, _⟩, hres⟩ := Object.writeAll_holds host _ ps _ []
    (Object.Reset_holds host o addr path info level hreset) hok
  rw [List.nil_append] at hdata hovf hsp
  refine ⟨hres, ?_, ?_, hsp⟩
  · rw [hdata, hovf, List.take_append_drop]
  · rw [hdata]
    rcases Nat.le_total o.compressedData.cap ps.flatten.length with h | h
    · rw [Nat.min_eq_left h]
    · rw [Nat.min_eq_right h, List.take_of_length_le h, List.take_length]

theorem write_fill_first_witness :
    ((Object.new 4).Reset sampleHost 0 [97] (some sampleInfo) 6).2 = none
      ∧ (((Object.new 4).Reset sampleHost 0 [97] (some sampleInfo) 6).1.writeAll sampleHost
          [[1, 2, 3], [4, 5, 6]]).1.compressedData.data = [1, 2, 3, 4] :=
  ⟨by decide, (write_fill_first sampleHost (Object.new 4) 0 [97] (some sampleInfo) 6
    [[1, 2, 3], [4, 5, 6]] (by decide) (by decide)).2.2.1.trans (by decide)⟩

/-! ### Store or Deflate -/

/-- What `prepareHeader` does for an entry that is not a directory: the size it looks at
is stored in the header, the method follows from it, and the rest of the object stays. -/
theorem prepareHeader_file (host : Host) (o : Object) (hdir : o.isDir = false) :
    (o.prepareHeader host).header.UncompressedSize64
        = (if o.link ≠ [] then o.link.length % 2 ^ 64 else o.header.UncompressedSize64)
    ∧ (o.prepareHeader host).header.Method
        = (if (if o.link ≠ [] then o.link.length % 2 ^ 64 else o.header.UncompressedSize64)
              ≤ o.compressMinSize ∨ IsCompressedFile host o.Path = true then 0 else 8)
    ∧ (o.prepareHeader host).link = o.link
    ∧ (o.prepareHeader host).isDir = false
    ∧ (o.prepareHeader host).compressMinSize = o.compressMinSize
    ∧ (o.prepareHeader host).Path = o.Path := by
  unfold Object.prepareHeader
  simp only [hdir, Bool.false_eq_true, if_false]
  by_cases hl : o.link = []
  · simp only [hl, ne_eq, not_true_eq_false, if_false]
    split_ifs <;> simp [Object.isDir] at hdir ⊢ <;> exact hdir
  · simp only [hl, ne_eq, not_false_eq_true, if_true]
    split_ifs <;> simp [Object.isDir] at hdir ⊢ <;> exact hdir

theorem Object.Reset_minSize (host : Host) (o : Object) (addr : Nat) (path : List Nat)
    (info : Option FileInfo) (level : Int) (hok : (o.Reset host addr path info level).2 = none) :
    (o.Reset host addr path info level).1.compressMinSize = (if level ≤ 6 then 128 else 44)
      ∧ -2 ≤ level ∧ level ≤ 9 := by
  unfold Object.Reset at *
  cases info with
  | none => simp at hok
  | some fi =>
    by_cases hp : path = []
    · simp [hp] at hok
    · cases hv : validLevel level with
      | some e => simp [hp, hv] at hok
      | none =>
        cases hl : (if fi.isSymlink then host.readlink path else .ok []) with
        | error e => simp [hp, hv, hl] at hok
        | ok link =>
          simp only [hp, hv, hl, if_false]
          unfold validLevel at hv
          split_ifs at hv with h1
          refine ⟨?_, by omega, by omega⟩
          by_cases h6 : level ≤ 6
          · have : ¬ level > 6 := by omega
            simp [h6, this]
          · have : level > 6 := by omega
            simp [h6, this]

/-- C9: for an entry that is not a directory, reset at `level`: `Reset` sets
`compressMinSize` to 128 for a level up to 6 and to 44 for the levels 7 to 9, and after
`prepareHeader` the method is Store (0) if and only if the uncompressed size of the entry is
at most `compressMinSize` or the lower-cased extension of its path is one of
`compressedFormats`, and Deflate (8) otherwise. -/
theorem store_or_deflate (host : Host) (o : Object) (addr : Nat) (path : List Nat)
    (info : Option FileInfo) (level : Int)
    (hreset : (o.Reset host addr path info level).2 = none)
    (hdir : (o.Reset host addr path info level).1.isDir = false) :
    (o.Reset host addr path info level).1.compressMinSize = (if level ≤ 6 then 128 else 44)
    ∧ (-2 ≤ level ∧ level ≤ 9)
    ∧ (((o.Reset host addr path info level).1.prepareHeader host).header.Method = 0
        ↔ (((o.Reset host addr path info level).1.prepareHeader host).header.UncompressedSize64
            ≤ (o.Reset host addr path info level).1.compressMinSize
          ∨ host.toLower (Ext path) ∈ compressedFormats))
    ∧ (((o.Reset host addr path info level).1.prepareHeader host).header.Method ≠ 0
        → ((o.Reset host addr path info level).1.prepareHeader host).header.Method = 8) := by
  obtain ⟨hmin, hlev⟩ := Object.Reset_minSize host o addr path info level hreset
  obtain ⟨hsize, hmeth, _⟩ := prepareHeader_file host _ hdir
  have hpath : (o.Reset host addr path info level).1.Path = path := by
    unfold Object.Reset at hreset ⊢
    cases info with
    | none => simp at hreset
    | some fi =>
      by_cases hp : path = []
      · simp [hp] at hreset
      · cases hv : validLevel level with
        | some e => simp [hp, hv] at hreset
        | none =>
          cases hl : (if fi.isSymlink then host.readlink path else .ok []) with
          | error e => simp [hp, hv, hl] at hreset
          | ok link => simp only [hp, hv, hl, if_false]
  have hmem : IsCompressedFile host path = true
      ↔ host.toLower (Ext path) ∈ compressedFormats := by
    simp only [IsCompressedFile, List.contains, List.elem_eq_mem, decide_eq_true_eq]
  have key : ∀ (P : Prop) [Decidable P], ((if P then 0 else 8 : Nat) = 0 ↔ P) := by
    intro P _; by_cases h : P <;> simp [h]
  have key2 : ∀ (P : Prop) [Decidable P],
      (if P then 0 else 8 : Nat) ≠ 0 → (if P then 0 else 8 : Nat) = 8 := by
    intro P _; by_cases h : P <;> simp [h]
  refine ⟨hmin, hlev, ?_, ?_⟩
  · rw [hmeth, hsize, hpath, key]
    exact or_congr Iff.rfl hmem
  · rw [hmeth]
    exact key2 _

theorem store_or_deflate_witness :
    ((Object.new 16).Reset sampleHost 0 [97] (some sampleInfo) 6).2 = none
      ∧ (((Object.new 16).Reset sampleHost 0 [97] (some sampleInfo) 6).1.prepareHeader
          sampleHost).header.UncompressedSize64 = 10
      ∧ (((Object.new 16).Reset sampleHost 0 [97] (some sampleInfo) 6).1.prepareHeader
          sampleHost).header.Method = 0 :=
  ⟨by decide, by decide,
    (store_or_deflate sampleHost (Object.new 16) 0 [97] (some sampleInfo) 6 (by decide)
      (by decide)).2.2.1.mpr (Or.inl (by decide))⟩

/-! ### Links -/

/-- The object `Compress` gives for a link whose target is short or whose path has a
compressed extension. -/
theorem Compress_link (host : Host) (o : Object) (hlink : o.link ≠ []) (hdir : o.isDir = false)
    (hsmall : o.link.length ≤ o.compressMinSize ∨ IsCompressedFile host o.Path = true)
    (hlen : o.link.length < 2 ^ 64) :
    o.Compress host
      = ({ o.prepareHeader host with
            header := { (o.prepareHeader host).header with
              CompressedSize64 := o.link.length, CRC32 := crc32IEEE o.link } }, none)
    ∧ (o.prepareHeader host).header.Method = 0
    ∧ (o.prepareHeader host).header.UncompressedSize64 = o.link.length := by
  obtain ⟨hsize, hmeth, hl, hd, _, _⟩ := prepareHeader_file host o hdir
  have hmod : o.link.length % 2 ^ 64 = o.link.length := Nat.mod_eq_of_lt hlen
  simp only [hlink, ne_eq, not_false_eq_true, if_true, hmod] at hsize hmeth
  rw [if_pos hsmall] at hmeth
  refine ⟨?_, hmeth, hsize⟩
  unfold Object.Compress Object.store
  simp only [hd, Bool.false_eq_true, if_false, hmeth, if_true, hl, hlink, ne_eq,
    not_false_eq_true, hsize]

/-- The branch of `deflate` for a link: the target is handed to the compressor, which is
left open, and the count of the sink is recorded as it was. -/
theorem deflate_link (host : Host) (o : Object) (hl : o.link ≠ []) :
    o.deflate host
      = ({ o with
            compressor := o.compressor.map fun c => { c with pending := c.pending ++ o.link }
            header := { o.header with CompressedSize64 := o.written,
                                      CRC32 := crc32IEEE o.link } }, none) := by
  unfold Object.deflate
  rw [if_pos hl]
  rfl

/-- What `Compress` records for every link, whatever the length of its target: no error,
the length of the target as uncompressed size, the checksum of the target, and the method
that the length and the extension decide. -/
theorem Compress_link_any (host : Host) (o : Object) (hlink : o.link ≠ [])
    (hdir : o.isDir = false) (hlen : o.link.length < 2 ^ 64) :
    (o.Compress host).2 = none
    ∧ (o.Compress host).1.header.UncompressedSize64 = o.link.length
    ∧ (o.Compress host).1.header.CRC32 = crc32IEEE o.link
    ∧ (o.Compress host).1.header.Method
        = (if o.link.length ≤ o.compressMinSize ∨ IsCompressedFile host o.Path = true
            then 0 else 8) := by
  by_cases hsmall : o.link.length ≤ o.compressMinSize ∨ IsCompressedFile host o.Path = true
  · obtain ⟨hc, hmeth, hsize⟩ := Compress_link host o hlink hdir hsmall hlen
    rw [if_pos hsmall, hc]
    exact ⟨rfl, hsize, rfl, hmeth⟩
  · obtain ⟨hsize, hmeth, hl, hd, _, _⟩ := prepareHeader_file host o hdir
    have hmod : o.link.length % 2 ^ 64 = o.link.length := Nat.mod_eq_of_lt hlen
    simp only [hlink, ne_eq, not_false_eq_true, if_true, hmod] at hsize hmeth
    rw [if_neg hsmall] at hmeth
    have hl1 : (o.prepareHeader host).link ≠ [] := by rw [hl]; exact hlink
    have hc : o.Compress host = (o.prepareHeader host).deflate host := by
      unfold Object.Compress
      simp only [hd, Bool.false_eq_true, if_false, hmeth]
      rfl
    rw [if_neg hsmall, hc, deflate_link host _ hl1]
    exact ⟨rfl, hsize, by rw [hl], hmeth⟩

set_option maxRecDepth 100000 in
/-- C10, the claim as stated fails: a link whose target has 200 bytes, on a path without a
compressed extension, reset at level 6, gets the method Deflate from `Compress`, with a
`CompressedSize64` that is not the length of the target; `Archive` on a new writer then
returns no error and writes the 31 bytes of the local file header and no payload. -/
theorem link_stored_counterexample :
    ((Object.new 16).Reset sampleHost 0 [97] (some linkInfo) 6).2 = none
      ∧ ((Object.new 16).Reset sampleHost 0 [97] (some linkInfo) 6).1.link.length = 200
      ∧ ¬ ((((Object.new 16).Reset sampleHost 0 [97] (some linkInfo) 6).1.Compress
            sampleHost).1.header.Method = 0)
      ∧ ¬ ((((Object.new 16).Reset sampleHost 0 [97] (some linkInfo) 6).1.Compress
            sampleHost).1.header.CompressedSize64 = 200)
      ∧ ((((Object.new 16).Reset sampleHost 0 [97] (some linkInfo) 6).1.Compress
            sampleHost).1.Archive sampleHost sampleHeap (NewWriter none)).2.2.2 = none
      ∧ ((((Object.new 16).Reset sampleHost 0 [97] (some linkInfo) 6).1.Compress
            sampleHost).1.Archive sampleHost sampleHeap (NewWriter none)).2.1.cw.out.length
          = 31 := by
  decide

/-- `CreateRaw` leaves the method of the header it is given. -/
theorem CreateRaw_method (hp : Heap) (w : Writer) (fh : Nat) (r : RawWriter)
    (hok : (w.CreateRaw hp fh).2.2 = .ok r) :
    ((w.CreateRaw hp fh).1 fh).Method = (hp fh).Method := by
  obtain ⟨e1, _⟩ := CreateRaw_ok hp w fh r hok
  rw [e1, Function.update_same, (prepare_frame _).1]
  rfl

/-- The stream after `Archive` of a link whose method is Store. -/
theorem Archive_link (host : Host) (hp : Heap) (w : Writer) (o : Object) (hlink : o.link ≠ [])
    (hdir : o.isDir = false) (hm : o.header.Method = 0)
    (hok : (o.Archive host hp w).2.2.2 = none) :
    (o.Archive host hp w).2.1.cw.out
      = (w.CreateRaw (Function.update hp o.headerAddr o.header) o.headerAddr).2.1.cw.out
        ++ o.link := by
  unfold Object.Archive at hok ⊢
  simp only at hok ⊢
  cases hr : (w.CreateRaw (Function.update hp o.headerAddr o.header) o.headerAddr).2.2 with
  | error e => simp [hr] at hok
  | ok cw =>
    have hmeth := CreateRaw_method _ w o.headerAddr cw hr
    rw [Function.update_same, hm] at hmeth
    simp only [hr, Object.isDir] at hok ⊢
    simp only [Object.isDir] at hdir
    simp only [hdir, Bool.false_eq_true, if_false, hmeth, if_true, hlink, ne_eq,
      not_false_eq_true] at hok ⊢
    unfold Writer.copy at hok ⊢
    simp only [hlink, if_false] at hok ⊢
    cases cw with
    | dirWriter =>
      have : o.link.length ≠ 0 := fun h => hlink (List.length_eq_zero.mp h)
      simp [Writer.payloadWrite, dirWriterWrite, this] at hok
    | countWriter =>
      simp only [Writer.payloadWrite] at hok ⊢
      exact (countWriter.Write_ok _ _ hok).1

/-- C10, amended: for every link (an object with an `Info` that is not a directory and a
target that is not empty), `Compress` returns no error with the length of the target as
`UncompressedSize64` and the IEEE CRC-32 of the target as `CRC32`. The method is Store if
and only if the target is at most `compressMinSize` bytes long or the path has a compressed
extension, and Deflate otherwise. When the method is Store, `CompressedSize64` is the length
of the target too, and a successful `Archive` appends, after what `CreateRaw` writes for
the header, exactly the bytes of the target. -/
theorem link_stored (host : Host) (o : Object) (fi : FileInfo) (hinfo : o.Info = some fi)
    (hdir : fi.isDir = false) (hlink : o.link ≠ []) (hlen : o.link.length < 2 ^ 64) :
    (o.Compress host).2 = none
    ∧ (o.Compress host).1.header.UncompressedSize64 = o.link.length
    ∧ (o.Compress host).1.header.CRC32 = crc32IEEE o.link
    ∧ ((o.Compress host).1.header.Method = 0
        ↔ (o.link.length ≤ o.compressMinSize ∨ IsCompressedFile host o.Path = true))
    ∧ ((o.Compress host).1.header.Method ≠ 0 → (o.Compress host).1.header.Method = 8)
    ∧ ((o.Compress host).1.header.Method = 0 →
        (o.Compress host).1.header.CompressedSize64 = o.link.length
        ∧ ∀ (hp : Heap) (w : Writer),
            ((o.Compress host).1.Archive host hp w).2.2.2 = none →
            ((o.Compress host).1.Archive host hp w).2.1.cw.out
              = (w.CreateRaw (Function.update hp (o.Compress host).1.headerAddr
                    (o.Compress host).1.header) (o.Compress host).1.headerAddr).2.1.cw.out
                ++ o.link) := by
  have hd0 : o.isDir = false := by simp only [Object.isDir, hinfo, hdir]
  obtain ⟨a1, a2, a3, a4⟩ := Compress_link_any host o hlink hd0 hlen
  have hiff : (o.Compress host).1.header.Method = 0
      ↔ (o.link.length ≤ o.compressMinSize ∨ IsCompressedFile host o.Path = true) := by
    rw [a4]
    by_cases h : o.link.length ≤ o.compressMinSize ∨ IsCompressedFile host o.Path = true
    · simp only [h, if_true]
    · simp only [h, if_false]
      exact ⟨fun h8 => absurd h8 (by decide), False.elim⟩
  refine ⟨a1, a2, a3, hiff, ?_, ?_⟩
  · rw [a4]
    split_ifs
    · exact fun h => absurd rfl h
    · exact fun _ => rfl
  · intro hm
    have hsmall := hiff.mp hm
    obtain ⟨hc, hmeth, hsize⟩ := Compress_link host o hlink hd0 hsmall hlen
    obtain ⟨_, _, hl, hd, _, _⟩ := prepareHeader_file host o hd0
    have h1 : (o.Compress host).1.link = o.link := by rw [hc]; exact hl
    have h2 : (o.Compress host).1.isDir = false := by rw [hc]; exact hd
    refine ⟨by rw [hc], ?_⟩
    intro hp w hok
    rw [Archive_link host hp w _ (by rw [h1]; exact hlink) h2 hm hok, h1]

set_option maxRecDepth 100000 in
theorem link_stored_witness :
    linkObject.Info = some linkInfo ∧ linkObject.link.length = 200
      ∧ (linkObject.Compress sampleHost).1.header.UncompressedSize64 = 200
      ∧ ((Object.new 16).Reset sampleHost 0 [97, 46, 122, 105, 112] (some linkInfo) 6).1.link
          ≠ []
      ∧ IsCompressedFile sampleHost [97, 46, 122, 105, 112] = true
      ∧ (((Object.new 16).Reset sampleHost 0 [97, 46, 122, 105, 112] (some linkInfo)
          6).1.Compress sampleHost).1.header.Method = 0 :=
  ⟨by decide, by decide,
    (link_stored sampleHost linkObject linkInfo (by decide) (by decide) (by decide)
      (by decide)).2.1.trans (by decide),
    by decide, by decide,
    (link_stored sampleHost ((Object.new 16).Reset sampleHost 0 [97, 46, 122, 105, 112]
      (some linkInfo) 6).1 linkInfo (by decide) (by decide) (by decide)
      (by decide)).2.2.2.1.mpr (Or.inr (by decide))⟩

/-! ### Extended timestamp -/

theorem extTimeBuf_eq (v : Nat) :
    (((((writeBuf.make 9).uint16 extTimeExtraID).uint16 5).uint8 1).uint32 v).buf
      = [0x55, 0x54, 0x05, 0x00, 0x01] ++ le32 v := by
  simp [writeBuf.make, writeBuf.uint16, writeBuf.uint8, writeBuf.uint32, putAt, le16, le32,
    leBytes, List.replicate, extTimeExtraID]

/-- The extra bytes `prepareHeader` leaves in the header. -/
theorem prepareHeader_extra (host : Host) (o : Object) :
    (o.prepareHeader host).header.Extra
      = (if (!o.header.Modified.IsZero) = true then
          o.header.Extra ++ (((((writeBuf.make 9).uint16 extTimeExtraID).uint16 5).uint8
            1).uint32 (toUint32 o.header.Modified.unix)).buf
         else o.header.Extra) := by
  unfold Object.prepareHeader
  simp only []
  split_ifs <;> rfl

/-- C11: for a header whose `Modified` is not the zero time, `prepareHeader` appends to
`Extra` the nine bytes 0x55 0x54, 0x05 0x00, 0x01 and the Unix seconds of `Modified`
converted to `uint32`, little-endian; for the zero time `Extra` is unchanged. -/
theorem prepareHeader_extended_timestamp (host : Host) (o : Object) :
    (o.prepareHeader host).header.Extra
      = (if o.header.Modified.IsZero then o.header.Extra
         else o.header.Extra ++ [0x55, 0x54, 0x05, 0x00, 0x01]
           ++ le32 (o.header.Modified.unix % 2 ^ 32).toNat)
    ∧ ([0x55, 0x54, 0x05, 0x00, 0x01] ++ le32 (o.header.Modified.unix % 2 ^ 32).toNat).length
        = 9 := by
  refine ⟨?_, by simp [le32, leBytes]⟩
  rw [prepareHeader_extra, extTimeBuf_eq]
  by_cases hz : o.header.Modified.IsZero = true
  · simp [hz]
  · simp [hz, toUint32]

/-! ### The two ways to prepare a header -/

/-- C20: `headerPrepareByAppend` and `headerPrepareByWriteBuf` give the same header, in
every field, for every header. -/
theorem headerPrepare_equivalent (h : header) :
    headerPrepareByAppend h = headerPrepareByWriteBuf h := by
  by_cases hu : h.fh.UncompressedSize64 ≥ 4294967295 <;>
  by_cases hc : h.fh.CompressedSize64 ≥ 4294967295 <;>
  by_cases ho : h.offset ≥ 4294967295 <;>
  simp [headerPrepareByAppend, headerPrepareByWriteBuf, header.isZip64, uint32max,
    zipVersion45, hu, hc, ho, writeBuf.make, writeBuf.uint16, writeBuf.uint64,
    writeBuf.filled, putAt, le16, le64, leBytes, List.replicate, zip64ExtraID]

/-! ### Options -/

theorem filterDot_eq (files : List (List Nat)) :
    filterDot files = files.filter (fun file => file ≠ [46]) := by
  induction files with
  | nil => rfl
  | cons file rest ih =>
    by_cases h : file = [46] <;> simp [filterDot, List.filter_cons, h, ih]

theorem filterFile_files (o : ArchiveOptions) : o.filterFile.Files = filteredFiles o := by
  unfold ArchiveOptions.filterFile filteredFiles
  cases hr : o.Recurse with
  | true => simp
  | false =>
    by_cases hl : o.Files.length > 0
    · simp [hl, filterDot_eq]
    · have : o.Files = [] := List.length_eq_zero.mp (by omega)
      simp [this]

/-- C12: `Validate` filters the file list (without recursion every `.` is removed, the
order of the others kept) and returns an error if and only if the filtered list is empty,
or `Concurrency < 1`, or `Level` is outside [-2, 9]. -/
theorem validate_error_iff (o : ArchiveOptions) :
    o.Validate.1.Files = filteredFiles o
    ∧ (o.Validate.2.isSome = true
        ↔ (filteredFiles o = [] ∨ o.Concurrency < 1 ∨ o.Level < -2 ∨ o.Level > 9))
    ∧ (¬ (filteredFiles o = [] ∨ o.Concurrency < 1 ∨ o.Level < -2 ∨ o.Level > 9)
        → o.Validate.2 = none) := by
  have hf := filterFile_files o
  have hc : o.filterFile.Concurrency = o.Concurrency := by
    unfold ArchiveOptions.filterFile; split_ifs <;> rfl
  have hl : o.filterFile.Level = o.Level := by
    unfold ArchiveOptions.filterFile; split_ifs <;> rfl
  have key : o.Validate.2.isSome = true
      ↔ (filteredFiles o = [] ∨ o.Concurrency < 1 ∨ o.Level < -2 ∨ o.Level > 9) := by
    unfold ArchiveOptions.Validate
    simp only [hf, hc, hl, List.length_eq_zero]
    by_cases h1 : filteredFiles o = []
    · simp [h1]
    · by_cases h2 : o.Concurrency < 1
      · simp [h1, h2]
      · simp only [h1, h2, if_false, false_or]
        unfold validLevel
        split_ifs with h3
        · simp [h3]
        · simp only [Option.isSome_none, Bool.false_eq_true, false_iff]
          exact h3
  refine ⟨?_, key, ?_⟩
  · unfold ArchiveOptions.Validate
    simp only []
    split_ifs <;> exact hf
  · intro h
    cases hv : o.Validate.2 with
    | none => rfl
    | some e => exact absurd (key.mp (by simp [hv])) h

/-! ### Skip -/

theorem matchAny_iff (pathMatch : List Nat → List Nat → Bool) (path : List Nat)
    (patterns : List (List Nat)) :
    matchAny pathMatch path patterns = true
      ↔ ∃ pattern ∈ patterns, pathMatch pattern path = true := by
  induction patterns with
  | nil => simp [matchAny]
  | cons pattern rest ih =>
    by_cases h : pathMatch pattern path = true
    · simp [matchAny, h]
    · simp [matchAny, h, ih]

/-- C15: with the matcher given, `Skip(path)` is true if and only if the include list is not
empty and no include pattern matches the path, or some exclude pattern matches the path; so
an exclude match decides whatever the include list, and an empty `SkipPath` skips nothing.
On the patterns of `TestSkipPath_Skip`, `*.zip` skips `1/2/test.zip` and not `test.zip`, and
`**/*.zip` skips neither. -/
theorem skip_iff (pathMatch : List Nat → List Nat → Bool) (p : SkipPath) (path : List Nat) :
    (p.Skip pathMatch path = true
      ↔ ((p.Includes ≠ [] ∧ ∀ pattern ∈ p.Includes, pathMatch pattern path = false)
        ∨ ∃ pattern ∈ p.Excludes, pathMatch pattern path = true))
    ∧ ((∃ pattern ∈ p.Excludes, pathMatch pattern path = true) → p.Skip pathMatch path = true)
    ∧ SkipPath.Skip pathMatch { Includes := [], Excludes := [] } path = false
    ∧ SkipPath.Skip testMatch { Includes := [bytesOf "*.zip"], Excludes := [] }
        (bytesOf "test.zip") = false
    ∧ SkipPath.Skip testMatch { Includes := [bytesOf "**/*.zip"], Excludes := [] }
        (bytesOf "test.zip") = false
    ∧ SkipPath.Skip testMatch { Includes := [bytesOf "*.zip"], Excludes := [] }
        (bytesOf "1/2/test.zip") = true
    ∧ SkipPath.Skip testMatch { Includes := [bytesOf "**/*.zip"], Excludes := [] }
        (bytesOf "1/2/test.zip") = false := by
  have hinc : matchAny pathMatch path p.Includes = false
      ↔ ∀ pattern ∈ p.Includes, pathMatch pattern path = false := by
    rw [← Bool.not_eq_true, matchAny_iff]
    simp
  have key : p.Skip pathMatch path = true
      ↔ ((p.Includes ≠ [] ∧ ∀ pattern ∈ p.Includes, pathMatch pattern path = false)
        ∨ ∃ pattern ∈ p.Excludes, pathMatch pattern path = true) := by
    unfold SkipPath.Skip
    rw [← matchAny_iff, ← hinc]
    have hlen : p.Includes.length > 0 ↔ p.Includes ≠ [] := List.length_pos
    by_cases h1 : p.Includes.length > 0 ∧ matchAny pathMatch path p.Includes = false
    · rw [if_pos h1]
      exact ⟨fun _ => Or.inl ⟨hlen.mp h1.1, h1.2⟩, fun _ => rfl⟩
    · rw [if_neg h1]
      by_cases h2 : matchAny pathMatch path p.Excludes = true
      · simp [h2]
      · simp only [h2, Bool.false_eq_true, if_false, or_false, false_iff]
        exact fun h => h1 ⟨hlen.mpr h.1, h.2⟩
  refine ⟨key, fun h => key.mpr (Or.inr h), ?_, ?_, ?_, ?_, ?_⟩
  · simp [SkipPath.Skip, matchAny]
  all_goals decide

/-! ### FailFastWorker -/

/-- C13: on a new worker `Submit` returns `ErrWorkerNotOpened` and enqueues nothing; on a
worker that was started and on which `Wait` has returned nil, the state is closed and
`Submit` returns `ErrWorkerNotOpened` as well, not `ErrWorkerClosed`, and enqueues
nothing. -/
theorem submit_lifecycle (task : Nat) (pick : Select) :
    (NewFailFastWorker 1 1 : FailFastWorker Nat).Submit task pick
      = some (NewFailFastWorker 1 1, some ErrWorkerNotOpened)
    ∧ (((NewFailFastWorker 1 1 : FailFastWorker Nat).Start none).Wait).2 = none
    ∧ (((NewFailFastWorker 1 1 : FailFastWorker Nat).Start none).Wait).1.IsClosed = true
    ∧ (((NewFailFastWorker 1 1 : FailFastWorker Nat).Start none).Wait).1.Submit task pick
      = some ((((NewFailFastWorker 1 1 : FailFastWorker Nat).Start none).Wait).1,
          some ErrWorkerNotOpened)
    ∧ ErrWorkerNotOpened ≠ ErrWorkerClosed := by
  refine ⟨rfl, rfl, rfl, rfl, by decide⟩

/-! ### Archive -/

theorem joinErr_isSome (a b : Option String) (h : a.isSome = true ∨ b.isSome = true) :
    (joinErr a b).isSome = true := by
  cases a <;> cases b <;> simp_all [joinErr]

/-- What the deferred functions leave, by the error `Archive` returns with and the error of
`Close`. -/
theorem deferred_spec (env : ArchiveEnv) (hp : Heap) (w : Writer)
    (calls : List (List Nat × Object)) (walkErr err : Option String) :
    (Archive.deferred env hp w calls walkErr err).tmpCreated = true
    ∧ (Archive.deferred env hp w calls walkErr err).walkErr = walkErr
    ∧ (Archive.deferred env hp w calls walkErr err).closeErr = (w.Close hp).2
    ∧ ((Archive.deferred env hp w calls walkErr err).renameAttempted = true
        → err = none ∧ (w.Close hp).2 = none)
    ∧ (err.isSome = true ∨ (w.Close hp).2.isSome = true
        → (Archive.deferred env hp w calls walkErr err).err.isSome = true
          ∧ (Archive.deferred env hp w calls walkErr err).renameAttempted = false
          ∧ (Archive.deferred env hp w calls walkErr err).tmpRemoved = true) := by
  unfold Archive.deferred
  simp only []
  cases hc : (w.Close hp).2 with
  | some c =>
    have hj : (joinErr err (some c)).isNone = false := by
      cases err <;> simp [joinErr]
    simp [hj, joinErr_isSome]
  | none =>
    cases err with
    | some e => simp
    | none =>
      simp only [Option.isSome_none, Bool.false_eq_true, if_false, Option.isNone_none, if_true]
      split_ifs <;> simp

set_option maxHeartbeats 1000000 in
/-- C18: when `Archive` returns, the rename of the temporary file to the final path was
attempted only if the validation of the options, the walk, `compressWorker.Wait`,
`writeWorker.Wait` and `Writer.Close` all returned without error; and when one of them
returned an error, `Archive` returns an error, has attempted no rename and, if the
temporary file was created, has removed it. -/
theorem archive_publishes_on_success_only (env : ArchiveEnv) (opts : ArchiveOptions)
    (r : ArchiveResult) (h : Archive env opts = some r) :
    (r.renameAttempted = true
      → opts.Validate.2 = none ∧ r.walkErr = none ∧ env.compressWait = none
        ∧ env.writeWait = none ∧ r.closeErr = none)
    ∧ (opts.Validate.2.isSome = true ∨ r.walkErr.isSome = true
        ∨ env.compressWait.isSome = true ∨ env.writeWait.isSome = true
        ∨ r.closeErr.isSome = true
      → r.err.isSome = true ∧ r.renameAttempted = false
        ∧ (r.tmpCreated = true → r.tmpRemoved = true)) := by
  unfold Archive at h
  by_cases hv : opts.Validate.2.isSome = true
  · simp only [hv, if_true, Option.some.injEq] at h
    subst h
    simp [Archive.early, hv]
  simp only [hv, Bool.false_eq_true, if_false] at h
  have hv1 : opts.Validate.2 = none := by simpa using hv
  cases ha : env.absZip with
  | error e => simp only [ha, Option.some.injEq] at h; subst h; simp [Archive.early]
  | ok absZipPath =>
    cases hm : env.mkdirTemp with
    | error e => simp only [ha, hm, Option.some.injEq] at h; subst h; simp [Archive.early]
    | ok tempRoot =>
      cases hc : env.createTemp with
      | error e => simp only [ha, hm, hc, Option.some.injEq] at h; subst h; simp [Archive.early]
      | ok room =>
        simp only [ha, hm, hc] at h
        split at h
        · exact absurd h (by simp)
        · rename_i walkErr st hwalk
          obtain ⟨d1, d2, d3, d4, d5⟩ := deferred_spec env
            (archiveAll env.host env.hp (NewWriter room) env.archived).1
            (archiveAll env.host env.hp (NewWriter room) env.archived).2 st.calls walkErr
            walkErr
          by_cases hw : walkErr.isSome = true
          · simp only [hw, if_true, Option.some.injEq] at h
            subst h
            have hw1 : walkErr ≠ none := by
              intro hn; rw [hn] at hw; simp at hw
            refine ⟨fun hr => absurd (d4 hr).1 hw1, fun _ => ?_⟩
            obtain ⟨e1, e2, e3⟩ := d5 (Or.inl hw)
            exact ⟨e1, e2, fun _ => e3⟩
          · simp only [hw, Bool.false_eq_true, if_false, Option.some.injEq] at h
            have hw1 : walkErr = none := by simpa using hw
            obtain ⟨f1, f2, f3, f4, f5⟩ := deferred_spec env
              (archiveAll env.host env.hp (NewWriter room) env.archived).1
              (archiveAll env.host env.hp (NewWriter room) env.archived).2 st.calls walkErr
              (if env.writeWait.isSome = true then
                joinErr (if env.compressWait.isSome = true then joinErr none env.compressWait
                  else none) env.writeWait
              else if env.compressWait.isSome = true then joinErr none env.compressWait
                else none)
            subst h
            have hwait : (if env.writeWait.isSome = true then
                joinErr (if env.compressWait.isSome = true then joinErr none env.compressWait
                  else none) env.writeWait
              else if env.compressWait.isSome = true then joinErr none env.compressWait
                else none) = none
                ↔ env.compressWait = none ∧ env.writeWait = none := by
              cases env.compressWait <;> cases env.writeWait <;> simp [joinErr]
            refine ⟨fun hr => ?_, fun hfail => ?_⟩
            · obtain ⟨g1, g2⟩ := f4 hr
              rw [hwait] at g1
              exact ⟨hv1, by rw [f2, hw1], g1.1, g1.2, by rw [f3]; exact g2⟩
            · have : (if env.writeWait.isSome = true then
                  joinErr (if env.compressWait.isSome = true then
                    joinErr none env.compressWait else none) env.writeWait
                else if env.compressWait.isSome = true then joinErr none env.compressWait
                  else none).isSome = true
                  ∨ ((archiveAll env.host env.hp (NewWriter room) env.archived).2.Close
                      (archiveAll env.host env.hp (NewWriter room)
                        env.archived).1).2.isSome = true := by
                rcases hfail with h1 | h1 | h1 | h1 | h1
                · exact absurd h1 hv
                · rw [f2, hw1] at h1; simp at h1
                · left
                  cases hcw : env.compressWait with
                  | none => rw [hcw] at h1; simp at h1
                  | some a => cases env.writeWait <;> simp [joinErr]
                · left
                  cases hww : env.writeWait with
                  | none => rw [hww] at h1; simp at h1
                  | some a => cases env.compressWait <;> simp [joinErr]
                · right; rw [f3] at h1; exact h1
              obtain ⟨e1, e2, e3⟩ := f5 this
              exact ⟨e1, e2, fun _ => e3⟩

set_option maxRecDepth 100000 in
theorem archive_publishes_on_success_only_witness :
    Archive sampleEnv commentOptions = some sampleResult
      ∧ sampleResult.renameAttempted = true
      ∧ (commentOptions.Validate.2 = none ∧ sampleResult.walkErr = none
        ∧ sampleEnv.compressWait = none ∧ sampleEnv.writeWait = none
        ∧ sampleResult.closeErr = none) :=
  ⟨(Option.some_get _).symm, by decide,
    (archive_publishes_on_success_only sampleEnv commentOptions sampleResult
      (Option.some_get _).symm).1 (by decide)⟩

/-! ### The walk -/

theorem Object.Reset_path (host : Host) (o : Object) (addr : Nat) (path : List Nat)
    (info : Option FileInfo) (level : Int) (hok : (o.Reset host addr path info level).2 = none) :
    (o.Reset host addr path info level).1.Path = path := by
  unfold Object.Reset at hok ⊢
  cases info with
  | none => simp at hok
  | some fi =>
    by_cases hp : path = []
    · simp [hp] at hok
    · cases hv : validLevel level with
      | some e => simp [hp, hv] at hok
      | none =>
        cases hl : (if fi.isSymlink then host.readlink path else .ok []) with
        | error e => simp [hp, hv, hl] at hok
        | ok link => simp only [hp, hv, hl, if_false]

theorem newObject_path (o : ArchiveOptions) (host : Host) (wh : WalkHost) (st : WalkState)
    (path : List Nat) (info : FileInfo) (obj : Object)
    (h : o.newObject host wh st path info = .ok obj) : obj.Path = path := by
  unfold ArchiveOptions.newObject at h
  cases hr : (wh.pooled.Reset host st.calls.length path (some info) o.Level).2 with
  | some e => simp [hr] at h
  | none =>
    simp only [hr, Except.ok.injEq] at h
    rw [← h]
    exact Object.Reset_path host _ _ _ _ _ hr

/-- In the function given to `WalkDir`, an object is made only for a path that `Skip` lets
through. -/
theorem walkFn_unskipped (o : ArchiveOptions) (host : Host) (wh : WalkHost)
    (fn : List Nat → Object → Option String)
    (recurse : List Nat → List Nat → WalkState → Option (Option String × WalkState))
    (hrec : ∀ t p st r, recurse t p st = some r
      → (∀ c ∈ st.calls, o.skip.Skip wh.pathMatch c.2.Path = false)
      → ∀ c ∈ r.2.calls, o.skip.Skip wh.pathMatch c.2.Path = false)
    (file link : List Nat) (e : WalkEntry) (st : WalkState) (r : Option String × WalkState)
    (h : o.walkFn host wh fn recurse file link e st = some r)
    (hst : ∀ c ∈ st.calls, o.skip.Skip wh.pathMatch c.2.Path = false) :
    ∀ c ∈ r.2.calls, o.skip.Skip wh.pathMatch c.2.Path = false := by
  unfold ArchiveOptions.walkFn at h
  by_cases h1 : e.err.isSome = true ∨ st.submitErr.isSome = true
  · rw [if_pos h1] at h
    simp only [Option.some.injEq] at h; subst h; exact hst
  rw [if_neg h1] at h
  by_cases h2 : e.path = [46] ∨ e.path = [46, 46] ∨ e.path = [46, 47]
  · rw [if_pos h2] at h
    simp only [Option.some.injEq] at h; subst h; exact hst
  rw [if_neg h2] at h
  cases habs : wh.abs e.path with
  | error err =>
    simp only [habs, Option.some.injEq] at h; subst h; exact hst
  | ok absPath =>
    simp only [habs] at h
    by_cases h3 : absPath = o.tempRoot ∨ wh.dir absPath = o.tempRoot
    · rw [if_pos h3] at h
      simp only [Option.some.injEq] at h; subst h; exact hst
    rw [if_neg h3] at h
    generalize (if link ≠ [] then wh.join link (TrimPrefix e.path file) else e.path)
      = pathOverride at h
    by_cases h4 : o.skip.Skip wh.pathMatch pathOverride = true
    · rw [if_pos h4] at h
      simp only [Option.some.injEq] at h; subst h; exact hst
    rw [if_neg h4] at h
    cases hinfo : e.info with
    | error err =>
      simp only [hinfo, Option.some.injEq] at h; subst h; exact hst
    | ok info =>
      simp only [hinfo] at h
      by_cases h5 : o.Dereference = true ∧ info.isSymlink = true
      · rw [if_pos h5] at h
        cases hlink : host.readlink e.path with
        | error err =>
          simp only [hlink, Option.some.injEq] at h; subst h; exact hst
        | ok target =>
          simp only [hlink] at h
          split at h
          · exact absurd h (by simp)
          · rename_i err st1 hr
            simp only [Option.some.injEq] at h; subst h
            exact hrec _ _ _ _ hr hst
          · rename_i st1 hr
            simp only [Option.some.injEq] at h; subst h
            exact hrec _ _ _ _ hr hst
      · rw [if_neg h5] at h
        cases hobj : o.newObject host wh st pathOverride info with
        | error err =>
          simp only [hobj, Option.some.injEq] at h; subst h; exact hst
        | ok obj =>
          simp only [hobj, Option.some.injEq] at h; subst h
          intro c hc
          simp only [List.mem_append, List.mem_singleton] at hc
          rcases hc with hc | hc
          · exact hst c hc
          · subst hc
            simp only [newObject_path o host wh st _ info obj hobj]
            simpa using h4

theorem walkLoop_unskipped (o : ArchiveOptions) (host : Host) (wh : WalkHost)
    (fn : List Nat → Object → Option String)
    (recurse : List Nat → List Nat → WalkState → Option (Option String × WalkState))
    (hrec : ∀ t p st r, recurse t p st = some r
      → (∀ c ∈ st.calls, o.skip.Skip wh.pathMatch c.2.Path = false)
      → ∀ c ∈ r.2.calls, o.skip.Skip wh.pathMatch c.2.Path = false)
    (file link : List Nat) (es : List WalkEntry) (st : WalkState)
    (r : Option String × WalkState)
    (h : o.walkLoop host wh fn recurse file link es st = some r)
    (hst : ∀ c ∈ st.calls, o.skip.Skip wh.pathMatch c.2.Path = false) :
    ∀ c ∈ r.2.calls, o.skip.Skip wh.pathMatch c.2.Path = false := by
  induction es generalizing st with
  | nil =>
    simp only [ArchiveOptions.walkLoop, Option.some.injEq] at h; subst h; exact hst
  | cons e rest ih =>
    rw [ArchiveOptions.walkLoop] at h
    split at h
    · exact absurd h (by simp)
    · rename_i err st1 hr
      simp only [Option.some.injEq] at h; subst h
      exact walkFn_unskipped o host wh fn recurse hrec file link e st _ hr hst
    · rename_i st1 hr
      exact ih st1 h (walkFn_unskipped o host wh fn recurse hrec file link e st _ hr hst)

theorem recurseArchiveFile_unskipped (o : ArchiveOptions) (host : Host) (wh : WalkHost)
    (fn : List Nat → Object → Option String) (fuel : Nat) (file link : List Nat)
    (st : WalkState) (r : Option String × WalkState)
    (h : o.recurseArchiveFile host wh fn fuel file link st = some r)
    (hst : ∀ c ∈ st.calls, o.skip.Skip wh.pathMatch c.2.Path = false) :
    ∀ c ∈ r.2.calls, o.skip.Skip wh.pathMatch c.2.Path = false := by
  induction fuel generalizing file link st r with
  | zero =>
    rw [ArchiveOptions.recurseArchiveFile] at h
    exact walkLoop_unskipped o host wh fn _ (fun _ _ _ _ hr => absurd hr (by simp)) file link
      _ _ r h hst
  | succ fuel ih =>
    rw [ArchiveOptions.recurseArchiveFile] at h
    exact walkLoop_unskipped o host wh fn _ (fun t p st1 r1 hr hs => ih t p st1 r1 hr hs)
      file link _ _ r h hst

/-- C19: in recursive mode an object reaches the callback only for a path that `Skip` lets
through; without recursion `archiveFile` hands the object of the file `a` to the callback
although `Skip` is true for `a`. -/
theorem skip_in_both_modes (o : ArchiveOptions) (host : Host) (wh : WalkHost)
    (fn : List Nat → Object → Option String) (fuel : Nat) (fileAbsPath file : List Nat) :
    (if o.Recurse then
      ∀ r, o.archiveFile host wh fn fuel fileAbsPath file { submitErr := none, calls := [] }
          = some r
        → ∀ c ∈ r.2.calls, o.skip.Skip wh.pathMatch c.2.Path = false
     else True)
    ∧ excludeOptions.Recurse = false
    ∧ excludeOptions.skip.Skip sampleWalkHost.pathMatch [97] = true
    ∧ (excludeOptions.archiveFile sampleHost sampleWalkHost (fun _ _ => none) 0 [47, 97] [97]
          { submitErr := none, calls := [] }).map
        (fun r => (r.1, r.2.calls.map fun c => (c.1, c.2.Path)))
        = some (none, [([47, 97], [97])]) := by
  refine ⟨?_, by decide, by decide, by decide⟩
  split_ifs with hr
  · intro r h
    unfold ArchiveOptions.archiveFile at h
    rw [if_pos hr] at h
    exact recurseArchiveFile_unskipped o host wh fn fuel file [] _ r h (by simp)

/-! ### Sinks without a limit -/

theorem countWriter.Write_unlimited (w : countWriter) (p : List Nat) (hr : w.room = none)
    (hf : w.failed = false) :
    (w.Write p).2.2 = none ∧ (w.Write p).1.room = none ∧ (w.Write p).1.failed = false := by
  simp [countWriter.Write, countWriter.sinkWrite, hr, hf]

theorem writeHeader_unlimited (w : countWriter) (h : header) (hn : h.fh.Name.length ≤ 65535)
    (he : h.fh.Extra.length ≤ 65535) (hr : w.room = none) (hf : w.failed = false) :
    (writeHeader w h).2.2 = none ∧ (writeHeader w h).1.room = none
      ∧ (writeHeader w h).1.failed = false := by
  unfold writeHeader
  have hn1 : ¬ h.fh.Name.length > uint16max := by simp [uint16max]; omega
  have he1 : ¬ h.fh.Extra.length > uint16max := by simp [uint16max]; omega
  simp only [hn1, he1, if_false]
  obtain ⟨a1, a2, a3⟩ := countWriter.Write_unlimited w (localHeaderBuf h.prepare) hr hf
  obtain ⟨b1, b2, b3⟩ := countWriter.Write_unlimited _ h.prepare.fh.Name a2 a3
  obtain ⟨c1, c2, c3⟩ := countWriter.Write_unlimited _ h.prepare.fh.Extra b2 b3
  simp only [a1, b1, Option.isSome_none, Bool.false_eq_true, if_false]
  exact ⟨c1, c2, c3⟩

/-- On a sink without a limit `CreateRaw` accepts every header that is not the last one
again and whose name and extra fit 16 bits. -/
theorem CreateRaw_unlimited (hp : Heap) (w : Writer) (fh : Nat) (hprep : w.prepare fh = none)
    (hn : (hp fh).Name.length ≤ 65535) (he : (hp fh).Extra.length ≤ 65535)
    (hr : w.cw.room = none) (hf : w.cw.failed = false) :
    (∃ r, (w.CreateRaw hp fh).2.2 = .ok r) ∧ (w.CreateRaw hp fh).2.1.cw.room = none
      ∧ (w.CreateRaw hp fh).2.1.cw.failed = false := by
  obtain ⟨a1, a2, a3⟩ := writeHeader_unlimited w.cw (w.newHeader hp fh) hn he hr hf
  unfold Writer.CreateRaw
  simp only [hprep, a1]
  split_ifs
  · exact ⟨⟨_, rfl⟩, a2, a3⟩
  · exact ⟨⟨_, rfl⟩, a2, a3⟩

theorem writeDirectoryHeader_unlimited (w : countWriter) (h : header) (hr : w.room = none)
    (hf : w.failed = false) :
    (writeDirectoryHeader w h).2 = none ∧ (writeDirectoryHeader w h).1.room = none
      ∧ (writeDirectoryHeader w h).1.failed = false := by
  unfold writeDirectoryHeader
  obtain ⟨a1, a2, a3⟩ := countWriter.Write_unlimited w (directoryHeaderBuf h) hr hf
  obtain ⟨b1, b2, b3⟩ := countWriter.Write_unlimited _ h.fh.Name a2 a3
  obtain ⟨c1, c2, c3⟩ := countWriter.Write_unlimited _ h.fh.Extra b2 b3
  obtain ⟨d1, d2, d3⟩ := countWriter.Write_unlimited _ h.fh.Comment c2 c3
  simp only [a1, b1, c1, Option.isSome_none, Bool.false_eq_true, if_false]
  exact ⟨d1, d2, d3⟩

theorem writeDirectory_unlimited (hp : Heap) (dir : List headerRef) (w : countWriter)
    (hr : w.room = none) (hf : w.failed = false) :
    (writeDirectory hp w dir).2 = none ∧ (writeDirectory hp w dir).1.room = none
      ∧ (writeDirectory hp w dir).1.failed = false := by
  induction dir generalizing w with
  | nil => exact ⟨rfl, hr, hf⟩
  | cons r rs ih =>
    rw [writeDirectory]
    obtain ⟨a1, a2, a3⟩ := writeDirectoryHeader_unlimited w (r.load hp) hr hf
    simp only [a1, Option.isSome_none, Bool.false_eq_true, if_false]
    exact ih _ a2 a3

/-- On a sink without a limit the first `Close` returns no error. -/
theorem Close_unlimited (hp : Heap) (w : Writer) (hc : w.closed = false)
    (hr : w.cw.room = none) (hf : w.cw.failed = false) : (w.Close hp).2 = none := by
  unfold Writer.Close
  obtain ⟨a1, a2, a3⟩ := writeDirectory_unlimited hp w.dir w.cw hr hf
  simp only [hc, Bool.false_eq_true, if_false, a1, Option.isSome_none]
  generalize (writeDirectory hp w.cw w.dir).1 = wd at a2 a3 ⊢
  by_cases hz : (decide (w.dir.length % 2 ^ 64 ≥ uint16max)
      || decide ((wd.count + 2 ^ 64 - w.cw.count) % 2 ^ 64 ≥ uint32max)
      || decide (w.cw.count ≥ uint32max)) = true
  · obtain ⟨b1, b2, b3⟩ := countWriter.Write_unlimited wd
      (directory64EndBuf (w.dir.length % 2 ^ 64) ((wd.count + 2 ^ 64 - w.cw.count) % 2 ^ 64)
        w.cw.count wd.count) a2 a3
    obtain ⟨c1, c2, c3⟩ := countWriter.Write_unlimited _
      (directoryEndBuf uint16max uint32max uint32max w.comment.length) b2 b3
    obtain ⟨d1, _, d3⟩ := countWriter.Write_unlimited _ w.comment c2 c3
    simp only [hz, if_true, b1, c1, d1, Option.isSome_none, Bool.false_eq_true, if_false,
      Writer.Flush, countWriter.Flush, d3]
  · obtain ⟨c1, c2, c3⟩ := countWriter.Write_unlimited wd
      (directoryEndBuf (w.dir.length % 2 ^ 64) ((wd.count + 2 ^ 64 - w.cw.count) % 2 ^ 64)
        w.cw.count w.comment.length) a2 a3
    obtain ⟨d1, _, d3⟩ := countWriter.Write_unlimited _ w.comment c2 c3
    simp only [hz, if_false, c1, d1, Option.isSome_none, Bool.false_eq_true,
      Writer.Flush, countWriter.Flush, d3]

/-! ### Lengths that do not fit 16 bits -/

theorem directoryRecord_commentLen (h : header) :
    ((directoryRecord h).drop 32).take 2 = le16 h.fh.Comment.length := by
  simp [directoryRecord, directoryHeaderBuf_eq, le16, le32, leBytes]

/-- `CreateRaw` returns an error for a name or an extra field of more than 65535 bytes. -/
theorem CreateRaw_too_long (hp : Heap) (w : Writer) (fh : Nat)
    (h : (hp fh).Name.length > 65535 ∨ (hp fh).Extra.length > 65535) :
    ∃ e, (w.CreateRaw hp fh).2.2 = .error e := by
  unfold Writer.CreateRaw
  cases hprep : w.prepare fh with
  | some e => exact ⟨e, rfl⟩
  | none =>
    simp only []
    have hw : ∃ e, (writeHeader w.cw (w.newHeader hp fh)).2.2 = some e := by
      unfold writeHeader
      by_cases hn : (w.newHeader hp fh).fh.Name.length > uint16max
      · exact ⟨_, by rw [if_pos hn]⟩
      · rw [if_neg hn]
        have he : (w.newHeader hp fh).fh.Extra.length > uint16max := by
          simp only [Writer.newHeader, header.new, uint16max] at hn ⊢
          omega
        exact ⟨_, by rw [if_pos he]⟩
    obtain ⟨e, he⟩ := hw
    exact ⟨e, by simp only [he]⟩

/-- C17: a `FileHeader` named `a` with a comment of 65536 bytes is accepted by `CreateRaw`
on a new writer and by `Close`, and the comment length field (bytes 32..33) of its central
directory record holds 0. -/
theorem long_comment_accepted :
    (longCommentHeap 0).Comment.length = 65536
    ∧ (∃ r, ((NewWriter none).CreateRaw longCommentHeap 0).2.2 = .ok r)
    ∧ (((NewWriter none).CreateRaw longCommentHeap 0).2.1.Close
        ((NewWriter none).CreateRaw longCommentHeap 0).1).2 = none
    ∧ ∃ r, ((NewWriter none).CreateRaw longCommentHeap 0).2.1.dir = [r]
        ∧ (r.load ((NewWriter none).CreateRaw longCommentHeap 0).1).fh.Comment.length = 65536
        ∧ ((directoryRecord (r.load ((NewWriter none).CreateRaw longCommentHeap 0).1)).drop
            32).take 2 = [0, 0] := by
  have hlen : (longCommentHeap 0).Comment.length = 65536 := by
    show (List.replicate 65536 120).length = 65536
    exact List.length_replicate _ _
  have hname : (longCommentHeap 0).Name.length ≤ 65535 := by
    show [97].length ≤ 65535
    decide
  have hextra : (longCommentHeap 0).Extra.length ≤ 65535 := by
    show ([] : List Nat).length ≤ 65535
    decide
  obtain ⟨⟨r, hr⟩, u2, u3⟩ := CreateRaw_unlimited longCommentHeap (NewWriter none) 0 rfl
    hname hextra rfl rfl
  obtain ⟨e1, e2, _, _, _, e6, _⟩ := CreateRaw_ok longCommentHeap (NewWriter none) 0 r hr
  have hcom : (((NewWriter none).CreateRaw longCommentHeap 0).1 0).Comment.length = 65536 := by
    rw [e1, Function.update_same, (prepare_frame _).1]
    exact hlen
  refine ⟨hlen, ⟨r, hr⟩, Close_unlimited _ _ (by rw [e6]; rfl) u2 u3, _, e2, hcom, ?_⟩
  rw [directoryRecord_commentLen]
  show le16 (((NewWriter none).CreateRaw longCommentHeap 0).1 0).Comment.length = [0, 0]
  rw [hcom]
  decide

/-! ### The comment of the archive -/

theorem CreateRaw_comment (hp : Heap) (w : Writer) (fh : Nat) :
    (w.CreateRaw hp fh).2.1.comment = w.comment := by
  unfold Writer.CreateRaw
  cases w.prepare fh with
  | some e => rfl
  | none =>
    simp only []
    cases (writeHeader w.cw (w.newHeader hp fh)).2.2 with
    | some e => rfl
    | none => simp only []; split_ifs <;> rfl

theorem copy_comment (w : Writer) (r : RawWriter) (p : List Nat) :
    (w.copy r p).1.comment = w.comment := by
  unfold Writer.copy
  split_ifs
  · rfl
  · cases r <;> rfl

theorem Archive_comment (host : Host) (hp : Heap) (w : Writer) (o : Object) :
    (o.Archive host hp w).2.1.comment = w.comment := by
  have hc := CreateRaw_comment (Function.update hp o.headerAddr o.header) w o.headerAddr
  unfold Object.Archive
  simp only []
  split
  · exact hc
  · split_ifs
    · exact hc
    · rw [copy_comment]; exact hc
    · split
      · exact hc
      · rw [copy_comment]; exact hc
    · rw [copy_comment]; exact hc
    · split
      · rw [copy_comment, copy_comment]; exact hc
      · rw [copy_comment]; exact hc

theorem archiveAll_comment (host : Host) (objs : List Object) (hp : Heap) (w : Writer) :
    (archiveAll host hp w objs).2.comment = w.comment := by
  induction objs generalizing hp w with
  | nil => rfl
  | cons o rest ih =>
    rw [archiveAll]
    split_ifs
    · exact Archive_comment host hp w o
    · rw [ih]; exact Archive_comment host hp w o

set_option maxRecDepth 100000 in
/-- C16: the writer `Archive` closes has an empty comment whatever the options are; and
with the comment option `hi`, in a call of `Archive` in which nothing fails and one file of
ten bytes is archived, the temporary file that is renamed has 110 bytes and ends with an end
of central directory record whose comment length is 0. -/
theorem archive_comment_dropped (env : ArchiveEnv) (room : Option Nat) :
    (archiveAll env.host env.hp (NewWriter room) env.archived).2.comment = []
    ∧ commentOptions.Comment = [104, 105]
    ∧ (Archive sampleEnv commentOptions).map
        (fun r => (r.err, r.renameAttempted, r.tmp.length, r.tmp.drop 88))
        = some (none, true, 110, endRecord 1 47 41 0) := by
  refine ⟨?_, by decide, by decide⟩
  rw [archiveAll_comment]
  rfl

/-! ### detectUTF8 -/

theorem utf8Encode_ne_nil (r : Nat) : utf8Encode r ≠ [] := by
  unfold utf8Encode
  split_ifs <;> simp

/-- Decoding the encoding of a scalar value gives it back, with its width. -/
theorem Decode_utf8Encode (r : Nat) (t : List Nat) (hr : isScalarValue r) :
    DecodeRuneInString (utf8Encode r ++ t) = (r, (utf8Encode r).length) := by
  unfold isScalarValue at hr
  unfold utf8Encode
  by_cases h1 : r < 0x80
  · simp only [h1, if_true, DecodeRuneInString, List.cons_append, List.nil_append,
      List.length_singleton]
  by_cases h2 : r < 0x800
  · simp only [h1, h2, if_true, if_false, DecodeRuneInString, List.cons_append,
      List.nil_append, inRange, List.length_cons, List.length_nil]
    rw [if_neg (by omega), if_pos (by simp; omega), if_pos (by simp; omega)]
    simp only [Prod.mk.injEq, and_true]
    omega
  by_cases h3 : r < 0x10000
  · simp only [h1, h2, h3, if_true, if_false, DecodeRuneInString, List.cons_append,
      List.nil_append, inRange, List.length_cons, List.length_nil]
    rw [if_neg (by omega), if_neg (by simp; omega), if_pos (by simp; omega)]
    rw [if_pos (by
      simp only [Bool.and_eq_true, decide_eq_true_eq]
      refine ⟨⟨?_, ?_⟩, ?_, ?_⟩
      · split_ifs <;> omega
      · split_ifs <;> omega
      · omega
      · omega)]
    simp only [Prod.mk.injEq, and_true]
    omega
  · simp only [h1, h2, h3, if_false, DecodeRuneInString, List.cons_append,
      List.nil_append, inRange, List.length_cons, List.length_nil]
    rw [if_neg (by omega), if_neg (by simp; omega), if_neg (by simp; omega),
      if_pos (by simp; omega)]
    rw [if_pos (by
      simp only [Bool.and_eq_true, decide_eq_true_eq]
      refine ⟨⟨⟨?_, ?_⟩, ?_, ?_⟩, ?_, ?_⟩
      · split_ifs <;> omega
      · split_ifs <;> omega
      all_goals omega)]
    simp only [Prod.mk.injEq, and_true]
    omega

theorem utf8Encode_two (s0 s1 : Nat) (h0 : 0xC2 ≤ s0 ∧ s0 ≤ 0xDF) (h1 : 0x80 ≤ s1 ∧ s1 ≤ 0xBF) :
    utf8Encode (s0 % 32 * 64 + s1 % 64) = [s0, s1]
      ∧ isScalarValue (s0 % 32 * 64 + s1 % 64)
      ∧ s0 % 32 * 64 + s1 % 64 ≠ RuneError := by
  unfold utf8Encode isScalarValue RuneError
  rw [if_neg (by omega), if_pos (by omega)]
  refine ⟨?_, by omega, by omega⟩
  congr 1
  · omega
  · congr 1
    omega

theorem utf8Encode_three (s0 s1 s2 : Nat) (h0 : 0xE0 ≤ s0 ∧ s0 ≤ 0xEF)
    (h1 : (if s0 = 0xE0 then 0xA0 else 0x80) ≤ s1 ∧ s1 ≤ (if s0 = 0xED then 0x9F else 0xBF))
    (h2 : 0x80 ≤ s2 ∧ s2 ≤ 0xBF) :
    utf8Encode (s0 % 16 * 4096 + s1 % 64 * 64 + s2 % 64) = [s0, s1, s2]
      ∧ isScalarValue (s0 % 16 * 4096 + s1 % 64 * 64 + s2 % 64) := by
  have h1a : 0x80 ≤ s1 ∧ s1 ≤ 0xBF := by
    obtain ⟨a, b⟩ := h1
    split_ifs at a b <;> omega
  have hlo : s0 = 0xE0 → 0xA0 ≤ s1 := by
    intro h; rw [if_pos h] at h1; exact h1.1
  have hhi : s0 = 0xED → s1 ≤ 0x9F := by
    intro h; rw [if_pos h] at h1; exact h1.2
  unfold utf8Encode isScalarValue
  rw [if_neg (by omega), if_neg (by omega), if_pos (by omega)]
  refine ⟨?_, by omega⟩
  congr 1
  · omega
  · congr 1
    · omega
    · congr 1
      omega

theorem utf8Encode_four (s0 s1 s2 s3 : Nat) (h0 : 0xF0 ≤ s0 ∧ s0 ≤ 0xF4)
    (h1 : (if s0 = 0xF0 then 0x90 else 0x80) ≤ s1 ∧ s1 ≤ (if s0 = 0xF4 then 0x8F else 0xBF))
    (h2 : 0x80 ≤ s2 ∧ s2 ≤ 0xBF) (h3 : 0x80 ≤ s3 ∧ s3 ≤ 0xBF) :
    utf8Encode (s0 % 8 * 262144 + s1 % 64 * 4096 + s2 % 64 * 64 + s3 % 64) = [s0, s1, s2, s3]
      ∧ isScalarValue (s0 % 8 * 262144 + s1 % 64 * 4096 + s2 % 64 * 64 + s3 % 64)
      ∧ s0 % 8 * 262144 + s1 % 64 * 4096 + s2 % 64 * 64 + s3 % 64 ≠ RuneError := by
  have h1a : 0x80 ≤ s1 ∧ s1 ≤ 0xBF := by
    obtain ⟨a, b⟩ := h1
    split_ifs at a b <;> omega
  have hlo : s0 = 0xF0 → 0x90 ≤ s1 := by
    intro h; rw [if_pos h] at h1; exact h1.1
  have hhi : s0 = 0xF4 → s1 ≤ 0x8F := by
    intro h; rw [if_pos h] at h1; exact h1.2
  unfold utf8Encode isScalarValue RuneError
  rw [if_neg (by omega), if_neg (by omega), if_neg (by omega)]
  refine ⟨?_, by omega, by omega⟩
  congr 1
  · omega
  · congr 1
    · omega
    · congr 1
      · omega
      · congr 1
        omega

/-- A rune that `DecodeRuneInString` does not report as an error is a scalar value, and the
string starts with its encoding, whose length is the width returned. -/
theorem Decode_scalar (s0 : Nat) (rest : List Nat)
    (h : ¬ ((DecodeRuneInString (s0 :: rest)).1 = RuneError
          ∧ (DecodeRuneInString (s0 :: rest)).2 = 1)) :
    isScalarValue (DecodeRuneInString (s0 :: rest)).1
      ∧ ∃ t, s0 :: rest = utf8Encode (DecodeRuneInString (s0 :: rest)).1 ++ t
          ∧ (DecodeRuneInString (s0 :: rest)).2
              = (utf8Encode (DecodeRuneInString (s0 :: rest)).1).length := by
  unfold DecodeRuneInString at h ⊢
  by_cases c1 : s0 < 0x80
  · simp only [c1, if_true] at h ⊢
    refine ⟨Or.inl (by omega), rest, ?_, ?_⟩ <;> simp [utf8Encode, c1]
  simp only [c1, if_false, inRange, Bool.and_eq_true, decide_eq_true_eq] at h ⊢
  by_cases c2 : 0xC2 ≤ s0 ∧ s0 ≤ 0xDF
  · simp only [c2, and_self, if_true] at h ⊢
    rcases rest with _ | ⟨s1, t⟩
    · exact absurd ⟨rfl, rfl⟩ h
    · simp only at h ⊢
      by_cases d1 : 0x80 ≤ s1 ∧ s1 ≤ 0xBF
      · simp only [d1, and_self, if_true] at h ⊢
        obtain ⟨e, sc, _⟩ := utf8Encode_two s0 s1 c2 d1
        exact ⟨sc, t, by rw [e]; rfl, by rw [e]; rfl⟩
      · rw [if_neg d1] at h
        exact absurd ⟨rfl, rfl⟩ h
  rw [if_neg c2] at h ⊢
  by_cases c3 : 0xE0 ≤ s0 ∧ s0 ≤ 0xEF
  · simp only [c3, and_self, if_true] at h ⊢
    rcases rest with _ | ⟨s1, _ | ⟨s2, t⟩⟩
    · exact absurd ⟨rfl, rfl⟩ h
    · exact absurd ⟨rfl, rfl⟩ h
    · simp only at h ⊢
      by_cases d1 : ((if s0 = 0xE0 then 0xA0 else 0x80) ≤ s1
          ∧ s1 ≤ (if s0 = 0xED then 0x9F else 0xBF)) ∧ 0x80 ≤ s2 ∧ s2 ≤ 0xBF
      · rw [if_pos d1] at h ⊢
        obtain ⟨e, sc⟩ := utf8Encode_three s0 s1 s2 c3 d1.1 d1.2
        exact ⟨sc, t, by rw [e]; rfl, by rw [e]; rfl⟩
      · rw [if_neg d1] at h
        exact absurd ⟨rfl, rfl⟩ h
  rw [if_neg c3] at h ⊢
  by_cases c4 : 0xF0 ≤ s0 ∧ s0 ≤ 0xF4
  · simp only [c4, and_self, if_true] at h ⊢
    rcases rest with _ | ⟨s1, _ | ⟨s2, _ | ⟨s3, t⟩⟩⟩
    · exact absurd ⟨rfl, rfl⟩ h
    · exact absurd ⟨rfl, rfl⟩ h
    · exact absurd ⟨rfl, rfl⟩ h
    · simp only at h ⊢
      by_cases d1 : (((if s0 = 0xF0 then 0x90 else 0x80) ≤ s1
          ∧ s1 ≤ (if s0 = 0xF4 then 0x8F else 0xBF)) ∧ 0x80 ≤ s2 ∧ s2 ≤ 0xBF)
          ∧ 0x80 ≤ s3 ∧ s3 ≤ 0xBF
      · rw [if_pos d1] at h ⊢
        obtain ⟨e, sc, _⟩ := utf8Encode_four s0 s1 s2 s3 c4 d1.1.1 d1.1.2 d1.2
        exact ⟨sc, t, by rw [e]; rfl, by rw [e]; rfl⟩
      · rw [if_neg d1] at h
        exact absurd ⟨rfl, rfl⟩ h
  · rw [if_neg c4] at h
    exact absurd ⟨rfl, rfl⟩ h

/-- Passing over the `k` bytes of `a`. -/
theorem detectUTF8From_skip (a b : List Nat) (q : Bool) :
    detectUTF8From a.length (a ++ b) q = detectUTF8From 0 b q := by
  induction a with
  | nil => rfl
  | cons x a ih =>
    rw [List.length_cons, List.cons_append, detectUTF8From]
    exact ih

/-- One turn of the loop at the start of the encoding of a scalar value. -/
theorem detectUTF8From_encode (r : Nat) (t : List Nat) (q : Bool) (hr : isScalarValue r) :
    detectUTF8From 0 (utf8Encode r ++ t) q
      = detectUTF8From 0 t (q || needsUTF8 r) := by
  have hd := Decode_utf8Encode r t hr
  have hv : ValidRune r = true := by
    unfold isScalarValue at hr
    unfold ValidRune
    simp only [Bool.or_eq_true, Bool.and_eq_true, decide_eq_true_eq]
    omega
  have hw : ¬ (r = RuneError ∧ (utf8Encode r).length = 1) := by
    rintro ⟨h1, h2⟩
    rw [h1] at h2
    revert h2
    decide
  cases he : utf8Encode r with
  | nil => exact absurd he (utf8Encode_ne_nil r)
  | cons s0 e =>
    rw [he] at hd hw
    rw [List.cons_append] at hd ⊢
    rw [detectUTF8From]
    simp only [hd, List.length_cons, Nat.add_sub_cancel]
    by_cases hn : needsUTF8 r = true
    · have hn1 : r < 0x20 ∨ r > 0x7d ∨ r = 0x5c := by simpa [needsUTF8] using hn
      rw [if_pos hn1]
      split_ifs with hc
      · exfalso
        rw [hv] at hc
        simp only [Bool.not_true, Bool.false_or, Bool.and_eq_true, beq_iff_eq] at hc
        exact hw ⟨hc.1, by simpa using hc.2⟩
      simp only [hn, Bool.or_true]
      exact detectUTF8From_skip e t true
    · have hn1 : ¬ (r < 0x20 ∨ r > 0x7d ∨ r = 0x5c) := by simpa [needsUTF8] using hn
      rw [if_neg hn1]
      simp only [Bool.not_eq_true] at hn
      simp only [hn, Bool.or_false]
      exact detectUTF8From_skip e t q

/-- On the encoding of scalar values the loop returns `true` and whether one of them is
outside the plain range. -/
theorem detectUTF8From_utf8String (rs : List Nat) (q : Bool) (hrs : ∀ r ∈ rs, isScalarValue r) :
    detectUTF8From 0 (utf8String rs) q = (true, q || rs.any needsUTF8) := by
  induction rs generalizing q with
  | nil => simp [utf8String, detectUTF8From]
  | cons r rs ih =>
    have h1 : utf8String (r :: rs) = utf8Encode r ++ utf8String rs := by
      simp [utf8String]
    rw [h1, detectUTF8From_encode r _ q (hrs r (List.mem_cons_self _ _)),
      ih _ (fun x hx => hrs x (List.mem_cons_of_mem _ hx))]
    simp [Bool.or_assoc]

/-- The loop returns `(false, false)` when it does not return `true`. -/
theorem detectUTF8From_false (s : List Nat) (k : Nat) (q : Bool)
    (h : (detectUTF8From k s q).1 = false) : detectUTF8From k s q = (false, false) := by
  induction s generalizing k q with
  | nil => simp [detectUTF8From] at h
  | cons s0 rest ih =>
    cases k with
    | succ k =>
      rw [detectUTF8From] at h ⊢
      exact ih k q h
    | zero =>
      rw [detectUTF8From] at h ⊢
      split_ifs at h ⊢
      · rfl
      · exact ih _ _ h
      · exact ih _ _ h

/-- A string on which the loop returns `true` is well-formed. -/
theorem detectUTF8From_wellFormed (n : Nat) (s : List Nat) (q : Bool) (hn : s.length ≤ n)
    (h : (detectUTF8From 0 s q).1 = true) : WellFormedUTF8 s := by
  induction n generalizing s q with
  | zero =>
    have : s = [] := List.length_eq_zero.mp (by omega)
    exact ⟨[], by simp, by simp [this, utf8String]⟩
  | succ n ih =>
    cases s with
    | nil => exact ⟨[], by simp, by simp [utf8String]⟩
    | cons s0 rest =>
      have hne : ¬ ((DecodeRuneInString (s0 :: rest)).1 = RuneError
          ∧ (DecodeRuneInString (s0 :: rest)).2 = 1) := by
        rintro ⟨h1, h2⟩
        rw [detectUTF8From] at h
        simp [h1, h2, RuneError, ValidRune] at h
      obtain ⟨hsc, t, ht, hlen⟩ := Decode_scalar s0 rest hne
      have hstep := detectUTF8From_encode _ t q hsc
      rw [← ht] at hstep
      rw [hstep] at h
      have hlt : t.length ≤ n := by
        have h1 := congrArg List.length ht
        have h2 : (utf8Encode (DecodeRuneInString (s0 :: rest)).1).length ≠ 0 :=
          fun h0 => utf8Encode_ne_nil _ (List.length_eq_zero.mp h0)
        simp only [List.length_cons, List.length_append] at h1 hn
        omega
      obtain ⟨rs, hrs, hs⟩ := ih t _ hlt h
      refine ⟨(DecodeRuneInString (s0 :: rest)).1 :: rs, ?_, ?_⟩
      · intro r hr
        rcases List.mem_cons.mp hr with rfl | hr
        · exact hsc
        · exact hrs r hr
      · have hcons : utf8String ((DecodeRuneInString (s0 :: rest)).1 :: rs)
            = utf8Encode (DecodeRuneInString (s0 :: rest)).1 ++ utf8String rs := by
          simp [utf8String]
        rw [hcons, ← hs]
        exact ht

/-- A string of bytes below 0x80 is the encoding of its bytes. -/
theorem utf8String_ascii (s : List Nat) (h : ∀ b ∈ s, b < 0x80) : utf8String s = s := by
  induction s with
  | nil => rfl
  | cons b s ih =>
    have hb : utf8Encode b = [b] := by
      unfold utf8Encode
      rw [if_pos (h b (List.mem_cons_self _ _))]
    have hcons : utf8String (b :: s) = utf8Encode b ++ utf8String s := by simp [utf8String]
    rw [hcons, hb, ih (fun x hx => h x (List.mem_cons_of_mem _ hx))]
    rfl

/-- C21: `detectUTF8(s)` returns `valid = true` if and only if `s` is well-formed UTF-8,
that is the encoding of a sequence of scalar values; `require = true` only for a well-formed
`s`, and then if and only if one of its code points is below 0x20, above 0x7D or the
backslash 0x5C; for an ill-formed `s` it returns `(false, false)`, and for a string of bytes
0x20..0x7D other than 0x5C it returns `(true, false)`. The two bytes of U+00E9 give
`(true, true)`, its first byte alone and an encoded surrogate give `(false, false)`. -/
theorem detectUTF8_wellFormed (s : List Nat) :
    ((detectUTF8 s).1 = true ↔ WellFormedUTF8 s)
    ∧ ((detectUTF8 s).2 = true → WellFormedUTF8 s)
    ∧ (∀ rs : List Nat, (∀ r ∈ rs, isScalarValue r) → s = utf8String rs →
        ((detectUTF8 s).2 = true ↔ ∃ r ∈ rs, needsUTF8 r = true))
    ∧ (¬ WellFormedUTF8 s → detectUTF8 s = (false, false))
    ∧ ((∀ b ∈ s, 0x20 ≤ b ∧ b ≤ 0x7d ∧ b ≠ 0x5c) → detectUTF8 s = (true, false))
    ∧ detectUTF8 [0xC3, 0xA9] = (true, true)
    ∧ detectUTF8 [0xC3] = (false, false)
    ∧ detectUTF8 [0xED, 0xA0, 0x80] = (false, false) := by
  have hflat : ∀ rs : List Nat, (∀ r ∈ rs, isScalarValue r) →
      detectUTF8 (utf8String rs) = (true, rs.any needsUTF8) := by
    intro rs hrs
    unfold detectUTF8
    rw [detectUTF8From_utf8String rs false hrs, Bool.false_or]
  have hvalid : (detectUTF8 s).1 = true → WellFormedUTF8 s :=
    detectUTF8From_wellFormed s.length s false (Nat.le_refl _)
  have hill : ¬ WellFormedUTF8 s → detectUTF8 s = (false, false) := by
    intro hw
    apply detectUTF8From_false
    cases h : (detectUTF8From 0 s false).1 with
    | false => rfl
    | true => exact absurd (hvalid h) hw
  have hreq : (detectUTF8 s).2 = true → WellFormedUTF8 s := by
    intro h
    by_contra hw
    rw [hill hw] at h
    exact absurd h (by decide)
  refine ⟨⟨hvalid, ?_⟩, hreq, ?_, hill, ?_, by decide, by decide, by decide⟩
  · rintro ⟨rs, hrs, rfl⟩
    rw [hflat rs hrs]
  · intro rs hrs hs
    rw [hs, hflat rs hrs]
    simp only [List.any_eq_true]
  · intro h
    have hsc : ∀ r ∈ s, isScalarValue r := fun r hr => Or.inl (by have := h r hr; omega)
    have hs := utf8String_ascii s (fun b hb => by have := h b hb; omega)
    have := hflat s hsc
    rw [hs] at this
    rw [this]
    have hany : (s.any needsUTF8) = false := by
      rw [List.any_eq_false]
      intro r hr
      have := h r hr
      simp only [needsUTF8, decide_eq_true_eq]
      omega
    rw [hany]

/-! ### The compressor on the Deflate path -/

/-- The branch of `deflate` for a regular file: a run without error has read the file,
closed the compressor, and recorded the count of the sink and the checksum of the content; the
object then holds the whole stream of what the compressor was given. -/
theorem deflate_file (host : Host) (o : Object) (hl : o.link = [])
    (hok : (o.deflate host).2 = none) :
    ∃ content, host.readFile o.Path = .ok content
      ∧ (o.deflate host).1.header.CompressedSize64 = (o.deflate host).1.written
      ∧ (o.deflate host).1.header.CRC32 = crc32IEEE content
      ∧ (∀ c, o.compressor = some c →
          (o.deflate host).1.compressor = some { c with pending := [], closed := true }
          ∧ ∀ C, o.Holds C [] →
              (o.deflate host).1.Holds C (host.deflate c.level (c.pending ++ content))) := by
  unfold Object.deflate at hok ⊢
  simp only [hl, ne_eq, not_true_eq_false, if_false] at hok ⊢
  cases hr : host.readFile o.Path with
  | error e => simp [hr] at hok
  | ok content =>
    simp only [hr] at hok ⊢
    refine ⟨content, rfl, ?_⟩
    by_cases hc : ((o.compressorWrite content).compressorClose host).2.isSome = true
    · rw [if_pos hc] at hok
      rw [hok] at hc
      simp at hc
    · rw [if_neg hc] at hok ⊢
      refine ⟨rfl, rfl, ?_⟩
      intro c hcomp
      have hclose : ((o.compressorWrite content).compressorClose host).2 = none := by
        cases h : ((o.compressorWrite content).compressorClose host).2 with
        | none => rfl
        | some e => simp [h] at hc
      unfold Object.compressorClose at hclose ⊢
      simp only [Object.compressorWrite, hcomp, Option.map_some'] at hclose ⊢
      refine ⟨trivial, ?_⟩
      intro C hh
      have hh1 : Object.Holds C
          { o with compressor := some { c with pending := c.pending ++ content } } [] :=
        ⟨hh.cap, hh.data, hh.ovf, hh.spilled, hh.written⟩
      have hw := (Object.Write_holds host C _ [] _ hh1 hclose).1
      rw [List.nil_append] at hw
      exact ⟨hw.cap, hw.data, hw.ovf, hw.spilled, hw.written⟩

set_option maxRecDepth 100000 in
/-- C22: in the branch of `deflate` for a regular file, a run without error has closed the
compressor, `CompressedSize64` is the count of the sink, which holds the complete stream, and
`CRC32` is the checksum of the content. In the branch for a link the compressor is not
closed: `Compress` of a link with a target of 200 bytes at level 6 returns no error with the
method Deflate, an open compressor that still holds the 200 bytes, nothing in the sink and
`CompressedSize64 = 0`, while the complete stream has 200 bytes. For the regular file
`fileObject`, `Compress` takes the Deflate path too and leaves a closed compressor and the
ten bytes of the stream in the sink. -/
theorem deflate_closes_compressor (host : Host) (o : Object) :
    (o.link = [] → (o.deflate host).2 = none →
      ∃ content, host.readFile o.Path = .ok content
        ∧ (o.deflate host).1.header.CompressedSize64 = (o.deflate host).1.written
        ∧ (o.deflate host).1.header.CRC32 = crc32IEEE content
        ∧ (∀ c, o.compressor = some c →
            (o.deflate host).1.compressor = some { c with pending := [], closed := true }
            ∧ ∀ C, o.Holds C [] →
                (o.deflate host).1.Holds C (host.deflate c.level (c.pending ++ content))))
    ∧ (o.link ≠ [] →
        (o.deflate host).2 = none
        ∧ (o.deflate host).1.compressor
            = o.compressor.map (fun c => { c with pending := c.pending ++ o.link })
        ∧ (o.deflate host).1.header.CompressedSize64 = o.written
        ∧ (o.deflate host).1.written = o.written)
    ∧ linkObject.link.length = 200
    ∧ (linkObject.Compress sampleHost).2 = none
    ∧ (linkObject.Compress sampleHost).1.header.Method = 8
    ∧ (linkObject.Compress sampleHost).1.compressor.map (fun c => (c.closed, c.pending.length))
        = some (false, 200)
    ∧ (linkObject.Compress sampleHost).1.compressedData.data = []
    ∧ (linkObject.Compress sampleHost).1.overflow = none
    ∧ (linkObject.Compress sampleHost).1.header.CompressedSize64 = 0
    ∧ (sampleHost.deflate 6 linkObject.link).length = 200
    ∧ (fileObject.Compress sampleHost).2 = none
    ∧ (fileObject.Compress sampleHost).1.header.Method = 8
    ∧ (fileObject.Compress sampleHost).1.compressor.map (fun c => (c.closed, c.pending.length))
        = some (true, 0)
    ∧ (fileObject.Compress sampleHost).1.header.CompressedSize64 = 10
    ∧ (fileObject.Compress sampleHost).1.compressedData.data.length = 10 := by
  refine ⟨deflate_file host o, fun hl => ?_, by decide, by decide, by decide, by decide,
    by decide, by decide, by decide, by decide, by decide, by decide, by decide, by decide,
    by decide⟩
  rw [deflate_link host o hl]
  exact ⟨rfl, rfl, rfl, rfl⟩

/-! ### CreateRaw that fails -/

/-- The directory list after `CreateRaw`, whether it fails or not: unchanged when the
duplicate check fails, one entry longer in every other case. -/
theorem CreateRaw_dir (hp : Heap) (w : Writer) (fh : Nat) :
    (w.CreateRaw hp fh).2.1.dir
      = if w.prepare fh = none then
          w.dir ++ [(writeHeader w.cw (w.newHeader hp fh)).2.1.ref fh]
        else w.dir := by
  unfold Writer.CreateRaw
  cases hprep : w.prepare fh with
  | some e => simp
  | none =>
    simp only [if_true]
    cases (writeHeader w.cw (w.newHeader hp fh)).2.2 with
    | some e => rfl
    | none => split_ifs <;> rfl

theorem writeHeader_long_name (w : countWriter) (h : header) (hn : h.fh.Name.length > 65535) :
    writeHeader w h = (w, h, some "zip: header name too long") := by
  unfold writeHeader
  rw [if_pos (by simpa [uint16max] using hn)]

/-- `CreateRaw` with a name of more than 65535 bytes, when the duplicate check passes. -/
theorem CreateRaw_long_name (hp : Heap) (w : Writer) (fh : Nat) (hprep : w.prepare fh = none)
    (hn : (hp fh).Name.length > 65535) :
    w.CreateRaw hp fh
      = (Function.update hp fh (w.newHeader hp fh).fh,
          { w with dir := w.dir ++ [(w.newHeader hp fh).ref fh] },
          .error "zip: header name too long") := by
  unfold Writer.CreateRaw
  simp only [hprep, writeHeader_long_name w.cw (w.newHeader hp fh) hn]

/-- What `Close` emits after `CreateRaw` on a new writer has rejected a name of 65536
bytes: one central directory record and the end record that counts it. -/
theorem Close_after_long_name (hp : Heap) (fh : Nat) (hn : (hp fh).Name.length = 65536)
    (hx : (hp fh).Extra = []) (hc : (hp fh).Comment = []) :
    ((NewWriter none).CreateRaw hp fh).2.2 = .error "zip: header name too long"
    ∧ ((NewWriter none).CreateRaw hp fh).2.1.cw.out = []
    ∧ ((NewWriter none).CreateRaw hp fh).2.1.dir.length = 1
    ∧ (((NewWriter none).CreateRaw hp fh).2.1.Close ((NewWriter none).CreateRaw hp fh).1).2 = none
    ∧ (((NewWriter none).CreateRaw hp fh).2.1.Close
        ((NewWriter none).CreateRaw hp fh).1).1.cw.out
      = centralDirectory ((NewWriter none).CreateRaw hp fh).1
          ((NewWriter none).CreateRaw hp fh).2.1.dir
        ++ endRecord 1 65582 0 0
    ∧ (centralDirectory ((NewWriter none).CreateRaw hp fh).1
          ((NewWriter none).CreateRaw hp fh).2.1.dir).length = 65582 := by
  have hcr := CreateRaw_long_name hp (NewWriter none) fh rfl (by omega)
  have hcd : (centralDirectory ((NewWriter none).CreateRaw hp fh).1
      ((NewWriter none).CreateRaw hp fh).2.1.dir).length = 65582 := by
    rw [hcr]
    simp [centralDirectory, directoryRecord, directoryHeaderBuf_length, headerRef.load,
      header.ref, Writer.newHeader, header.new, NewWriter, hn, hx, hc]
  have hclose : (((NewWriter none).CreateRaw hp fh).2.1.Close
      ((NewWriter none).CreateRaw hp fh).1).2 = none := by
    apply Close_unlimited <;> rw [hcr] <;> rfl
  have hout := Close_ok ((NewWriter none).CreateRaw hp fh).1
    ((NewWriter none).CreateRaw hp fh).2.1 (by rw [hcr]; rfl)
    (by rw [hcd, hcr]; simp [NewWriter]) hclose
  refine ⟨by rw [hcr], by rw [hcr]; rfl, by rw [hcr]; rfl, hclose, ?_, hcd⟩
  rw [hout, hcd]
  rw [hcr]
  simp [NewWriter]

theorem longNameHeap_length (fh : Nat) : (longNameHeap fh).Name.length = 65536 := by
  show (List.replicate 65536 97).length = 65536
  exact List.length_replicate _ _

/-- C23: `CreateRaw` leaves the directory list as it was when the duplicate check fails,
and one entry longer in every other case, also when `writeHeader` returns an error. For a
name of 65536 bytes `CreateRaw` on a new writer returns the error of the name, writes
nothing, and keeps the header in the list; `Close` then returns no error and emits an
archive with one central directory record, for the rejected entry. -/
theorem createRaw_failure_keeps_entry (hp : Heap) (w : Writer) (fh : Nat) :
    (w.CreateRaw hp fh).2.1.dir
      = (if w.prepare fh = none then
          w.dir ++ [(writeHeader w.cw (w.newHeader hp fh)).2.1.ref fh]
        else w.dir)
    ∧ ((NewWriter none).CreateRaw longNameHeap 0).2.2 = .error "zip: header name too long"
    ∧ ((NewWriter none).CreateRaw longNameHeap 0).2.1.cw.out = []
    ∧ ((NewWriter none).CreateRaw longNameHeap 0).2.1.dir.length = 1
    ∧ (((NewWriter none).CreateRaw longNameHeap 0).2.1.Close
        ((NewWriter none).CreateRaw longNameHeap 0).1).2 = none
    ∧ (((NewWriter none).CreateRaw longNameHeap 0).2.1.Close
        ((NewWriter none).CreateRaw longNameHeap 0).1).1.cw.out
      = centralDirectory ((NewWriter none).CreateRaw longNameHeap 0).1
          ((NewWriter none).CreateRaw longNameHeap 0).2.1.dir
        ++ endRecord 1 65582 0 0
    ∧ (centralDirectory ((NewWriter none).CreateRaw longNameHeap 0).1
          ((NewWriter none).CreateRaw longNameHeap 0).2.1.dir).length = 65582 := by
  exact ⟨CreateRaw_dir hp w fh, Close_after_long_name longNameHeap 0 (longNameHeap_length 0) rfl rfl⟩

/-! ### The length of the extra field -/

/-- What a successful `writeHeader` emits, and what it stores as the length of the extra
field. -/
theorem writeHeader_extra (w : countWriter) (h : header) (hok : (writeHeader w h).2.2 = none) :
    h.fh.Name.length ≤ 65535 ∧ h.fh.Extra.length ≤ 65535
    ∧ (writeHeader w h).1.out
        = w.out ++ localHeaderBuf h.prepare ++ h.fh.Name ++ h.prepare.fh.Extra
    ∧ h.prepare.fh.Extra.length = h.fh.Extra.length
        + (promotion h.fh.UncompressedSize64 h.fh.CompressedSize64 h.offset).length
    ∧ ((w.out ++ localHeaderBuf h.prepare ++ h.fh.Name ++ h.prepare.fh.Extra).drop
          (w.out.length + 28)).take 2 = le16 (h.prepare.fh.Extra.length % 2 ^ 16) := by
  obtain ⟨_, e2, _, _, e5, e6⟩ := writeHeader_ok w h hok
  refine ⟨e5, e6, ?_, ?_, ?_⟩
  · rw [e2, prepare_name]
  · rw [prepare_extra, List.length_append]
  · rw [List.append_assoc, List.append_assoc, List.drop_append, localHeaderBuf_eq]
    simp [le16, le32, leBytes]
    omega

/-- The local header of a header named by one byte, with 65530 bytes of extra field and an
uncompressed size of 2^32 - 1 bytes, written at offset 0 to a sink without a limit. -/
theorem writeHeader_long_extra (h : header) (hn : h.fh.Name.length = 1)
    (he : h.fh.Extra.length = 65530) (hu : h.fh.UncompressedSize64 = 2 ^ 32 - 1)
    (hc : h.fh.CompressedSize64 = 0) (ho : h.offset = 0) :
    (writeHeader (NewWriter none).cw h).2.2 = none
    ∧ ((writeHeader (NewWriter none).cw h).1.out.drop 28).take 2 = [14, 0]
    ∧ (writeHeader (NewWriter none).cw h).1.out.length = 30 + 1 + 65550 := by
  obtain ⟨hok, _, _⟩ := writeHeader_unlimited (NewWriter none).cw h (by omega) (by omega) rfl rfl
  obtain ⟨_, _, e3, e4, e5⟩ := writeHeader_extra _ h hok
  have hp : (promotion h.fh.UncompressedSize64 h.fh.CompressedSize64 h.offset).length = 20 := by
    rw [hu, hc, ho]
    decide
  rw [hp, he] at e4
  refine ⟨hok, ?_, ?_⟩
  · have h0 : (NewWriter none).cw.out = [] := rfl
    rw [h0] at e3 e5
    simp only [List.length_nil, Nat.zero_add] at e5
    rw [e3, e5, e4]
    rfl
  · have h0 : (NewWriter none).cw.out = [] := rfl
    rw [e3, h0]
    simp only [List.length_append, List.length_nil, localHeaderBuf_length, hn, e4]

/-- C24: a successful `writeHeader` has accepted a name and an extra field of at most 65535
bytes each, emits after the name the extra field followed by the ZIP64 block of the
promotion, and stores at bytes 28..29 the length of the two together modulo 2^16. For an
extra field of 65530 bytes and an uncompressed size of 2^32 - 1 bytes, the field holds 14
and 65550 bytes of extra field are emitted. -/
theorem extra_length_field (w : countWriter) (h : header) :
    ((writeHeader w h).2.2 = none →
      h.fh.Name.length ≤ 65535 ∧ h.fh.Extra.length ≤ 65535
      ∧ (writeHeader w h).1.out
          = w.out ++ localHeaderBuf h.prepare ++ h.fh.Name ++ h.prepare.fh.Extra
      ∧ h.prepare.fh.Extra.length = h.fh.Extra.length
          + (promotion h.fh.UncompressedSize64 h.fh.CompressedSize64 h.offset).length
      ∧ ((w.out ++ localHeaderBuf h.prepare ++ h.fh.Name ++ h.prepare.fh.Extra).drop
            (w.out.length + 28)).take 2 = le16 (h.prepare.fh.Extra.length % 2 ^ 16))
    ∧ longExtraHeader.fh.Extra.length = 65530
    ∧ (writeHeader (NewWriter none).cw longExtraHeader).2.2 = none
    ∧ ((writeHeader (NewWriter none).cw longExtraHeader).1.out.drop 28).take 2 = [14, 0]
    ∧ (writeHeader (NewWriter none).cw longExtraHeader).1.out.length = 30 + 1 + 65550 := by
  have he : longExtraHeader.fh.Extra.length = 65530 := by
    show (List.replicate 65530 0).length = 65530
    exact List.length_replicate _ _
  exact ⟨writeHeader_extra w h, he, writeHeader_long_extra longExtraHeader rfl he rfl rfl rfl⟩

/-! ### Reset of a used object -/

/-- The state `Reset` leaves: the counters and the buffer are cleared and the threshold
follows the level asked for, but the compressor has the level asked for only when the object
had no compressor yet; a compressor that is there keeps its level. -/
theorem Object.Reset_state (host : Host) (o : Object) (addr : Nat) (path : List Nat)
    (info : Option FileInfo) (level : Int) (hok : (o.Reset host addr path info level).2 = none) :
    (o.Reset host addr path info level).1.written = 0
    ∧ (o.Reset host addr path info level).1.overflow = none
    ∧ (o.Reset host addr path info level).1.compressedData.data = []
    ∧ (o.Reset host addr path info level).1.compressMinSize = (if level > 6 then 44 else 128)
    ∧ (o.Reset host addr path info level).1.compressor
        = some { level := (match o.compressor with
                            | none => level
                            | some c => c.level),
                 pending := [], closed := false } := by
  unfold Object.Reset at *
  cases info with
  | none => simp at hok
  | some fi =>
    by_cases hp : path = []
    · simp [hp] at hok
    · cases hv : validLevel level with
      | some e => simp [hp, hv] at hok
      | none =>
        cases hl : (if fi.isSymlink then host.readlink path else .ok []) with
        | error e => simp [hp, hv, hl] at hok
        | ok link =>
          simp only [hp, hv, hl, if_false]
          cases o.compressor <;> simp [Buffer.Reset]

/-- C25: after a successful `Reset`, `written` is 0, there is no overflow file,
`compressedData` is empty and `compressMinSize` is the one of the level asked for; the
compressor has that level when the object had none, and keeps the level it was made with
otherwise. An object first reset at level 1 and reset again at level 9 has a compressor of
level 1 next to the threshold 44 of level 9. -/
theorem reset_compressor_level (host : Host) (o : Object) (addr : Nat) (path : List Nat)
    (info : Option FileInfo) (level : Int) :
    ((o.Reset host addr path info level).2 = none →
      (o.Reset host addr path info level).1.written = 0
      ∧ (o.Reset host addr path info level).1.overflow = none
      ∧ (o.Reset host addr path info level).1.compressedData.data = []
      ∧ (o.Reset host addr path info level).1.compressMinSize = (if level > 6 then 44 else 128)
      ∧ (o.Reset host addr path info level).1.compressor.map (fun c => c.level)
          = some (match o.compressor with
                  | none => level
                  | some c => c.level))
    ∧ usedObject.compressor.map (fun c => c.level) = some 1
    ∧ (usedObject.Reset sampleHost 1 [97] (some sampleInfo) 9).2 = none
    ∧ (usedObject.Reset sampleHost 1 [97] (some sampleInfo) 9).1.compressor.map
        (fun c => c.level) = some 1
    ∧ (usedObject.Reset sampleHost 1 [97] (some sampleInfo) 9).1.compressMinSize = 44
    ∧ ((Object.new 16).Reset sampleHost 1 [97] (some sampleInfo) 9).1.compressor.map
        (fun c => c.level) = some 9 := by
  refine ⟨fun hok => ?_, by decide, by decide, by decide, by decide, by decide⟩
  obtain ⟨h1, h2, h3, h4, h5⟩ := Object.Reset_state host o addr path info level hok
  exact ⟨h1, h2, h3, h4, by rw [h5]; rfl⟩

/-! ### Extraction -/

/-- C26: with the output directory `out`, the entry named `../x` gets the target `x`, which
is not below `out`, and the entry `a/../../etc/passwd` gets `etc/passwd`; with the output
directory `/out`, the entry `../etc/passwd` gets `/etc/passwd`. A name that starts with a
slash stays below the output directory: `/etc/passwd` gets `out/etc/passwd`. -/
theorem extract_target_escapes :
    ({ OutDir := bytesOf "out", Concurrency := 1 } : ExtractOptions).targetPath (bytesOf "../x")
      = bytesOf "x"
    ∧ below (Clean (bytesOf "out")) (bytesOf "x") = false
    ∧ ({ OutDir := bytesOf "out", Concurrency := 1 } : ExtractOptions).targetPath
        (bytesOf "a/../../etc/passwd") = bytesOf "etc/passwd"
    ∧ ({ OutDir := bytesOf "/out", Concurrency := 1 } : ExtractOptions).targetPath
        (bytesOf "../etc/passwd") = bytesOf "/etc/passwd"
    ∧ below (Clean (bytesOf "/out")) (bytesOf "/etc/passwd") = false
    ∧ ({ OutDir := bytesOf "out", Concurrency := 1 } : ExtractOptions).targetPath
        (bytesOf "/etc/passwd") = bytesOf "out/etc/passwd"
    ∧ below (Clean (bytesOf "out")) (bytesOf "out/etc/passwd") = true := by
  decide

/-! ### FormatName -/

theorem bytesOf_zip : bytesOf ".zip" = [46, 122, 105, 112] := by decide

theorem Ext_append_zip (name : List Nat) : Ext (name ++ bytesOf ".zip") = bytesOf ".zip" := by
  rw [bytesOf_zip]
  simp [Ext, extScan]

/-- C27: `FormatName` always yields a name whose extension is `.zip`, it is idempotent, and
it returns its argument unchanged exactly when the extension of the argument is `.zip`; the
extension `.ZIP` is not `.zip`, so `a.ZIP` becomes `a.ZIP.zip`. -/
theorem formatName_idempotent (name : List Nat) :
    Ext (FormatName name) = bytesOf ".zip"
    ∧ FormatName (FormatName name) = FormatName name
    ∧ (FormatName name = name ↔ Ext name = bytesOf ".zip")
    ∧ FormatName (bytesOf "a.ZIP") = bytesOf "a.ZIP.zip" := by
  have hext : Ext (FormatName name) = bytesOf ".zip" := by
    unfold FormatName
    by_cases h : Ext name = bytesOf ".zip"
    · simp only [h, if_true]
    · simp only [h, if_false]
      exact Ext_append_zip name
  refine ⟨hext, ?_, ?_, by decide⟩
  · generalize hg : FormatName name = g at hext
    unfold FormatName
    simp only [hext, if_true]
  · unfold FormatName
    by_cases h : Ext name = bytesOf ".zip"
    · simp only [h, if_true]
    · simp only [h, if_false, iff_false]
      intro heq
      have := congrArg List.length heq
      rw [bytesOf_zip] at this
      simp at this

end Pzip
